import Mathlib

/-!
# A verification development for the snabbdom reconciliation engine (`src/init.ts`)

This file gives a shallow embedding of the reconciliation engine of the
repository: the vnode model, the host-tree (DOM) adapter state, and the
functions `createKeyToOldIdx`, `createRmCb`, `invokeDestroyHook`,
`removeVnodes`, `createElm`, `addVnodes`, `updateChildren`, `patchVnode`
and `patch` of `src/src/init.ts`, translated into executable Lean
definitions.  Host-tree mutations and lifecycle-hook invocations are
recorded in an event trace; the DOM is modelled as an association list
from node ids to their ordered children lists; JS object identity of
vnodes is modelled by a `vid : Nat` field (distinct objects carry
distinct ids); machine-level details that the engine never observes
(actual hook callback code, attribute stores) are represented by
presence flags and trace events.

The imported modules `vnode.ts`, `is.ts` and `htmldomapi.ts` are not
part of the repository snapshot; the vnode record shape and the DOM
adapter capability set are modelled from the specification ("Node
Model", "Host Tree Adapter" in the spec), matching exactly the fields
and primitives `init.ts` consumes.
-/

set_option maxHeartbeats 2000000

namespace Snabbdom

/-- JS primitive key values (string or number), the type of `vnode.key`.
Modelled from the spec: `key`: optional primitive (string or number)
(`vnode.ts` is not in the snapshot). -/
inductive JsKey where
  | str (s : String)
  | num (n : Int)
deriving DecidableEq, Repr

/-- The JS property-key coercion applied by `map[key as string]`:
numbers are converted to their decimal string. -/
def JsKey.toProp : JsKey → String
  | .str s => s
  | .num n => toString n

/-- `vnode.key as string` where `key` may be `undefined`: JS coerces
`undefined` to the property key `"undefined"`. -/
def propOfOptKey : Option JsKey → String
  | none => "undefined"
  | some k => k.toProp

/-- Presence flags for the per-node hooks read from `data.hook`
(`init`, `create`, `insert`, `prepatch`, `update`, `postpatch`,
`destroy`, `remove`).  The engine only tests presence and invokes the
callback; invocations are recorded as trace events. -/
structure Hooks where
  hInit : Bool
  hCreate : Bool
  hInsert : Bool
  hPrepatch : Bool
  hUpdate : Bool
  hPostpatch : Bool
  hDestroy : Bool
  hRemove : Bool
deriving DecidableEq, Repr

/-- A `Hooks` record with every hook absent. -/
def noHooks : Hooks := ⟨false, false, false, false, false, false, false, false⟩

/-- The `data` configuration bag: the engine reads `data.hook`,
`data.is` and `data.ns` (other module-owned entries are opaque to the
core and omitted). -/
structure VNodeData where
  hook : Option Hooks
  is : Option String
  ns : Option String
deriving DecidableEq, Repr

/-- `data` present but empty, as produced by `data ??= {}`. -/
def emptyData : VNodeData := ⟨none, none, none⟩

/-- The vnode record: `sel`, `key`, `data`, `children`, `text`, `elm`
as in `vnode.ts` (modelled from the spec's Node Model).  `children`
entries may be `null` (`none`); `elm` holds the id of the bound host
node once materialized; `vid` models JS object identity (distinct
objects have distinct `vid`s), used for the `oldVnode === vnode`
check. -/
inductive VNode where
  | mk (sel : Option String) (key : Option JsKey) (data : Option VNodeData)
       (children : Option (List (Option VNode))) (text : Option String)
       (elm : Option Nat) (vid : Nat)

def VNode.sel : VNode → Option String
  | .mk s _ _ _ _ _ _ => s

def VNode.key : VNode → Option JsKey
  | .mk _ k _ _ _ _ _ => k

def VNode.data : VNode → Option VNodeData
  | .mk _ _ d _ _ _ _ => d

def VNode.children : VNode → Option (List (Option VNode))
  | .mk _ _ _ c _ _ _ => c

def VNode.text : VNode → Option String
  | .mk _ _ _ _ t _ _ => t

def VNode.elm : VNode → Option Nat
  | .mk _ _ _ _ _ e _ => e

def VNode.vid : VNode → Nat
  | .mk _ _ _ _ _ _ i => i

/-- Replace the `elm` binding (the engine's only write to `elm`). -/
def VNode.withElm : VNode → Option Nat → VNode
  | .mk s k d c t _ i, e => .mk s k d c t e i

/-- Replace the `data` bag (for `data ??= {}` and `vnode.text = ""`-style writes). -/
def VNode.withData : VNode → Option VNodeData → VNode
  | .mk s k _ c t e i, d => .mk s k d c t e i

/-- Replace the `text` field (for `vnode.text = ""` in the comment case). -/
def VNode.withText : VNode → Option String → VNode
  | .mk s k d c _ e i, t => .mk s k d c t e i

/-- Replace the `children` list (array writes are shared with the owner). -/
def VNode.withChildren : VNode → Option (List (Option VNode)) → VNode
  | .mk s k d _ t e i, c => .mk s k d c t e i

/-- `vnode.data?.is`. -/
def VNode.dataIs (v : VNode) : Option String := v.data.bind (·.is)

/-- `vnode.data?.hook` (`undefined` when `data` is absent). -/
def VNode.hook (v : VNode) : Option Hooks := v.data.bind (·.hook)

/-- `sameVnode` from `init.ts`: same `sel`, same `key`, same `data?.is`. -/
def sameVnode (vnode1 vnode2 : VNode) : Bool :=
  let isSameKey := decide (vnode1.key = vnode2.key)
  let isSameIs := decide (vnode1.dataIs = vnode2.dataIs)
  let isSameSel := decide (vnode1.sel = vnode2.sel)
  isSameSel && isSameKey && isSameIs

/-- Indexed read `xs[i]` on a JS array of possibly-null vnodes:
out-of-range reads yield `undefined`; both `undefined` and `null`
results are represented as `none` (the engine only ever tests them
with `== null` or dereferences, where the two behave alike). -/
def getOpt (l : List (Option VNode)) (i : Int) : Option VNode :=
  if h : 0 ≤ i ∧ i.toNat < l.length then l.get ⟨i.toNat, h.2⟩ else none

/-- Positional write `xs[i] = v` (all writes the engine performs are
in range; out-of-range writes are dropped). -/
def setAt (l : List (Option VNode)) (i : Int) (v : Option VNode) : List (Option VNode) :=
  if 0 ≤ i then l.set i.toNat v else l

/-! ## The key-to-index map (`createKeyToOldIdx`)

The JS object used as the map is modelled as an association list where
a later write is consed on front, so lookup (first match) returns the
most recent write — exactly JS property assignment semantics. -/

/-- One property write `map[k] = i`. -/
def kmapInsert (m : List (String × Int)) (k : String) (i : Int) : List (String × Int) :=
  (k, i) :: m

/-- Property read `map[k]` (`undefined` when never written). -/
def kmapLookup (m : List (String × Int)) (k : String) : Option Int :=
  (m.find? (fun p => p.1 = k)).map (·.2)

/-- The loop body of `createKeyToOldIdx`, iterating `i` upward for
`n` remaining iterations: `const key = children[i]?.key; if (key !==
undefined) map[key as string] = i`. -/
def ckLoop (children : List (Option VNode)) : Nat → Int → List (String × Int) → List (String × Int)
  | 0, _, m => m
  | n + 1, i, m =>
    let m' := match (getOpt children i).bind (·.key) with
      | none => m
      | some k => kmapInsert m k.toProp i
    ckLoop children n (i + 1) m'

/-- `createKeyToOldIdx(children, beginIdx, endIdx)` from `init.ts`:
scan `i` from `beginIdx` to `endIdx` inclusive, recording
`map[children[i].key] = i` for each non-null child with a defined key. -/
def createKeyToOldIdx (children : List (Option VNode)) (beginIdx endIdx : Int) :
    List (String × Int) :=
  ckLoop children (endIdx + 1 - beginIdx).toNat beginIdx []

/-! ## The reference-counted removal callback (`createRmCb`) -/

/-- Module-hook callback counts after `init`'s flattening of the module
list (`cbs`): the number of registered module hooks per phase. -/
structure Cbs where
  create : Nat
  update : Nat
  remove : Nat
  destroy : Nat
  pre : Nat
  post : Nat
deriving DecidableEq, Repr

/-- The shared listener count `createRmCb` starts from, as computed in
`removeVnodes`: `listeners = cbs.remove.length + 1`. -/
def rmListeners (cbs : Cbs) : Int := (cbs.remove : Int) + 1

/-- One invocation of the `rmCb` closure: `if (--listeners === 0) {
... removeChild ... }`.  Returns the decremented count and whether this
invocation performs the physical detach. -/
def rmCbStep (listeners : Int) : Int × Bool :=
  (listeners - 1, decide (listeners - 1 = 0))

/-- `n` successive invocations of the `rmCb` closure from counter
value `l`: final counter value and how many of the invocations
performed the physical detach. -/
def rmCbRun : Nat → Int → Int × Nat
  | 0, l => (l, 0)
  | n + 1, l =>
    let s := rmCbStep l
    let r := rmCbRun n s.1
    (r.1, (if s.2 then 1 else 0) + r.2)

lemma rmCbRun_counter (n : Nat) (l : Int) : (rmCbRun n l).1 = l - n := by
  induction n generalizing l with
  | zero => simp [rmCbRun]
  | succ n ih =>
    simp only [rmCbRun, rmCbStep]
    rw [ih]
    push_cast
    ring

/-- Once the counter has fallen to zero or below, no later invocation
ever detaches again (the `--listeners === 0` test can no longer hit). -/
lemma rmCbRun_nonpos (n : Nat) (x : Int) (hx : x ≤ 0) : (rmCbRun n x).2 = 0 := by
  induction n generalizing x with
  | zero => simp [rmCbRun]
  | succ n ih =>
    simp only [rmCbRun, rmCbStep]
    have hne : ¬(x - 1 = 0) := by omega
    rw [ih (x - 1) (by omega)]
    simp [hne]

lemma rmCbRun_detaches (n : Nat) (l : Int) (hl : 1 ≤ l) :
    (rmCbRun n l).2 = if l ≤ n then 1 else 0 := by
  induction n generalizing l with
  | zero =>
    simp only [rmCbRun, Nat.cast_zero]
    rw [if_neg (by omega)]
  | succ n ih =>
    simp only [rmCbRun, rmCbStep]
    by_cases h1 : l - 1 = 0
    · have hz : l = 1 := by omega
      subst hz
      rw [rmCbRun_nonpos n (1 - 1) (by omega)]
      rw [if_pos (by decide), if_pos (by omega)]
    · rw [ih (l - 1) (by omega), if_neg (by simpa using h1)]
      by_cases h2 : l - 1 ≤ (n : Int)
      · rw [if_pos h2, if_pos (by push_cast; omega)]
      · rw [if_neg h2, if_neg (by push_cast at h2 ⊢; omega)]

/-! ### Last-write-wins specification of the key map -/

/-- `children[i]?.key` coerced to a JS property key, the value the map
is indexed by. -/
def keyPropAt (children : List (Option VNode)) (i : Int) : Option String :=
  ((getOpt children i).bind (·.key)).map JsKey.toProp

/-- The greatest index `j` in `[i, i+n)` with `keyPropAt children j = some p`. -/
def lastMatch (children : List (Option VNode)) (p : String) : Nat → Int → Option Int
  | 0, _ => none
  | n + 1, i =>
    match lastMatch children p n (i + 1) with
    | some j => some j
    | none => if keyPropAt children i = some p then some i else none

lemma kmapLookup_insert (m : List (String × Int)) (k p : String) (i : Int) :
    kmapLookup (kmapInsert m k i) p = if k = p then some i else kmapLookup m p := by
  simp only [kmapInsert, kmapLookup, List.find?]
  by_cases h : k = p
  · simp [h]
  · simp [h]

lemma ckLoop_lookup (children : List (Option VNode)) (p : String) :
    ∀ (n : Nat) (i : Int) (m : List (String × Int)),
      kmapLookup (ckLoop children n i m) p =
        ((lastMatch children p n i).or (kmapLookup m p)) := by
  intro n
  induction n with
  | zero => intro i m; simp [ckLoop, lastMatch, Option.or]
  | succ n ih =>
    intro i m
    simp only [ckLoop, lastMatch]
    rw [ih]
    rcases hlm : lastMatch children p n (i + 1) with _ | j
    · simp only [hlm, Option.none_or]
      rcases hk : (getOpt children i).bind (·.key) with _ | k
      · have hkp : ¬(keyPropAt children i = some p) := by
          simp [keyPropAt, hk]
        simp [hkp, Option.or]
      · rw [kmapLookup_insert]
        by_cases he : k.toProp = p
        · have hkp : keyPropAt children i = some p := by
            simp [keyPropAt, hk, he]
          simp [he, hkp, Option.or]
        · have hkp : ¬(keyPropAt children i = some p) := by
            simp [keyPropAt, hk, he]
          simp [he, hkp]
    · simp [hlm]

lemma lastMatch_none (children : List (Option VNode)) (p : String) :
    ∀ (n : Nat) (i : Int), lastMatch children p n i = none →
      ∀ i', i ≤ i' → i' < i + n → keyPropAt children i' ≠ some p := by
  intro n
  induction n with
  | zero => intro i _ i' h1 h2; omega
  | succ n ih =>
    intro i h i' h1 h2
    simp only [lastMatch] at h
    rcases hlm : lastMatch children p n (i + 1) with _ | j'
    · rw [hlm] at h
      by_cases hk : keyPropAt children i = some p
      · simp [hk] at h
      · by_cases hi : i' = i
        · exact hi ▸ hk
        · exact ih (i + 1) hlm i' (by omega) (by omega)
    · rw [hlm] at h; simp at h

lemma lastMatch_mem (children : List (Option VNode)) (p : String) :
    ∀ (n : Nat) (i j : Int), lastMatch children p n i = some j →
      i ≤ j ∧ j < i + n ∧ keyPropAt children j = some p ∧
        ∀ i', j < i' → i' < i + n → keyPropAt children i' ≠ some p := by
  intro n
  induction n with
  | zero => intro i j h; simp [lastMatch] at h
  | succ n ih =>
    intro i j h
    simp only [lastMatch] at h
    rcases hlm : lastMatch children p n (i + 1) with _ | j'
    · rw [hlm] at h
      by_cases hk : keyPropAt children i = some p
      · rw [if_pos hk] at h
        obtain rfl : i = j := by simpa using h
        refine ⟨le_refl _, by omega, hk, ?_⟩
        intro i' hlt hub
        exact lastMatch_none children p n (i + 1) hlm i' (by omega) (by omega)
      · rw [if_neg hk] at h
        simp at h
    · rw [hlm] at h
      obtain ⟨h1, h2, h3, h4⟩ := ih (i + 1) j' hlm
      have hj : j' = j := by simpa using h
      subst hj
      refine ⟨by omega, by omega, h3, ?_⟩
      intro i' hlt hub
      exact h4 i' hlt (by omega)

lemma lastMatch_isSome (children : List (Option VNode)) (p : String) :
    ∀ (n : Nat) (i i' : Int), i ≤ i' → i' < i + n → keyPropAt children i' = some p →
      (lastMatch children p n i).isSome := by
  intro n
  induction n with
  | zero => intro i i' h1 h2 _; omega
  | succ n ih =>
    intro i i' h1 h2 hk
    simp only [lastMatch]
    rcases hlm : lastMatch children p n (i + 1) with _ | j
    · by_cases hi : i' = i
      · subst hi
        simp [hk]
      · have := ih (i + 1) i' (by omega) (by omega) hk
        rw [hlm] at this
        simp at this
    · simp

/-- **C9.** For every old-children window and every key, `createKeyToOldIdx`
records the index of the *last* child in the scanned range `[beginIdx,
endIdx]` carrying that key (last write wins): looking the key up yields an
index that is itself a match, is at least any given matching index, and is
followed by no further match in the range.  The keyed fallback of
`updateChildren` consults exactly this map (see `updateLoop` below), hence
matches the duplicate with the highest index. -/
theorem claim_C9_keymap_last_write_wins
    (children : List (Option VNode)) (beginIdx endIdx i : Int) (p : String)
    (hbi : beginIdx ≤ i) (hie : i ≤ endIdx)
    (hk : keyPropAt children i = some p) :
    ∃ j, kmapLookup (createKeyToOldIdx children beginIdx endIdx) p = some j ∧
      i ≤ j ∧ j ≤ endIdx ∧ keyPropAt children j = some p ∧
      ∀ i', j < i' → i' ≤ endIdx → keyPropAt children i' ≠ some p := by
  have hlk := ckLoop_lookup children p (endIdx + 1 - beginIdx).toNat beginIdx []
  have hn : (beginIdx : Int) + ((endIdx + 1 - beginIdx).toNat : Int) = endIdx + 1 := by
    omega
  have hsome := lastMatch_isSome children p (endIdx + 1 - beginIdx).toNat beginIdx i
    hbi (by omega) hk
  rcases hlm : lastMatch children p (endIdx + 1 - beginIdx).toNat beginIdx with _ | j
  · rw [hlm] at hsome; simp at hsome
  · obtain ⟨h1, h2, h3, h4⟩ := lastMatch_mem children p _ _ _ hlm
    refine ⟨j, ?_, ?_, by omega, h3, ?_⟩
    · rw [createKeyToOldIdx] at *
      rw [hlk, hlm]
      rfl
    · by_contra hji
      push_neg at hji
      exact h4 i hji (by omega) hk
    · intro i' hlt hub
      exact h4 i' hlt (by omega)

/-- Two flat vnodes sharing the key `"a"` at indices 0 and 1. -/
def exChildA : VNode := .mk (some "div") (some (.str "a")) none none none (some 10) 1

/-- Second duplicate-key vnode. -/
def exChildA2 : VNode := .mk (some "div") (some (.str "a")) none none none (some 11) 2

/-- Concrete children list with a duplicated sibling key. -/
def exDup : List (Option VNode) := [some exChildA, some exChildA2]

/-- Witness for C9 at a concrete duplicate-key list: the map records
index 1, the last of the two duplicates. -/
theorem claim_C9_keymap_last_write_wins_witness :
    ∃ j, kmapLookup (createKeyToOldIdx exDup 0 1) "a" = some j ∧
      (0 : Int) ≤ j ∧ j ≤ 1 ∧ keyPropAt exDup j = some "a" ∧
      ∀ i', j < i' → i' ≤ 1 → keyPropAt exDup i' ≠ some "a" :=
  claim_C9_keymap_last_write_wins exDup 0 1 0 "a" (by decide) (by decide) (by decide)

/-- **C3.** When `removeVnodes` removes a node with a defined selector, the
shared reference count starts at (number of registered module `remove`
hooks) + 1; the host node is physically detached exactly when the count
reaches zero — i.e. on the `(cbs.remove + 1)`-th invocation of the shared
callback — and at most once no matter how many additional times the
callback is invoked afterward: extra invocations drive the counter negative
(`rmListeners cbs - n`) but never trigger a second detach. -/
theorem claim_C3_rm_callback_detaches_once (cbs : Cbs) (n : Nat) :
    rmListeners cbs = (cbs.remove : Int) + 1 ∧
    (rmCbRun n (rmListeners cbs)).2 = (if (cbs.remove : Int) + 1 ≤ n then 1 else 0) ∧
    (rmCbRun n (rmListeners cbs)).2 ≤ 1 ∧
    (rmCbRun n (rmListeners cbs)).1 = (cbs.remove : Int) + 1 - n := by
  refine ⟨rfl, ?_, ?_, ?_⟩
  · rw [rmListeners, rmCbRun_detaches n _ (by omega)]
  · rw [rmListeners, rmCbRun_detaches n _ (by omega)]
    split <;> omega
  · rw [rmListeners, rmCbRun_counter]

/-! ## Host-tree state, event trace and the engine monad

The DOM adapter (`htmldomapi.ts`, not in the snapshot) is modelled from
the spec's Host Tree Adapter capability set: the live tree is an
association list from node id to its ordered children ids, and every
adapter call and every hook invocation is appended to an event trace. -/

/-- Observable events: adapter calls and lifecycle-hook invocations. -/
inductive Ev where
  | createElement (id : Nat) (tag : String)
  | createElementNS (id : Nat) (ns tag : String)
  | createTextNode (id : Nat) (text : String)
  | createComment (id : Nat) (text : String)
  | createDocumentFragment (id : Nat)
  | setAttr (id : Nat) (name value : String)
  | appendChild (parent child : Nat)
  | insertBefore (parent child : Nat) (ref : Option Nat)
  | removeChild (parent child : Nat)
  | setTextContent (id : Nat) (text : String)
  | hookInit (vid : Nat)
  | hookCreate (vid : Nat)
  | hookInsert (vid : Nat)
  | hookPrepatch (oldVid newVid : Nat)
  | hookUpdate (oldVid newVid : Nat)
  | hookPostpatch (oldVid newVid : Nat)
  | hookDestroy (vid : Nat)
  | hookRemove (vid : Nat)
  | moduleCreate (i : Nat) (vid : Nat)
  | moduleUpdate (i : Nat) (oldVid newVid : Nat)
  | moduleDestroy (i : Nat) (vid : Nat)
  | moduleRemove (i : Nat) (vid : Nat)
  | modulePre (i : Nat)
  | modulePost (i : Nat)
deriving DecidableEq, Repr

/-- Adapter-call (host-tree) events, as opposed to hook invocations. -/
def Ev.isAdapter : Ev → Bool
  | .createElement .. | .createElementNS .. | .createTextNode .. | .createComment ..
  | .createDocumentFragment .. | .setAttr .. | .appendChild .. | .insertBefore ..
  | .removeChild .. | .setTextContent .. => true
  | _ => false

/-- The host document tree: node id ↦ ordered children ids. -/
abbrev Dom := List (Nat × List Nat)

def domLookup (d : Dom) (p : Nat) : Option (List Nat) :=
  (d.find? (fun q => q.1 = p)).map (·.2)

/-- Replace the children list of node `p` (first matching entry). -/
def domSet (d : Dom) (p : Nat) (l : List Nat) : Dom :=
  d.map (fun q => if q.1 = p then (p, l) else q)

/-- Detach `c` from every children list (a DOM node has at most one
parent; insertion into a new parent first unlinks it). -/
def domUnlink (d : Dom) (c : Nat) : Dom :=
  d.map (fun q => (q.1, q.2.erase c))

/-- Insert `c` immediately before the first occurrence of `ref`. -/
def listInsertBefore (l : List Nat) (c ref : Nat) : List Nat :=
  match l with
  | [] => []
  | x :: t => if x = ref then c :: x :: t else x :: listInsertBefore t c ref

/-- `parentNode(c)`: the node whose children list contains `c`. -/
def domParent (d : Dom) (c : Nat) : Option Nat :=
  (d.find? (fun q => c ∈ q.2)).map (·.1)

/-- The element following `c` in a children list, if any. -/
def listNextAfter : List Nat → Nat → Option Nat
  | [], _ => none
  | [_], _ => none
  | x :: y :: t, c => if x = c then some y else listNextAfter (y :: t) c

/-- `nextSibling(c)`. -/
def domNextSibling (d : Dom) (c : Nat) : Option Nat :=
  match domParent d c with
  | none => none
  | some p =>
    match domLookup d p with
    | none => none
    | some l => listNextAfter l c

/-- Engine errors: the fatal fragment configuration error
(`documentFragmentIsNotSupported`), JS `TypeError`s from dereferencing
`undefined`/`null`, DOM `NotFoundError`s, and exhaustion of the
recursion fuel (never reached with sufficient fuel). -/
inductive Err where
  | fragmentNotSupported
  | typeErr
  | domErr
  | fuelErr
deriving DecidableEq, Repr

/-- Mutable engine state: fresh-node counter, host tree, event trace,
and the pass-scoped `insertedVnodeQueue`. -/
structure S where
  nextId : Nat
  dom : Dom
  trace : List Ev
  queue : List VNode

/-- The engine monad: state plus JS exceptions.  Errors do not roll the
state back (side effects performed before a throw stay performed). -/
abbrev M (α : Type) := ExceptT Err (StateM S) α

/-- Run from a state, returning the outcome and the final state. -/
def runM {α : Type} (x : M α) (s : S) : Except Err α × S :=
  (ExceptT.run x).run s

def emit (e : Ev) : M Unit :=
  modify fun s => { s with trace := s.trace ++ [e] }

def emitAll (es : List Ev) : M Unit :=
  modify fun s => { s with trace := s.trace ++ es }

def pushQueue (v : VNode) : M Unit :=
  modify fun s => { s with queue := s.queue ++ [v] }

/-- Allocate a fresh host node id with an empty children list. -/
def allocNode : M Nat := do
  let s ← get
  set { s with nextId := s.nextId + 1, dom := s.dom ++ [(s.nextId, [])] }
  pure s.nextId

def apiCreateElement (tag : String) : M Nat := do
  let id ← allocNode
  emit (.createElement id tag)
  pure id

def apiCreateElementNS (ns tag : String) : M Nat := do
  let id ← allocNode
  emit (.createElementNS id ns tag)
  pure id

def apiCreateTextNode (text : String) : M Nat := do
  let id ← allocNode
  emit (.createTextNode id text)
  pure id

def apiCreateComment (text : String) : M Nat := do
  let id ← allocNode
  emit (.createComment id text)
  pure id

def apiCreateDocumentFragment : M Nat := do
  let id ← allocNode
  emit (.createDocumentFragment id)
  pure id

def apiSetAttribute (id : Nat) (name value : String) : M Unit :=
  emit (.setAttr id name value)

/-- `appendChild(parent, child)`: unlink the child, then append it. -/
def apiAppendChild (parent child : Nat) : M Unit := do
  emit (.appendChild parent child)
  let s ← get
  let d := domUnlink s.dom child
  match domLookup d parent with
  | none => throw .domErr
  | some l => set { s with trace := s.trace, dom := domSet d parent (l ++ [child]) }

/-- `insertBefore(parent, child, ref)`: unlink the child, then insert it
before `ref` (append when `ref` is null). -/
def apiInsertBefore (parent child : Nat) (ref : Option Nat) : M Unit := do
  emit (.insertBefore parent child ref)
  let s ← get
  let d := domUnlink s.dom child
  match domLookup d parent with
  | none => throw .domErr
  | some l =>
    match ref with
    | none => set { s with dom := domSet d parent (l ++ [child]) }
    | some r =>
      if r ∈ l then set { s with dom := domSet d parent (listInsertBefore l child r) }
      else throw .domErr

/-- `removeChild(parent, child)`. -/
def apiRemoveChild (parent child : Nat) : M Unit := do
  emit (.removeChild parent child)
  let s ← get
  match domLookup s.dom parent with
  | none => throw .domErr
  | some l =>
    if child ∈ l then set { s with dom := domSet s.dom parent (l.erase child) }
    else throw .domErr

def apiParentNode (c : Nat) : M (Option Nat) := do
  let s ← get
  pure (domParent s.dom c)

def apiNextSibling (c : Nat) : M (Option Nat) := do
  let s ← get
  pure (domNextSibling s.dom c)

def apiSetTextContent (id : Nat) (text : String) : M Unit :=
  emit (.setTextContent id text)

/-! ## `invokeDestroyHook` and `removeVnodes` -/

/-- The destroy events one node contributes: its own `hook.destroy`
call, then one call per registered module `destroy` hook. -/
def nodeDestroyEvs (cbs : Cbs) (hook : Option Hooks) (vid : Nat) : List Ev :=
  (match hook with
   | some h => if h.hDestroy then [Ev.hookDestroy vid] else []
   | none => []) ++
  (List.range cbs.destroy).map (fun i => Ev.moduleDestroy i vid)

mutual
/-- `invokeDestroyHook(vnode)` from `init.ts`: if `data` is defined,
invoke the node's own `hook.destroy`, then every registered module
`destroy` hook, then recurse into each non-null (non-string) child.
Everything is skipped when `data` is `undefined`. -/
def invokeDestroyHook (cbs : Cbs) : VNode → List Ev
  | .mk _ _ data children _ _ vid =>
    match data with
    | none => []
    | some d =>
      nodeDestroyEvs cbs d.hook vid ++
        (match children with
         | none => []
         | some chs => invokeDestroyList cbs chs)

/-- The `for (let j = 0; ...)` child loop of `invokeDestroyHook`
(null and string children are skipped — both modelled as `none`). -/
def invokeDestroyList (cbs : Cbs) : List (Option VNode) → List Ev
  | [] => []
  | none :: t => invokeDestroyList cbs t
  | some v :: t => invokeDestroyHook cbs v ++ invokeDestroyList cbs t
end

/-- The events of removing one non-text vnode in `removeVnodes`:
destroy recursion, module `remove` hooks sharing the ref-counted
callback, then the node's own `hook.remove` — or, when absent, the
immediate `rm()` call, which physically detaches only if it brought
the shared count to zero. -/
def removeOneVnode (cbs : Cbs) (ch : VNode) : M Unit := do
  emitAll (invokeDestroyHook cbs ch)
  emitAll ((List.range cbs.remove).map (fun i => Ev.moduleRemove i ch.vid))
  match ch.hook with
  | some h =>
    if h.hRemove then
      emit (.hookRemove ch.vid)
    else
      rmImmediate cbs ch.elm
  | none => rmImmediate cbs ch.elm
where
  /-- `rm()` invoked synchronously by `removeVnodes` itself when the
  node supplies no `hook.remove`: decrement the shared count (initially
  `rmListeners cbs`) and detach if it reached zero. -/
  rmImmediate (cbs : Cbs) (elm : Option Nat) : M Unit := do
    let st := rmCbStep (rmListeners cbs)
    if st.2 then
      match elm with
      | none => throw .typeErr
      | some e => do
        let p ← apiParentNode e
        match p with
        | none => throw .typeErr
        | some parent => apiRemoveChild parent e
    else
      pure ()

/-- The body of `removeVnodes`'s index loop, `n` iterations remaining. -/
def rvLoop (cbs : Cbs) (parentElm : Nat) (vnodes : List (Option VNode)) :
    Nat → Int → M Unit
  | 0, _ => pure ()
  | n + 1, idx => do
    (match getOpt vnodes idx with
     | none => pure ()
     | some ch =>
       if ch.sel.isSome then
         removeOneVnode cbs ch
       else
         match ch.elm with
         | none => throw .typeErr
         | some e => apiRemoveChild parentElm e)
    rvLoop cbs parentElm vnodes n (idx + 1)

/-- `removeVnodes(parentElm, vnodes, startIdx, endIdx)` from `init.ts`. -/
def removeVnodes (cbs : Cbs) (parentElm : Nat) (vnodes : List (Option VNode))
    (startIdx endIdx : Int) : M Unit :=
  rvLoop cbs parentElm vnodes (endIdx + 1 - startIdx).toNat startIdx

/-! ## Symbolic-execution lemmas for the engine monad -/

lemma runM_bind {α β : Type} (x : M α) (f : α → M β) (s : S) :
    runM (x >>= f) s =
      (match runM x s with
       | (.ok a, s') => runM (f a) s'
       | (.error e, s') => (.error e, s')) := by
  simp only [runM, Bind.bind, ExceptT.bind, ExceptT.run, ExceptT.mk, ExceptT.bindCont,
    StateT.bind, StateT.run, Id.bind_eq]
  rcases h : (ExceptT.run x).run s with ⟨r, s'⟩
  simp only [ExceptT.run, StateT.run] at h
  rw [h]
  rcases r with e | a
  · rfl
  · rfl

lemma runM_map {α β : Type} (f : α → β) (x : M α) (s : S) :
    runM (f <$> x) s =
      (match runM x s with
       | (.ok a, s') => (.ok (f a), s')
       | (.error e, s') => (.error e, s')) := by
  simp only [runM, Functor.map, ExceptT.map, ExceptT.run, ExceptT.mk,
    StateT.map, StateT.run, Id.map_eq, Id.bind_eq, StateT.bind, Id.pure_eq]
  rcases h : (ExceptT.run x).run s with ⟨r, s'⟩
  simp only [ExceptT.run, StateT.run] at h
  simp only [Bind.bind, StateT.bind, Id.bind_eq]
  rw [h]
  rcases r with e | a
  · rfl
  · rfl

@[simp] lemma runM_pure {α : Type} (a : α) (s : S) : runM (pure a) s = (.ok a, s) := rfl

@[simp] lemma runM_throw {α : Type} (e : Err) (s : S) :
    runM (throw e : M α) s = (.error e, s) := rfl

@[simp] lemma runM_emit (e : Ev) (s : S) :
    runM (emit e) s = (.ok (), { s with trace := s.trace ++ [e] }) := rfl

@[simp] lemma runM_emitAll (es : List Ev) (s : S) :
    runM (emitAll es) s = (.ok (), { s with trace := s.trace ++ es }) := rfl

@[simp] lemma runM_pushQueue (v : VNode) (s : S) :
    runM (pushQueue v) s = (.ok (), { s with queue := s.queue ++ [v] }) := rfl

@[simp] lemma runM_get (s : S) : runM (get : M S) s = (.ok s, s) := rfl

@[simp] lemma runM_set (s' s : S) : runM (set s' : M Unit) s = (.ok (), s') := rfl

@[simp] lemma runM_allocNode (s : S) :
    runM allocNode s =
      (.ok s.nextId, { s with nextId := s.nextId + 1, dom := s.dom ++ [(s.nextId, [])] }) := rfl

@[simp] lemma runM_apiParentNode (c : Nat) (s : S) :
    runM (apiParentNode c) s = (.ok (domParent s.dom c), s) := rfl

@[simp] lemma runM_apiNextSibling (c : Nat) (s : S) :
    runM (apiNextSibling c) s = (.ok (domNextSibling s.dom c), s) := rfl

@[simp] lemma runM_apiSetTextContent (id : Nat) (t : String) (s : S) :
    runM (apiSetTextContent id t) s =
      (.ok (), { s with trace := s.trace ++ [.setTextContent id t] }) := rfl

@[simp] lemma runM_apiSetAttribute (id : Nat) (n v : String) (s : S) :
    runM (apiSetAttribute id n v) s =
      (.ok (), { s with trace := s.trace ++ [.setAttr id n v] }) := rfl

lemma runM_apiRemoveChild (parent child : Nat) (s : S) :
    runM (apiRemoveChild parent child) s =
      (let s1 : S := { s with trace := s.trace ++ [.removeChild parent child] }
       match domLookup s.dom parent with
       | none => (.error .domErr, s1)
       | some l =>
         if child ∈ l then (.ok (), { s1 with dom := domSet s.dom parent (l.erase child) })
         else (.error .domErr, s1)) := by
  simp only [apiRemoveChild]
  rw [runM_bind, runM_emit]
  dsimp only
  rw [runM_bind, runM_get]
  dsimp only
  rcases h : domLookup s.dom parent with _ | l
  · simp [h]
  · simp only [h]
    by_cases hc : child ∈ l
    · simp [hc]
    · simp [hc]

lemma runM_apiAppendChild (parent child : Nat) (s : S) :
    runM (apiAppendChild parent child) s =
      (let s1 : S := { s with trace := s.trace ++ [.appendChild parent child] }
       let d := domUnlink s.dom child
       match domLookup d parent with
       | none => (.error .domErr, s1)
       | some l => (.ok (), { s1 with dom := domSet d parent (l ++ [child]) })) := by
  simp only [apiAppendChild]
  rw [runM_bind, runM_emit]
  dsimp only
  rw [runM_bind, runM_get]
  dsimp only
  rcases h : domLookup (domUnlink s.dom child) parent with _ | l
  · simp [h]
  · simp [h]

lemma runM_apiInsertBefore (parent child : Nat) (ref : Option Nat) (s : S) :
    runM (apiInsertBefore parent child ref) s =
      (let s1 : S := { s with trace := s.trace ++ [.insertBefore parent child ref] }
       let d := domUnlink s.dom child
       match domLookup d parent with
       | none => (.error .domErr, s1)
       | some l =>
         match ref with
         | none => (.ok (), { s1 with dom := domSet d parent (l ++ [child]) })
         | some r =>
           if r ∈ l then (.ok (), { s1 with dom := domSet d parent (listInsertBefore l child r) })
           else (.error .domErr, s1)) := by
  simp only [apiInsertBefore]
  rw [runM_bind, runM_emit]
  dsimp only
  rw [runM_bind, runM_get]
  dsimp only
  rcases h : domLookup (domUnlink s.dom child) parent with _ | l
  · simp [h]
  · rcases ref with _ | r
    · simp [h]
    · simp only [h]
      by_cases hr : r ∈ l
      · simp [hr]
      · simp [hr]

@[simp] lemma runM_apiCreateElement (tag : String) (s : S) :
    runM (apiCreateElement tag) s =
      (.ok s.nextId,
        { s with nextId := s.nextId + 1, dom := s.dom ++ [(s.nextId, [])],
                 trace := s.trace ++ [.createElement s.nextId tag] }) := rfl

@[simp] lemma runM_apiCreateElementNS (ns tag : String) (s : S) :
    runM (apiCreateElementNS ns tag) s =
      (.ok s.nextId,
        { s with nextId := s.nextId + 1, dom := s.dom ++ [(s.nextId, [])],
                 trace := s.trace ++ [.createElementNS s.nextId ns tag] }) := rfl

@[simp] lemma runM_apiCreateTextNode (t : String) (s : S) :
    runM (apiCreateTextNode t) s =
      (.ok s.nextId,
        { s with nextId := s.nextId + 1, dom := s.dom ++ [(s.nextId, [])],
                 trace := s.trace ++ [.createTextNode s.nextId t] }) := rfl

@[simp] lemma runM_apiCreateComment (t : String) (s : S) :
    runM (apiCreateComment t) s =
      (.ok s.nextId,
        { s with nextId := s.nextId + 1, dom := s.dom ++ [(s.nextId, [])],
                 trace := s.trace ++ [.createComment s.nextId t] }) := rfl

@[simp] lemma runM_apiCreateDocumentFragment (s : S) :
    runM apiCreateDocumentFragment s =
      (.ok s.nextId,
        { s with nextId := s.nextId + 1, dom := s.dom ++ [(s.nextId, [])],
                 trace := s.trace ++ [.createDocumentFragment s.nextId] }) := rfl

/-! ## The destroy-reachable set and the order of destroy vs. remove -/

mutual
/-- Structural size of a vnode tree (for inductions over the nesting). -/
def vnSize : VNode → Nat
  | .mk _ _ _ children _ _ _ =>
    1 + (match children with
         | none => 0
         | some chs => vnListSize chs)

def vnListSize : List (Option VNode) → Nat
  | [] => 0
  | none :: t => 1 + vnListSize t
  | some v :: t => 1 + vnSize v + vnListSize t
end

mutual
/-- The nodes actually visited by `invokeDestroyHook`, in visit
(pre-)order: a node with undefined `data` is skipped *together with
its whole subtree*; otherwise the node itself followed by the visited
part of its children. -/
def destroyReach : VNode → List VNode
  | .mk sel key data children text elm vid =>
    match data with
    | none => []
    | some d =>
      VNode.mk sel key (some d) children text elm vid ::
        (match children with
         | none => []
         | some chs => destroyReachList chs)

def destroyReachList : List (Option VNode) → List VNode
  | [] => []
  | none :: t => destroyReachList t
  | some v :: t => destroyReach v ++ destroyReachList t
end

lemma invokeDestroy_flatMap_aux (cbs : Cbs) :
    ∀ n : Nat,
      (∀ v : VNode, vnSize v ≤ n →
        invokeDestroyHook cbs v =
          (destroyReach v).flatMap (fun u => nodeDestroyEvs cbs u.hook u.vid)) ∧
      (∀ l : List (Option VNode), vnListSize l ≤ n →
        invokeDestroyList cbs l =
          (destroyReachList l).flatMap (fun u => nodeDestroyEvs cbs u.hook u.vid)) := by
  intro n
  induction n with
  | zero =>
    constructor
    · intro v hv
      rcases v with ⟨s, k, d, c, t, e, i⟩
      rcases c with _ | chs <;> simp only [vnSize] at hv <;> omega
    · intro l hl
      rcases l with _ | ⟨h, t⟩
      · simp [invokeDestroyList, destroyReachList]
      · rcases h with _ | v <;> simp only [vnListSize] at hl <;> omega
  | succ n ih =>
    constructor
    · intro v hv
      rcases v with ⟨s, k, d, c, t, e, i⟩
      rcases d with _ | d
      · simp [invokeDestroyHook, destroyReach]
      · rcases c with _ | chs
        · simp [invokeDestroyHook, destroyReach, VNode.hook, VNode.data, VNode.vid]
        · have hs : vnListSize chs ≤ n := by
            simp only [vnSize] at hv
            omega
          have h2 := ih.2 chs hs
          simp [invokeDestroyHook, destroyReach, VNode.hook, VNode.data, VNode.vid, h2]
    · intro l hl
      rcases l with _ | ⟨hd, tl⟩
      · simp [invokeDestroyList, destroyReachList]
      · rcases hd with _ | v
        · have htl : vnListSize tl ≤ n := by
            simp only [vnListSize] at hl
            omega
          simp [invokeDestroyList, destroyReachList, ih.2 tl htl]
        · have htl : vnListSize tl ≤ n := by
            simp only [vnListSize] at hl
            omega
          have hv : vnSize v ≤ n := by
            simp only [vnListSize] at hl
            omega
          simp [invokeDestroyList, destroyReachList, ih.1 v hv, ih.2 tl htl]

/-- `invokeDestroyHook` emits, for each visited node in visit order,
its own `hook.destroy` event followed by one event per registered
module `destroy` hook — and nothing else. -/
lemma invokeDestroyHook_flatMap (cbs : Cbs) (v : VNode) :
    invokeDestroyHook cbs v =
      (destroyReach v).flatMap (fun u => nodeDestroyEvs cbs u.hook u.vid) :=
  (invokeDestroy_flatMap_aux cbs (vnSize v)).1 v (le_refl _)

/-- `true` iff the node's own `hook.destroy` is present. -/
def hasDestroyHook (u : VNode) : Bool :=
  match u.hook with
  | some h => h.hDestroy
  | none => false

lemma count_modDestroys_hookDestroy (n vid w : Nat) :
    ((List.range n).map (fun i => Ev.moduleDestroy i vid)).count (Ev.hookDestroy w) = 0 := by
  apply List.count_eq_zero_of_not_mem
  intro hm
  obtain ⟨j, _, hbad⟩ := List.mem_map.mp hm
  exact Ev.noConfusion hbad

lemma count_range_nat (n i : Nat) : (List.range n).count i = if i < n then 1 else 0 := by
  induction n with
  | zero => simp
  | succ n ih =>
    rw [List.range_succ, List.count_append, ih, List.count_singleton']
    split_ifs <;> omega

lemma count_modDestroys_module (n vid w i : Nat) :
    ((List.range n).map (fun j => Ev.moduleDestroy j vid)).count (Ev.moduleDestroy i w) =
      if vid = w ∧ i < n then 1 else 0 := by
  by_cases hw : vid = w
  · subst hw
    have hinj : Function.Injective (fun j => Ev.moduleDestroy j vid) := by
      intro a b hab
      injection hab with h1 _
    rw [List.count_map_of_injective _ _ hinj i, count_range_nat]
    by_cases hi : i < n
    · simp [hi]
    · simp [hi]
  · rw [List.count_eq_zero_of_not_mem]
    · simp [hw]
    · intro hm
      obtain ⟨j, _, hbad⟩ := List.mem_map.mp hm
      injection hbad with _ h2
      exact hw h2

lemma count_nodeDestroyEvs_hook (cbs : Cbs) (hook : Option Hooks) (vid w : Nat) :
    (nodeDestroyEvs cbs hook vid).count (Ev.hookDestroy w) =
      if vid = w ∧ (match hook with | some h => h.hDestroy | none => false) = true
      then 1 else 0 := by
  rcases hook with _ | h
  · simp [nodeDestroyEvs, count_modDestroys_hookDestroy]
  · by_cases hd : h.hDestroy
    · simp only [nodeDestroyEvs, hd, if_pos rfl, List.count_append,
        count_modDestroys_hookDestroy, List.count_singleton']
      by_cases hw : vid = w
      · subst hw; simp
      · have : ¬(Ev.hookDestroy w = Ev.hookDestroy vid) := by
          intro hc; injection hc with h1; exact hw h1.symm
        simp [this, hw]
    · simp [nodeDestroyEvs, hd, count_modDestroys_hookDestroy]

lemma count_nodeDestroyEvs_module (cbs : Cbs) (hook : Option Hooks) (vid w i : Nat) :
    (nodeDestroyEvs cbs hook vid).count (Ev.moduleDestroy i w) =
      if vid = w ∧ i < cbs.destroy then 1 else 0 := by
  rcases hook with _ | h
  · simp [nodeDestroyEvs, count_modDestroys_module]
  · by_cases hd : h.hDestroy
    · simp only [nodeDestroyEvs, hd, if_pos rfl, List.count_append,
        count_modDestroys_module, List.count_singleton']
      have : ¬(Ev.moduleDestroy i w = Ev.hookDestroy vid) := by
        intro hc; exact Ev.noConfusion hc
      simp [this]
    · simp [nodeDestroyEvs, hd, count_modDestroys_module]

lemma count_flatMap_nodes (cbs : Cbs) (l : List VNode) (e : Ev) :
    (l.flatMap (fun u => nodeDestroyEvs cbs u.hook u.vid)).count e =
      (l.map (fun u => (nodeDestroyEvs cbs u.hook u.vid).count e)).sum := by
  induction l with
  | nil => simp
  | cons h t ih => simp [List.flatMap_cons, List.count_append, ih]

lemma sum_map_ite_vid (u : VNode) (f : VNode → Bool) :
    ∀ l : List VNode, u ∈ l → ((l.map VNode.vid).Nodup) →
      (l.map (fun w => if w.vid = u.vid ∧ f w = true then 1 else 0)).sum
        = (if f u then 1 else 0 : Nat) := by
  intro l
  induction l with
  | nil => intro hu; simp at hu
  | cons h t ih =>
    intro hu hnd
    simp only [List.map_cons, List.nodup_cons, List.mem_map] at hnd
    rcases List.mem_cons.mp hu with heq | hut
    · subst heq
      have hrest : (t.map (fun w => if w.vid = u.vid ∧ f w = true then 1 else 0)).sum = 0 := by
        apply List.sum_eq_zero
        intro x hx
        obtain ⟨w, hw, rfl⟩ := List.mem_map.mp hx
        have hne : ¬(w.vid = u.vid) := by
          intro hc
          exact hnd.1 ⟨w, hw, hc⟩
        simp [hne]
      simp only [List.map_cons, List.sum_cons, hrest]
      by_cases hf : f u
      · simp [hf]
      · simp [hf]
    · have hh : ¬(h.vid = u.vid) := by
        intro hc
        exact hnd.1 ⟨u, hut, hc.symm⟩
      simp only [List.map_cons, List.sum_cons, hh, false_and, if_false]
      rw [ih hut hnd.2, Nat.zero_add]

/-- Destroy block counts: if the `vid`s of the visited nodes are
distinct, each visited node `u` receives its own `hook.destroy` event
iff it declares one, and exactly one event per registered module
`destroy` hook. -/
lemma invokeDestroyHook_counts (cbs : Cbs) (v : VNode)
    (hnd : ((destroyReach v).map VNode.vid).Nodup) :
    ∀ u ∈ destroyReach v,
      (invokeDestroyHook cbs v).count (Ev.hookDestroy u.vid) =
        (if hasDestroyHook u then 1 else 0) ∧
      ∀ i, i < cbs.destroy →
        (invokeDestroyHook cbs v).count (Ev.moduleDestroy i u.vid) = 1 := by
  intro u hu
  constructor
  · rw [invokeDestroyHook_flatMap, count_flatMap_nodes]
    have hcong : ((destroyReach v).map
        (fun w => (nodeDestroyEvs cbs w.hook w.vid).count (Ev.hookDestroy u.vid))) =
        (destroyReach v).map
          (fun w => if w.vid = u.vid ∧ hasDestroyHook w = true then 1 else 0) := by
      apply List.map_congr_left
      intro w _
      rw [count_nodeDestroyEvs_hook]
      rfl
    rw [hcong]
    exact sum_map_ite_vid u (fun w => hasDestroyHook w) (destroyReach v) hu hnd
  · intro i hi
    rw [invokeDestroyHook_flatMap, count_flatMap_nodes]
    have hcong : ((destroyReach v).map
        (fun w => (nodeDestroyEvs cbs w.hook w.vid).count (Ev.moduleDestroy i u.vid))) =
        (destroyReach v).map
          (fun w => if w.vid = u.vid ∧ (fun _ : VNode => true) w = true then 1 else 0) := by
      apply List.map_congr_left
      intro w _
      rw [count_nodeDestroyEvs_module]
      by_cases hw : w.vid = u.vid
      · simp [hw, hi]
      · simp [hw]
    rw [hcong]
    have h1 := sum_map_ite_vid u (fun _ => true) (destroyReach v) hu hnd
    simpa using h1

/-- Whatever path the removal completion takes, the events following
the destroy block and the module `remove` block contain no destroy
event. -/
lemma runM_removeOneVnode (cbs : Cbs) (ch : VNode) (s : S) :
    ∃ rest : List Ev,
      (runM (removeOneVnode cbs ch) s).2.trace
        = s.trace ++ invokeDestroyHook cbs ch
            ++ (List.range cbs.remove).map (fun i => Ev.moduleRemove i ch.vid) ++ rest ∧
      ∀ e ∈ rest, (∀ w, e ≠ Ev.hookDestroy w) ∧ ∀ i w, e ≠ Ev.moduleDestroy i w := by
  simp only [removeOneVnode]
  rw [runM_bind, runM_emitAll]
  dsimp only
  rw [runM_bind, runM_emitAll]
  dsimp only
  have hImm : ∀ s1 : S,
      ∃ rest : List Ev,
        (runM (removeOneVnode.rmImmediate cbs ch.elm) s1).2.trace = s1.trace ++ rest ∧
        ∀ e ∈ rest, (∀ w, e ≠ Ev.hookDestroy w) ∧ ∀ i w, e ≠ Ev.moduleDestroy i w := by
    intro s1
    simp only [removeOneVnode.rmImmediate]
    by_cases hz : (rmCbStep (rmListeners cbs)).2
    · rw [if_pos hz]
      rcases ch.elm with _ | e
      · exact ⟨[], by simp, by simp⟩
      · rw [runM_bind, runM_apiParentNode]
        dsimp only
        rcases domParent s1.dom e with _ | parent
        · exact ⟨[], by simp, by simp⟩
        · rw [runM_apiRemoveChild]
          dsimp only
          refine ⟨[Ev.removeChild parent e], ?_, ?_⟩
          · rcases h : domLookup s1.dom parent with _ | l
            · simp
            · by_cases hm : e ∈ l
              · simp [hm]
              · simp [hm]
          · intro ev hev
            rcases List.mem_singleton.mp hev with rfl
            exact ⟨fun w hc => Ev.noConfusion hc, fun i w hc => Ev.noConfusion hc⟩
    · rw [if_neg hz]
      exact ⟨[], by simp, by simp⟩
  rcases hh : ch.hook with _ | h
  all_goals dsimp only
  · obtain ⟨rest, h1, h2⟩ := hImm _
    refine ⟨rest, ?_, h2⟩
    rw [h1]
  · by_cases hr : h.hRemove
    · rw [if_pos hr, runM_emit]
      refine ⟨[Ev.hookRemove ch.vid], by simp [List.append_assoc], ?_⟩
      intro ev hev
      rcases List.mem_singleton.mp hev with rfl
      exact ⟨fun w hc => Ev.noConfusion hc, fun i w hc => Ev.noConfusion hc⟩
    · rw [if_neg hr]
      obtain ⟨rest, h1, h2⟩ := hImm _
      refine ⟨rest, ?_, h2⟩
      rw [h1]

/-- A single-node `removeVnodes` call runs exactly the per-node
removal path. -/
lemma runM_removeVnodes_single (cbs : Cbs) (parentElm : Nat) (ch : VNode) (s : S)
    (hsel : ch.sel.isSome = true) :
    (runM (removeVnodes cbs parentElm [some ch] 0 0) s).2.trace
      = (runM (removeOneVnode cbs ch) s).2.trace := by
  have hcount : ((0 : Int) + 1 - 0).toNat = 1 := by decide
  simp only [removeVnodes, hcount, rvLoop]
  have hget : getOpt [some ch] 0 = some ch := by
    simp [getOpt]
  rw [hget]
  simp only [hsel, if_true]
  rw [runM_bind]
  rcases hrun : runM (removeOneVnode cbs ch) s with ⟨r, s'⟩
  rcases r with e | a
  · rfl
  · simp [rvLoop]

/-- **C2 (counterexample input).** A vnode with a defined selector but
`undefined` `data`: one module `destroy` hook registered, a child that
itself declares `hook.destroy`. -/
def chGrand : VNode :=
  .mk (some "span") none
    (some ⟨some { noHooks with hDestroy := true }, none, none⟩) none none (some 6) 1

/-- Parent vnode with a defined selector and `data = undefined`. -/
def chND : VNode := .mk (some "div") none none (some [some chGrand]) none (some 5) 0

/-- One registered module `destroy` hook, nothing else. -/
def cbs1 : Cbs := ⟨0, 0, 0, 1, 0, 0⟩

/-- Initial state for the counterexample run: the live node `5` is a
child of live node `1`. -/
def s0 : S := ⟨100, [(1, [5])], [], []⟩

/-- **C2 is false as stated.** `removeVnodes` processes a node with a
defined selector whose `data` is `undefined`: the run completes, but
the registered module `destroy` hook is never invoked for the node
(count 0, not "exactly once"), and the child's own `hook.destroy` is
never invoked either — `invokeDestroyHook` returns immediately when
`data` is `undefined`, skipping the whole subtree.  (The claim's
"unconditionally" fails.) -/
theorem claim_C2_counterexample :
    chND.sel.isSome = true ∧
    cbs1.destroy = 1 ∧
    hasDestroyHook chGrand = true ∧
    (runM (removeVnodes cbs1 1 [some chND] 0 0) s0).1 = Except.ok () ∧
    ((runM (removeVnodes cbs1 1 [some chND] 0 0) s0).2.trace.count
      (Ev.moduleDestroy 0 (VNode.vid chND)) = 0) ∧
    ((runM (removeVnodes cbs1 1 [some chND] 0 0) s0).2.trace.count
      (Ev.hookDestroy (VNode.vid chGrand)) = 0) := by
  exact ⟨rfl, rfl, rfl, rfl, by decide, by decide⟩

/-- **C2 (amended).** For a node with a defined selector removed by
`removeVnodes`, the destroy phase visits exactly the nodes reachable
through *defined `data`* (a node with `undefined` `data` is skipped
with its subtree): each visited node receives its own `hook.destroy`
(when declared) and every registered module `destroy` hook exactly
once, synchronously; and every one of these destroy invocations
appears in the trace before any module or per-node `remove` event,
which all concern only the removed node. -/
theorem claim_C2_amended_destroy_once_before_remove
    (cbs : Cbs) (parentElm : Nat) (ch : VNode) (s : S)
    (hsel : ch.sel.isSome = true)
    (hnd : ((destroyReach ch).map VNode.vid).Nodup) :
    ∃ rest : List Ev,
      (runM (removeVnodes cbs parentElm [some ch] 0 0) s).2.trace
        = s.trace ++ invokeDestroyHook cbs ch
            ++ (List.range cbs.remove).map (fun i => Ev.moduleRemove i ch.vid) ++ rest ∧
      (∀ e ∈ rest, (∀ w, e ≠ Ev.hookDestroy w) ∧ ∀ i w, e ≠ Ev.moduleDestroy i w) ∧
      ∀ u ∈ destroyReach ch,
        (invokeDestroyHook cbs ch).count (Ev.hookDestroy u.vid) =
          (if hasDestroyHook u then 1 else 0) ∧
        ∀ i, i < cbs.destroy →
          (invokeDestroyHook cbs ch).count (Ev.moduleDestroy i u.vid) = 1 := by
  obtain ⟨rest, h1, h2⟩ := runM_removeOneVnode cbs ch s
  refine ⟨rest, ?_, h2, invokeDestroyHook_counts cbs ch hnd⟩
  rw [runM_removeVnodes_single cbs parentElm ch s hsel, h1]

/-- Witness for the amended C2 at a concrete input: a parent with
`data` defined and a `destroy`-hooked child, one module destroy hook. -/
def chWit : VNode :=
  .mk (some "div") none (some ⟨none, none, none⟩) (some [some chGrand]) none (some 5) 0

theorem claim_C2_amended_destroy_once_before_remove_witness :
    ∃ rest : List Ev,
      (runM (removeVnodes cbs1 1 [some chWit] 0 0) s0).2.trace
        = s0.trace ++ invokeDestroyHook cbs1 chWit
            ++ (List.range cbs1.remove).map (fun i => Ev.moduleRemove i chWit.vid) ++ rest ∧
      (∀ e ∈ rest, (∀ w, e ≠ Ev.hookDestroy w) ∧ ∀ i w, e ≠ Ev.moduleDestroy i w) ∧
      ∀ u ∈ destroyReach chWit,
        (invokeDestroyHook cbs1 chWit).count (Ev.hookDestroy u.vid) =
          (if hasDestroyHook u then 1 else 0) ∧
        ∀ i, i < cbs1.destroy →
          (invokeDestroyHook cbs1 chWit).count (Ev.moduleDestroy i u.vid) = 1 :=
  claim_C2_amended_destroy_once_before_remove cbs1 1 chWit s0 (by decide) (by decide)

/-! ## Selector parsing helpers (JS string primitives) -/

/-- `indexOf` for a single character starting at `start` (−1 when absent). -/
def findCharFrom (l : List Char) (c : Char) (start : Nat) : Int :=
  match (l.drop start).findIdx? (fun x => x = c) with
  | none => -1
  | some j => ((start + j : Nat) : Int)

/-- JS `sel.indexOf(c)`. -/
def jsIndexOf (s : String) (c : Char) : Int := findCharFrom s.toList c 0

/-- JS `sel.indexOf(c, fromIdx)` (a negative `fromIdx` scans from 0). -/
def jsIndexOfFrom (s : String) (c : Char) (fromIdx : Int) : Int :=
  findCharFrom s.toList c fromIdx.toNat

/-- JS `sel.slice(a, b)` for the non-negative indices the parser uses. -/
def jsSlice (s : String) (a b : Int) : String :=
  ((s.toList.take b.toNat).drop a.toNat).asString

/-- JS `sel.slice(a)`. -/
def jsSliceFrom (s : String) (a : Int) : String :=
  (s.toList.drop a.toNat).asString

/-- `replace(/\./g, " ")`. -/
def dotsToSpaces (s : String) : String :=
  (s.toList.map (fun ch => if ch = '.' then ' ' else ch)).asString

/-- Engine construction context: flattened module-hook counts, the
`options.experimental.fragments` flag, and whether the adapter provides
`createDocumentFragment`. -/
structure Ctx where
  cbs : Cbs
  fragments : Bool
  hasFragment : Bool

/-- The local state of `updateChildren`'s four-pointer loop: the two
(possibly nulled) child arrays, the four indices, the four cached
vnode variables, and the lazily built key map. -/
structure LoopSt where
  oldCh : List (Option VNode)
  newCh : List (Option VNode)
  oldStartIdx : Int
  oldEndIdx : Int
  newStartIdx : Int
  newEndIdx : Int
  oldStartVnode : Option VNode
  oldEndVnode : Option VNode
  newStartVnode : Option VNode
  newEndVnode : Option VNode
  oldKeyToIdx : Option (List (String × Int))

/-- In-place mutation of the array slot holding the vnode object `v`
(JS mutates the object; the slot shows the update only while it still
holds that object — a previously nulled slot stays null). -/
def writeBack (l : List (Option VNode)) (i : Int) (v : VNode) : List (Option VNode) :=
  match getOpt l i with
  | some w => if w.vid = v.vid then setAt l i (some v) else l
  | none => l

/-- JS reference equality of the two children arrays (`oldCh !== ch`),
modelled through the object identities of their members. -/
def sameArray (a b : List (Option VNode)) : Bool :=
  decide (a.map (Option.map VNode.vid) = b.map (Option.map VNode.vid))

/-- `hook?.postpatch?.(oldVnode, vnode)` followed by the return of the
reconciled pair. -/
def postpatchHook (oldVnode vnode : VNode) : M (VNode × VNode) := do
  (match vnode.hook with
   | some h => if h.hPostpatch then emit (.hookPostpatch oldVnode.vid vnode.vid) else pure ()
   | none => pure ())
  pure (oldVnode, vnode)

mutual

/-- `createElm(vnode, insertedVnodeQueue)` from `init.ts`, fueled.
Returns the input vnode with `elm` bound (and children recursively
built).  Hook callbacks are recorded as events and do not mutate. -/
def createElm (ctx : Ctx) (fuel : Nat) (vnode : VNode) : M VNode :=
  match fuel with
  | 0 => throw .fuelErr
  | fuel + 1 => do
    -- `if (data !== undefined) { const init = data.hook?.init; if (isDef(init)) init(vnode); }`
    (match vnode.data with
     | some d =>
       (match d.hook with
        | some h => if h.hInit then emit (.hookInit vnode.vid) else pure ()
        | none => pure ())
     | none => pure ())
    let children := vnode.children
    let sel := vnode.sel
    if sel = some "!" then do
      -- comment node: `if (isUndef(vnode.text)) vnode.text = ""`
      let text := match vnode.text with | none => "" | some t => t
      let elm ← apiCreateComment text
      pure ((vnode.withText (some text)).withElm (some elm))
    else
      match sel with
      | some selStr => do
        -- parse selector `tag#id.class1.class2`
        let hashIdx := jsIndexOf selStr '#'
        let dotIdx := jsIndexOfFrom selStr '.' hashIdx
        let hash : Int := if hashIdx > 0 then hashIdx else (selStr.length : Int)
        let dot : Int := if dotIdx > 0 then dotIdx else (selStr.length : Int)
        let tag := if hashIdx ≠ -1 ∨ dotIdx ≠ -1 then jsSlice selStr 0 (min hash dot)
                   else selStr
        let elm ← (match vnode.data with
          | some d =>
            (match d.ns with
             | some ns => apiCreateElementNS ns tag
             | none => apiCreateElement tag)
          | none => apiCreateElement tag)
        (if hash < dot then apiSetAttribute elm "id" (jsSlice selStr (hash + 1) dot)
         else pure ())
        (if dotIdx > 0 then
          apiSetAttribute elm "class" (dotsToSpaces (jsSliceFrom selStr (dot + 1)))
         else pure ())
        emitAll ((List.range ctx.cbs.create).map (fun i => Ev.moduleCreate i vnode.vid))
        let vnode1 := vnode.withElm (some elm)
        let vnode2 ← (match children with
          | some chs => do
            let chs' ← createElmChildren ctx fuel elm chs
            pure (vnode1.withChildren (some chs'))
          | none =>
            (match vnode.text with
             | some t => do
               let tid ← apiCreateTextNode t
               apiAppendChild elm tid
               pure vnode1
             | none => pure vnode1))
        -- `const hook = vnode.data!.hook` — throws when `data` is undefined
        match vnode2.data with
        | none => throw .typeErr
        | some d => do
          (match d.hook with
           | some h => do
             (if h.hCreate then emit (.hookCreate vnode.vid) else pure ())
             (if h.hInsert then pushQueue vnode2 else pure ())
           | none => pure ())
          pure vnode2
      | none =>
        if ctx.fragments ∧ children.isSome then do
          -- fragment case: `(api.createDocumentFragment ?? documentFragmentIsNotSupported)()`
          let elm ← (if ctx.hasFragment then apiCreateDocumentFragment
                     else throw Err.fragmentNotSupported)
          emitAll ((List.range ctx.cbs.create).map (fun i => Ev.moduleCreate i vnode.vid))
          match children with
          | some chs => do
            let chs' ← createElmChildren ctx fuel elm chs
            pure ((vnode.withElm (some elm)).withChildren (some chs'))
          | none => pure (vnode.withElm (some elm))
        else do
          -- text node: `api.createTextNode(vnode.text!)` (undefined stringifies)
          let t := match vnode.text with | some t => t | none => "undefined"
          let elm ← apiCreateTextNode t
          pure (vnode.withElm (some elm))

/-- The child-building loop of `createElm`: build each non-null child
and append it to the freshly created element. -/
def createElmChildren (ctx : Ctx) (fuel : Nat) (parentElm : Nat)
    (chs : List (Option VNode)) : M (List (Option VNode)) :=
  match fuel, chs with
  | _, [] => pure []
  | 0, _ :: _ => throw .fuelErr
  | fuel + 1, none :: t => do
    let t' ← createElmChildren ctx fuel parentElm t
    pure (none :: t')
  | fuel + 1, some ch :: t => do
    let ch' ← createElm ctx fuel ch
    (match ch'.elm with
     | none => throw .typeErr
     | some e => apiAppendChild parentElm e)
    let t' ← createElmChildren ctx fuel parentElm t
    pure (some ch' :: t')

/-- `addVnodes(parentElm, before, vnodes, startIdx, endIdx, q)`. -/
def addVnodes (ctx : Ctx) (fuel : Nat) (parentElm : Nat) (before : Option Nat)
    (vnodes : List (Option VNode)) (startIdx endIdx : Int) : M (List (Option VNode)) :=
  if startIdx ≤ endIdx then
    match fuel with
    | 0 => throw .fuelErr
    | fuel + 1 =>
      match getOpt vnodes startIdx with
      | none => addVnodes ctx fuel parentElm before vnodes (startIdx + 1) endIdx
      | some ch => do
        let ch' ← createElm ctx fuel ch
        (match ch'.elm with
         | none => throw .typeErr
         | some e => apiInsertBefore parentElm e before)
        addVnodes ctx fuel parentElm before (setAt vnodes startIdx (some ch'))
          (startIdx + 1) endIdx
  else pure vnodes

/-- `patchVnode(oldVnode, vnode, q)` from `init.ts`, fueled.  Returns
the (possibly `data`-defaulted) old vnode and the new vnode with `elm`
bound and children reconciled. -/
def patchVnode (ctx : Ctx) (fuel : Nat) (oldVnode vnode : VNode) : M (VNode × VNode) :=
  match fuel with
  | 0 => throw .fuelErr
  | fuel + 1 => do
    -- `const hook = vnode.data?.hook; hook?.prepatch?.(oldVnode, vnode)`
    (match vnode.hook with
     | some h => if h.hPrepatch then emit (.hookPrepatch oldVnode.vid vnode.vid) else pure ()
     | none => pure ())
    -- `const elm = (vnode.elm = oldVnode.elm)!`
    let vnode := vnode.withElm oldVnode.elm
    -- `if (oldVnode === vnode) return`
    if oldVnode.vid = vnode.vid then pure (oldVnode, vnode)
    else do
      -- update-hook condition
      let (oldVnode, vnode) ←
        (if vnode.data.isSome ∨ (vnode.text.isSome ∧ vnode.text ≠ oldVnode.text) then do
          let vnode := vnode.withData (some (vnode.data.getD emptyData))
          let oldVnode := oldVnode.withData (some (oldVnode.data.getD emptyData))
          emitAll ((List.range ctx.cbs.update).map
            (fun i => Ev.moduleUpdate i oldVnode.vid vnode.vid))
          (match vnode.hook with
           | some h => if h.hUpdate then emit (.hookUpdate oldVnode.vid vnode.vid) else pure ()
           | none => pure ())
          pure (oldVnode, vnode)
        else pure (oldVnode, vnode))
      -- content reconciliation
      match vnode.text with
      | none =>
        (match oldVnode.children, vnode.children with
         | some oldChL, some chL =>
           if ¬ sameArray oldChL chL then do
             match vnode.elm with
             | none => throw .typeErr
             | some elm => do
               let (oldChL', chL') ← updateChildren ctx fuel elm oldChL chL
               let oldVnode := oldVnode.withChildren (some oldChL')
               let vnode := vnode.withChildren (some chL')
               postpatchHook oldVnode vnode
           else postpatchHook oldVnode vnode
         | _, some chL => do
           match vnode.elm with
           | none => throw .typeErr
           | some elm => do
             (if oldVnode.text.isSome then apiSetTextContent elm "" else pure ())
             let chL' ← addVnodes ctx fuel elm none chL 0 ((chL.length : Int) - 1)
             postpatchHook oldVnode (vnode.withChildren (some chL'))
         | some oldChL, none => do
           match vnode.elm with
           | none => throw .typeErr
           | some elm => do
             removeVnodes ctx.cbs elm oldChL 0 ((oldChL.length : Int) - 1)
             postpatchHook oldVnode vnode
         | none, none => do
           (if oldVnode.text.isSome then
             match vnode.elm with
             | none => throw .typeErr
             | some elm => apiSetTextContent elm ""
            else pure ())
           postpatchHook oldVnode vnode)
      | some t =>
        if oldVnode.text ≠ some t then do
          match vnode.elm with
          | none => throw .typeErr
          | some elm => do
            (match oldVnode.children with
             | some oldChL => removeVnodes ctx.cbs elm oldChL 0 ((oldChL.length : Int) - 1)
             | none => pure ())
            apiSetTextContent elm t
            postpatchHook oldVnode vnode
        else postpatchHook oldVnode vnode

/-- The `while (oldStartIdx <= oldEndIdx && newStartIdx <= newEndIdx)`
loop of `updateChildren`, one constructor of `fuel` per iteration. -/
def updateLoop (ctx : Ctx) (fuel : Nat) (parentElm : Nat) (st : LoopSt) : M LoopSt :=
  if st.oldStartIdx ≤ st.oldEndIdx ∧ st.newStartIdx ≤ st.newEndIdx then
    match fuel with
    | 0 => throw .fuelErr
    | fuel + 1 =>
      match st.oldStartVnode with
      | none =>
        -- vnode was moved left (slot nulled)
        updateLoop ctx fuel parentElm { st with
          oldStartIdx := st.oldStartIdx + 1,
          oldStartVnode := getOpt st.oldCh (st.oldStartIdx + 1) }
      | some osv =>
        match st.oldEndVnode with
        | none =>
          updateLoop ctx fuel parentElm { st with
            oldEndIdx := st.oldEndIdx - 1,
            oldEndVnode := getOpt st.oldCh (st.oldEndIdx - 1) }
        | some oev =>
          match st.newStartVnode with
          | none =>
            updateLoop ctx fuel parentElm { st with
              newStartIdx := st.newStartIdx + 1,
              newStartVnode := getOpt st.newCh (st.newStartIdx + 1) }
          | some nsv =>
            match st.newEndVnode with
            | none =>
              updateLoop ctx fuel parentElm { st with
                newEndIdx := st.newEndIdx - 1,
                newEndVnode := getOpt st.newCh (st.newEndIdx - 1) }
            | some nev =>
              if sameVnode osv nsv then do
                let (o', n') ← patchVnode ctx fuel osv nsv
                let oldCh := writeBack st.oldCh st.oldStartIdx o'
                let newCh := writeBack st.newCh st.newStartIdx n'
                updateLoop ctx fuel parentElm { st with
                  oldCh := oldCh, newCh := newCh,
                  oldStartIdx := st.oldStartIdx + 1,
                  oldStartVnode := getOpt oldCh (st.oldStartIdx + 1),
                  newStartIdx := st.newStartIdx + 1,
                  newStartVnode := getOpt newCh (st.newStartIdx + 1) }
              else if sameVnode oev nev then do
                let (o', n') ← patchVnode ctx fuel oev nev
                let oldCh := writeBack st.oldCh st.oldEndIdx o'
                let newCh := writeBack st.newCh st.newEndIdx n'
                updateLoop ctx fuel parentElm { st with
                  oldCh := oldCh, newCh := newCh,
                  oldEndIdx := st.oldEndIdx - 1,
                  oldEndVnode := getOpt oldCh (st.oldEndIdx - 1),
                  newEndIdx := st.newEndIdx - 1,
                  newEndVnode := getOpt newCh (st.newEndIdx - 1) }
              else if sameVnode osv nev then do
                -- vnode moved right
                let (o', n') ← patchVnode ctx fuel osv nev
                let oldCh := writeBack st.oldCh st.oldStartIdx o'
                let newCh := writeBack st.newCh st.newEndIdx n'
                (match oev.elm with
                 | none => throw .typeErr
                 | some e2 => do
                   let ns ← apiNextSibling e2
                   match o'.elm with
                   | none => throw .typeErr
                   | some e1 => apiInsertBefore parentElm e1 ns)
                updateLoop ctx fuel parentElm { st with
                  oldCh := oldCh, newCh := newCh,
                  oldStartIdx := st.oldStartIdx + 1,
                  oldStartVnode := getOpt oldCh (st.oldStartIdx + 1),
                  newEndIdx := st.newEndIdx - 1,
                  newEndVnode := getOpt newCh (st.newEndIdx - 1) }
              else if sameVnode oev nsv then do
                -- vnode moved left
                let (o', n') ← patchVnode ctx fuel oev nsv
                let oldCh := writeBack st.oldCh st.oldEndIdx o'
                let newCh := writeBack st.newCh st.newStartIdx n'
                (match o'.elm with
                 | none => throw .typeErr
                 | some e1 =>
                   match osv.elm with
                   | none => throw .typeErr
                   | some e2 => apiInsertBefore parentElm e1 (some e2))
                updateLoop ctx fuel parentElm { st with
                  oldCh := oldCh, newCh := newCh,
                  oldEndIdx := st.oldEndIdx - 1,
                  oldEndVnode := getOpt oldCh (st.oldEndIdx - 1),
                  newStartIdx := st.newStartIdx + 1,
                  newStartVnode := getOpt newCh (st.newStartIdx + 1) }
              else do
                -- keyed fallback
                let km := match st.oldKeyToIdx with
                  | some m => m
                  | none => createKeyToOldIdx st.oldCh st.oldStartIdx st.oldEndIdx
                let idxInOld := kmapLookup km (propOfOptKey nsv.key)
                match idxInOld with
                | none => do
                  -- new element
                  let nv ← createElm ctx fuel nsv
                  (match nv.elm with
                   | none => throw .typeErr
                   | some e1 =>
                     match osv.elm with
                     | none => throw .typeErr
                     | some e2 => apiInsertBefore parentElm e1 (some e2))
                  let newCh := writeBack st.newCh st.newStartIdx nv
                  updateLoop ctx fuel parentElm { st with
                    newCh := newCh, oldKeyToIdx := some km,
                    newStartIdx := st.newStartIdx + 1,
                    newStartVnode := getOpt newCh (st.newStartIdx + 1) }
                | some idx =>
                  match getOpt st.oldCh idx with
                  | none => throw .typeErr  -- `elmToMove.sel` on an emptied slot
                  | some elmToMove =>
                    if elmToMove.sel ≠ nsv.sel then do
                      let nv ← createElm ctx fuel nsv
                      (match nv.elm with
                       | none => throw .typeErr
                       | some e1 =>
                         match osv.elm with
                         | none => throw .typeErr
                         | some e2 => apiInsertBefore parentElm e1 (some e2))
                      let newCh := writeBack st.newCh st.newStartIdx nv
                      updateLoop ctx fuel parentElm { st with
                        newCh := newCh, oldKeyToIdx := some km,
                        newStartIdx := st.newStartIdx + 1,
                        newStartVnode := getOpt newCh (st.newStartIdx + 1) }
                    else do
                      let (o', n') ← patchVnode ctx fuel elmToMove nsv
                      let oldCh := setAt (writeBack st.oldCh idx o') idx none
                      let newCh := writeBack st.newCh st.newStartIdx n'
                      (match o'.elm with
                       | none => throw .typeErr
                       | some e1 =>
                         match osv.elm with
                         | none => throw .typeErr
                         | some e2 => apiInsertBefore parentElm e1 (some e2))
                      updateLoop ctx fuel parentElm { st with
                        oldCh := oldCh, newCh := newCh, oldKeyToIdx := some km,
                        newStartIdx := st.newStartIdx + 1,
                        newStartVnode := getOpt newCh (st.newStartIdx + 1) }
  else pure st

/-- `updateChildren(parentElm, oldCh, newCh, q)` from `init.ts`. -/
def updateChildren (ctx : Ctx) (fuel : Nat) (parentElm : Nat)
    (oldCh newCh : List (Option VNode)) :
    M (List (Option VNode) × List (Option VNode)) :=
  match fuel with
  | 0 => throw .fuelErr
  | fuel + 1 => do
    let st ← updateLoop ctx fuel parentElm
      { oldCh := oldCh, newCh := newCh,
        oldStartIdx := 0, newStartIdx := 0,
        oldEndIdx := (oldCh.length : Int) - 1,
        newEndIdx := (newCh.length : Int) - 1,
        oldStartVnode := getOpt oldCh 0,
        oldEndVnode := getOpt oldCh ((oldCh.length : Int) - 1),
        newStartVnode := getOpt newCh 0,
        newEndVnode := getOpt newCh ((newCh.length : Int) - 1),
        oldKeyToIdx := none }
    let newCh' ←
      (if st.newStartIdx ≤ st.newEndIdx then do
        let before := match getOpt st.newCh (st.newEndIdx + 1) with
          | none => none
          | some v => v.elm
        addVnodes ctx fuel parentElm before st.newCh st.newStartIdx st.newEndIdx
      else pure st.newCh)
    (if st.oldStartIdx ≤ st.oldEndIdx then
      removeVnodes ctx.cbs parentElm st.oldCh st.oldStartIdx st.oldEndIdx
     else pure ())
    pure (st.oldCh, newCh')

end

/-- The flush of the pass-scoped `insertedVnodeQueue` at the end of
`patch`: `queue[i].data!.hook!.insert!(queue[i])`. -/
def flushLoop : List VNode → M Unit
  | [] => pure ()
  | v :: t => do
    (match v.hook with
     | some h => if h.hInsert then emit (.hookInsert v.vid) else throw .typeErr
     | none => throw .typeErr)
    flushLoop t

def flushInsert : M Unit := do
  let s ← get
  flushLoop s.queue

/-- The returned `patch(oldVnode, vnode)` closure from `init.ts`.  The
raw-`Element`/`DocumentFragment` root wrappers (`emptyNodeAt`,
`emptyDocumentFragmentAt`) are not modelled: the claims all enter with
vnode roots. -/
def patch (ctx : Ctx) (fuel : Nat) (oldVnode vnode : VNode) : M VNode := do
  modify (fun s => { s with queue := [] })
  emitAll ((List.range ctx.cbs.pre).map (fun i => Ev.modulePre i))
  let result ←
    (if sameVnode oldVnode vnode then do
      let (_, v') ← patchVnode ctx fuel oldVnode vnode
      pure v'
    else do
      match oldVnode.elm with
      | none => throw .typeErr  -- `api.parentNode(undefined)` in the adapter
      | some elm => do
        let parent ← apiParentNode elm
        let v' ← createElm ctx fuel vnode
        (match parent with
         | some p => do
           (match v'.elm with
            | none => throw .typeErr
            | some ve => do
              let ns ← apiNextSibling elm
              apiInsertBefore p ve ns)
           removeVnodes ctx.cbs p [some oldVnode] 0 0
         | none => pure ())
        pure v')
  flushInsert
  emitAll ((List.range ctx.cbs.post).map (fun i => Ev.modulePost i))
  pure result

/-! ## C4, C8, C10 -/

@[simp] lemma VNode.withElm_self (v : VNode) : v.withElm v.elm = v := by
  rcases v with ⟨s, k, d, c, t, e, i⟩
  rfl

/-- The prepatch events `patchVnode` emits on entry. -/
def prepatchEvs (oldVnode vnode : VNode) : List Ev :=
  match vnode.hook with
  | some h => if h.hPrepatch then [Ev.hookPrepatch oldVnode.vid vnode.vid] else []
  | none => []

/-- **C4.** Patching a vnode against itself (`oldVnode === vnode`,
i.e. the same object) short-circuits: `patchVnode` returns right after
re-binding `elm` (which rebinds the same live node), with no adapter
call, no module `update` hook, and no recursion into the subtree — the
only possible event is the node's own `prepatch` hook, which the source
invokes before the short-circuit test. -/
theorem claim_C4_identical_patch_is_noop (ctx : Ctx) (fuel : Nat) (v : VNode) (s : S) :
    runM (patchVnode ctx (fuel + 1) v v) s
      = (Except.ok (v, v), { s with trace := s.trace ++ prepatchEvs v v }) ∧
    ∀ e ∈ prepatchEvs v v, e.isAdapter = false ∧ ∀ i a b, e ≠ Ev.moduleUpdate i a b := by
  constructor
  · rcases hh : v.hook with _ | h
    · simp [patchVnode, runM_bind, runM_map, prepatchEvs, hh]
    · cases hp : h.hPrepatch <;>
        simp [patchVnode, runM_bind, runM_map, prepatchEvs, hh, hp]
  · intro e he
    simp only [prepatchEvs] at he
    rcases hh : v.hook with _ | h <;> rw [hh] at he
    · simp at he
    · cases hp : h.hPrepatch
      · simp [hp] at he
      · simp [hp] at he
        subst he
        exact ⟨rfl, fun i a b hc => Ev.noConfusion hc⟩

/-- **C8.** With the fragments option enabled and a selectorless vnode
carrying children, an adapter without `createDocumentFragment` makes
`createElm` throw the fatal configuration error immediately: the final
state shows no host node allocated, no DOM change, nothing queued —
only the node's optional `init` hook event precedes the throw, and no
child has been built. -/
theorem claim_C8_fragment_unsupported_fatal (ctx : Ctx) (fuel : Nat) (v : VNode) (s : S)
    (hfrag : ctx.fragments = true) (hcap : ctx.hasFragment = false)
    (hsel : v.sel = none) (hch : v.children.isSome = true) :
    runM (createElm ctx (fuel + 1) v) s
      = (Except.error Err.fragmentNotSupported,
         { s with trace := s.trace ++
             (match v.data with
              | some d =>
                (match d.hook with
                 | some h => if h.hInit then [Ev.hookInit v.vid] else []
                 | none => [])
              | none => []) }) := by
  have hns : ¬((none : Option String) = some "!") := by simp
  rcases hd : v.data with _ | d
  · simp [createElm, runM_bind, hd, hsel, hfrag, hcap, hch, hns]
  · rcases hhook : d.hook with _ | h
    · simp [createElm, runM_bind, hd, hsel, hfrag, hcap, hch, hns, hhook]
    · cases hi : h.hInit <;>
        simp [createElm, runM_bind, hd, hsel, hfrag, hcap, hch, hns, hhook, hi]

/-- Witness input for C8: a selectorless vnode with one (empty)
children list, fragments enabled, adapter without fragment support. -/
def ctxNoFrag : Ctx := ⟨⟨0, 0, 0, 0, 0, 0⟩, true, false⟩

def vFrag : VNode := .mk none none none (some []) none none 7

theorem claim_C8_fragment_unsupported_fatal_witness :
    runM (createElm ctxNoFrag 5 vFrag) s0
      = (Except.error Err.fragmentNotSupported, s0) := by
  have h := claim_C8_fragment_unsupported_fatal ctxNoFrag 4 vFrag s0 rfl rfl rfl rfl
  simpa [vFrag, VNode.data, s0] using h

/-- A computation that succeeds from every state. -/
def AlwaysOk {α : Type} (x : M α) : Prop :=
  ∀ s : S, ∃ a s', runM x s = (Except.ok a, s')

lemma alwaysOk_pure {α : Type} (a : α) : AlwaysOk (pure a : M α) :=
  fun s => ⟨a, s, rfl⟩

lemma alwaysOk_emit (e : Ev) : AlwaysOk (emit e) :=
  fun s => ⟨(), _, rfl⟩

lemma alwaysOk_emitAll (es : List Ev) : AlwaysOk (emitAll es) :=
  fun s => ⟨(), _, rfl⟩

lemma alwaysOk_apiCreateElement (tag : String) : AlwaysOk (apiCreateElement tag) :=
  fun s => ⟨s.nextId, _, rfl⟩

lemma alwaysOk_apiCreateElementNS (ns tag : String) : AlwaysOk (apiCreateElementNS ns tag) :=
  fun s => ⟨s.nextId, _, rfl⟩

lemma alwaysOk_apiSetAttribute (id : Nat) (n v : String) : AlwaysOk (apiSetAttribute id n v) :=
  fun s => ⟨(), _, rfl⟩

lemma alwaysOk_ite {α : Type} (c : Prop) [Decidable c] (x y : M α)
    (hx : AlwaysOk x) (hy : AlwaysOk y) : AlwaysOk (if c then x else y) := by
  by_cases h : c
  · simpa [h] using hx
  · simpa [h] using hy

/-- If the prefix always succeeds and the continuation always ends in
the given error, so does the whole bind. -/
lemma bind_fst_error {α β : Type} (x : M α) (f : α → M β) (s : S) (er : Err)
    (hx : AlwaysOk x)
    (hf : ∀ a s', (runM (f a) s').1 = Except.error er) :
    (runM (x >>= f) s).1 = Except.error er := by
  obtain ⟨a, s', hx'⟩ := hx s
  rw [runM_bind, hx']
  exact hf a s'

@[simp] lemma VNode.withElm_data (v : VNode) (e : Option Nat) :
    (v.withElm e).data = v.data := by
  rcases v with ⟨s, k, d, c, t, el, i⟩
  rfl

@[simp] lemma VNode.withElm_children (v : VNode) (e : Option Nat) :
    (v.withElm e).children = v.children := by
  rcases v with ⟨s, k, d, c, t, el, i⟩
  rfl

@[simp] lemma VNode.withElm_text (v : VNode) (e : Option Nat) :
    (v.withElm e).text = v.text := by
  rcases v with ⟨s, k, d, c, t, el, i⟩
  rfl

@[simp] lemma VNode.withElm_elm (v : VNode) (e : Option Nat) :
    (v.withElm e).elm = e := by
  rcases v with ⟨s, k, d, c, t, el, i⟩
  rfl

/-- **C10.** An element vnode (defined selector, not `"!"`) whose
`data` is still `undefined` when construction finishes crashes
`createElm` with a JS `TypeError`: the read `vnode.data!.hook` after
the children step is unguarded, so every element vnode must carry a
`data` object (possibly empty) for the call to succeed.  (Stated for a
leaf vnode — no children, no text; with `data` undefined no `init`
hook can have run, so `data` is still undefined at that read.) -/
theorem claim_C10_undefined_data_type_error (ctx : Ctx) (fuel : Nat) (v : VNode) (s : S)
    (selStr : String) (hsel : v.sel = some selStr) (hne : selStr ≠ "!")
    (hdata : v.data = none) (hch : v.children = none) (htext : v.text = none) :
    (runM (createElm ctx (fuel + 1) v) s).1 = Except.error Err.typeErr := by
  simp only [createElm, hdata, hsel, hch, htext]
  rw [runM_bind, runM_pure]
  dsimp only
  have hns : ¬((some selStr : Option String) = some "!") := by simpa using hne
  rw [if_neg hns]
  apply bind_fst_error
  · exact alwaysOk_apiCreateElement _
  · intro elm s1
    apply bind_fst_error
    · exact alwaysOk_ite _ _ _ (alwaysOk_apiSetAttribute _ _ _) (alwaysOk_pure _)
    · intro _ s2
      apply bind_fst_error
      · exact alwaysOk_ite _ _ _ (alwaysOk_apiSetAttribute _ _ _) (alwaysOk_pure _)
      · intro _ s3
        apply bind_fst_error
        · exact alwaysOk_emitAll _
        · intro _ s4
          rw [runM_bind, runM_pure]
          dsimp only
          simp [hdata]

/-- Witness input for C10: `div` vnode with `data` undefined. -/
def vNoData : VNode := .mk (some "div") none none none none none 8

theorem claim_C10_undefined_data_type_error_witness :
    (runM (createElm ctxNoFrag 5 vNoData) s0).1 = Except.error Err.typeErr :=
  claim_C10_undefined_data_type_error ctxNoFrag 4 vNoData s0 "div" rfl
    (by decide) rfl rfl rfl

/-! ## C6: when do the update hooks fire? -/

@[simp] lemma VNode.withData_vid (v : VNode) (d : Option VNodeData) :
    (v.withData d).vid = v.vid := by
  rcases v with ⟨s, k, dd, c, t, e, i⟩
  rfl

@[simp] lemma VNode.withData_text (v : VNode) (d : Option VNodeData) :
    (v.withData d).text = v.text := by
  rcases v with ⟨s, k, dd, c, t, e, i⟩
  rfl

@[simp] lemma VNode.withData_children (v : VNode) (d : Option VNodeData) :
    (v.withData d).children = v.children := by
  rcases v with ⟨s, k, dd, c, t, e, i⟩
  rfl

@[simp] lemma VNode.withData_elm (v : VNode) (d : Option VNodeData) :
    (v.withData d).elm = v.elm := by
  rcases v with ⟨s, k, dd, c, t, e, i⟩
  rfl

@[simp] lemma VNode.withElm_vid (v : VNode) (e : Option Nat) :
    (v.withElm e).vid = v.vid := by
  rcases v with ⟨s, k, d, c, t, el, i⟩
  rfl

@[simp] lemma VNode.withElm_hook (v : VNode) (e : Option Nat) :
    (v.withElm e).hook = v.hook := by
  rcases v with ⟨s, k, d, c, t, el, i⟩
  rfl

@[simp] lemma VNode.withData_hook (v : VNode) (d : Option VNodeData) :
    (v.withData d).hook = d.bind (·.hook) := by
  rcases v with ⟨s, k, dd, c, t, e, i⟩
  rfl

@[simp] lemma VNode.hook_withData_getD (v : VNode) :
    (v.withData (some (v.data.getD emptyData))).hook = v.hook := by
  rcases v with ⟨s, k, d, c, t, e, i⟩
  rcases d with _ | d
  · rfl
  · rfl

/-- The update-hook firing condition of `patchVnode`:
`vnode.data !== undefined || (isDef(vnode.text) && vnode.text !== oldVnode.text)`. -/
def updateCond (o n : VNode) : Prop :=
  n.data.isSome ∨ (n.text.isSome ∧ n.text ≠ o.text)

instance (o n : VNode) : Decidable (updateCond o n) := by
  unfold updateCond
  infer_instance

/-- `true` iff the node's own `hook.update` is present. -/
def hasUpdateHook (v : VNode) : Bool :=
  match v.hook with
  | some h => h.hUpdate
  | none => false

/-- The update events of one `patchVnode` level: every registered
module `update` hook, then the node's own `hook.update`. -/
def updateEvs (ctx : Ctx) (o n : VNode) : List Ev :=
  (List.range ctx.cbs.update).map (fun i => Ev.moduleUpdate i o.vid n.vid) ++
    (if hasUpdateHook n then [Ev.hookUpdate o.vid n.vid] else [])

/-- The postpatch events of one `patchVnode` level. -/
def postpatchEvs (o n : VNode) : List Ev :=
  match n.hook with
  | some h => if h.hPostpatch then [Ev.hookPostpatch o.vid n.vid] else []
  | none => []

/-- Generic per-hook emission step (`hook?.x?.(…)`). -/
lemma runM_hookEvStep (ho : Option Hooks) (g : Hooks → Bool) (ev : Ev) (s : S) :
    runM ((match ho with
           | some h => if g h then emit ev else pure ()
           | none => pure ()) : M Unit) s
      = (.ok (), { s with trace := s.trace ++
          (match ho with
           | some h => if g h then [ev] else []
           | none => []) }) := by
  rcases ho with _ | h
  · simp
  · cases hg : g h <;> simp [hg]

lemma runM_postpatchHook (o n : VNode) (s : S) :
    runM (postpatchHook o n) s
      = (.ok (o, n), { s with trace := s.trace ++ postpatchEvs o n }) := by
  simp only [postpatchHook, postpatchEvs]
  rw [runM_bind, runM_hookEvStep n.hook (fun h => h.hPostpatch) (Ev.hookPostpatch o.vid n.vid)]
  simp

/-- The events for a predicate that never produces update events. -/
def NoUpd (l : List Ev) : Prop :=
  ∀ e ∈ l, (∀ i a b, e ≠ Ev.moduleUpdate i a b) ∧ (∀ a b, e ≠ Ev.hookUpdate a b)

lemma noUpd_nil : NoUpd [] := by
  intro e he
  simp at he

lemma noUpd_append {l1 l2 : List Ev} (h1 : NoUpd l1) (h2 : NoUpd l2) : NoUpd (l1 ++ l2) := by
  intro e he
  rcases List.mem_append.mp he with h | h
  · exact h1 e h
  · exact h2 e h

lemma noUpd_setText (id : Nat) (t : String) : NoUpd [Ev.setTextContent id t] := by
  intro e he
  rcases List.mem_singleton.mp he with rfl
  exact ⟨fun i a b hc => Ev.noConfusion hc, fun a b hc => Ev.noConfusion hc⟩

lemma noUpd_postpatchEvs (o n : VNode) : NoUpd (postpatchEvs o n) := by
  intro e he
  simp only [postpatchEvs] at he
  rcases hh : n.hook with _ | h <;> rw [hh] at he
  · simp at he
  · cases hp : h.hPostpatch
    · simp [hp] at he
    · simp [hp] at he
      subst he
      exact ⟨fun i a b hc => Ev.noConfusion hc, fun a b hc => Ev.noConfusion hc⟩

lemma noUpd_prepatchEvs (o n : VNode) : NoUpd (prepatchEvs o n) := by
  intro e he
  simp only [prepatchEvs] at he
  rcases hh : n.hook with _ | h <;> rw [hh] at he
  · simp at he
  · cases hp : h.hPrepatch
    · simp [hp] at he
    · simp [hp] at he
      subst he
      exact ⟨fun i a b hc => Ev.noConfusion hc, fun a b hc => Ev.noConfusion hc⟩

/-- Trace shape of one `patchVnode` call on two distinct leaf vnodes
(no children on either side): prepatch events, then the update block
exactly when the firing condition holds, then only non-update events. -/
lemma patchVnode_trace_shape (ctx : Ctx) (fuel : Nat) (old new : VNode) (s : S)
    (hne : old.vid ≠ new.vid)
    (holdc : old.children = none) (hnewc : new.children = none) :
    ∃ tail : List Ev,
      (runM (patchVnode ctx (fuel + 1) old new) s).2.trace
        = s.trace ++ prepatchEvs old new
            ++ (if updateCond old new then updateEvs ctx old new else []) ++ tail ∧
      NoUpd tail := by
  have hvid : ¬(old.vid = new.vid) := hne
  rcases hd : new.data with _ | d
  · -- new.data undefined: no hooks on the new vnode
    have hhk : new.hook = none := by simp [VNode.hook, hd]
    rcases ht : new.text with _ | t
    · -- text undefined: pure leaf; condition is false
      rcases hot : old.text with _ | ot
      · refine ⟨[], ?_, noUpd_nil⟩
        simp [patchVnode, runM_bind, runM_map, runM_postpatchHook, emptyData, prepatchEvs, updateEvs, updateCond,
          postpatchEvs, hd, ht, hot, hhk, holdc, hnewc, hvid]
      · rcases helm : old.elm with _ | e
        · refine ⟨[], ?_, noUpd_nil⟩
          simp [patchVnode, runM_bind, runM_map, runM_postpatchHook, emptyData, prepatchEvs, updateEvs, updateCond,
            postpatchEvs, hd, ht, hot, hhk, holdc, hnewc, hvid, helm]
        · refine ⟨[Ev.setTextContent e ""], ?_, noUpd_setText e ""⟩
          simp [patchVnode, runM_bind, runM_map, runM_postpatchHook, emptyData, prepatchEvs, updateEvs, updateCond,
            postpatchEvs, hd, ht, hot, hhk, holdc, hnewc, hvid, helm]
    · by_cases hot : old.text = some t
      · -- equal texts: condition false, no content work
        refine ⟨[], ?_, noUpd_nil⟩
        simp [patchVnode, runM_bind, runM_map, runM_postpatchHook, emptyData, prepatchEvs, updateEvs, updateCond,
          postpatchEvs, hd, ht, hot, hhk, holdc, hnewc, hvid]
      · -- text changed: condition true, then set the text content
        have hot' : ¬((some t : Option String) = old.text) := fun hc => hot hc.symm
        rcases helm : old.elm with _ | e
        · refine ⟨[], ?_, noUpd_nil⟩
          simp [patchVnode, runM_bind, runM_map, runM_postpatchHook, emptyData, prepatchEvs, updateEvs, updateCond,
            postpatchEvs, hasUpdateHook, hd, ht, hot, hot', hhk, holdc, hnewc, hvid, helm]
        · refine ⟨[Ev.setTextContent e t], ?_, noUpd_setText e t⟩
          simp [patchVnode, runM_bind, runM_map, runM_postpatchHook, emptyData, prepatchEvs, updateEvs, updateCond,
            postpatchEvs, hasUpdateHook, hd, ht, hot, hot', hhk, holdc, hnewc, hvid, helm]
  · -- new.data defined: the condition holds; hooks from data.hook
    have hhk : new.hook = d.hook := by simp [VNode.hook, hd]
    rcases ht : new.text with _ | t
    · rcases hot : old.text with _ | ot
      · refine ⟨postpatchEvs old new, ?_, noUpd_postpatchEvs old new⟩
        rcases hdh : d.hook with _ | hk
        · simp [patchVnode, runM_bind, runM_map, runM_postpatchHook, emptyData, prepatchEvs, updateEvs, updateCond,
            postpatchEvs, hasUpdateHook, hd, ht, hot, hhk, hdh, holdc, hnewc, hvid,
            List.append_assoc]
        · cases hp : hk.hPrepatch <;> cases hu : hk.hUpdate <;> cases hpp : hk.hPostpatch <;>
            simp [patchVnode, runM_bind, runM_map, runM_postpatchHook, emptyData, prepatchEvs, updateEvs, updateCond,
              postpatchEvs, hasUpdateHook, hd, ht, hot, hhk, hdh, hp, hu, hpp,
              holdc, hnewc, hvid, List.append_assoc]
      · rcases helm : old.elm with _ | e
        · refine ⟨[], ?_, noUpd_nil⟩
          rcases hdh : d.hook with _ | hk
          · simp [patchVnode, runM_bind, runM_map, runM_postpatchHook, emptyData, prepatchEvs, updateEvs, updateCond,
              postpatchEvs, hasUpdateHook, hd, ht, hot, hhk, hdh, holdc, hnewc, hvid, helm,
              List.append_assoc]
          · cases hp : hk.hPrepatch <;> cases hu : hk.hUpdate <;>
              simp [patchVnode, runM_bind, runM_map, runM_postpatchHook, emptyData, prepatchEvs, updateEvs, updateCond,
                postpatchEvs, hasUpdateHook, hd, ht, hot, hhk, hdh, hp, hu,
                holdc, hnewc, hvid, helm, List.append_assoc]
        · refine ⟨[Ev.setTextContent e ""] ++ postpatchEvs old new, ?_,
            noUpd_append (noUpd_setText e "") (noUpd_postpatchEvs old new)⟩
          rcases hdh : d.hook with _ | hk
          · simp [patchVnode, runM_bind, runM_map, runM_postpatchHook, emptyData, prepatchEvs, updateEvs, updateCond,
              postpatchEvs, hasUpdateHook, hd, ht, hot, hhk, hdh, holdc, hnewc, hvid, helm,
              List.append_assoc]
          · cases hp : hk.hPrepatch <;> cases hu : hk.hUpdate <;> cases hpp : hk.hPostpatch <;>
              simp [patchVnode, runM_bind, runM_map, runM_postpatchHook, emptyData, prepatchEvs, updateEvs, updateCond,
                postpatchEvs, hasUpdateHook, hd, ht, hot, hhk, hdh, hp, hu, hpp,
                holdc, hnewc, hvid, helm, List.append_assoc]
    · by_cases hot : old.text = some t
      · refine ⟨postpatchEvs old new, ?_, noUpd_postpatchEvs old new⟩
        rcases hdh : d.hook with _ | hk
        · simp [patchVnode, runM_bind, runM_map, runM_postpatchHook, emptyData, prepatchEvs, updateEvs, updateCond,
            postpatchEvs, hasUpdateHook, hd, ht, hot, hhk, hdh, holdc, hnewc, hvid,
            List.append_assoc]
        · cases hp : hk.hPrepatch <;> cases hu : hk.hUpdate <;> cases hpp : hk.hPostpatch <;>
            simp [patchVnode, runM_bind, runM_map, runM_postpatchHook, emptyData, prepatchEvs, updateEvs, updateCond,
              postpatchEvs, hasUpdateHook, hd, ht, hot, hhk, hdh, hp, hu, hpp,
              holdc, hnewc, hvid, List.append_assoc]
      · have hot' : ¬((some t : Option String) = old.text) := fun hc => hot hc.symm
        rcases helm : old.elm with _ | e
        · refine ⟨[], ?_, noUpd_nil⟩
          rcases hdh : d.hook with _ | hk
          · simp [patchVnode, runM_bind, runM_map, runM_postpatchHook, emptyData, prepatchEvs, updateEvs, updateCond,
              postpatchEvs, hasUpdateHook, hd, ht, hot, hot', hhk, hdh, holdc, hnewc, hvid,
              helm, List.append_assoc]
          · cases hp : hk.hPrepatch <;> cases hu : hk.hUpdate <;>
              simp [patchVnode, runM_bind, runM_map, runM_postpatchHook, emptyData, prepatchEvs, updateEvs, updateCond,
                postpatchEvs, hasUpdateHook, hd, ht, hot, hot', hhk, hdh, hp, hu,
                holdc, hnewc, hvid, helm, List.append_assoc]
        · refine ⟨[Ev.setTextContent e t] ++ postpatchEvs old new, ?_,
            noUpd_append (noUpd_setText e t) (noUpd_postpatchEvs old new)⟩
          rcases hdh : d.hook with _ | hk
          · simp [patchVnode, runM_bind, runM_map, runM_postpatchHook, emptyData, prepatchEvs, updateEvs, updateCond,
              postpatchEvs, hasUpdateHook, hd, ht, hot, hot', hhk, hdh, holdc, hnewc, hvid,
              helm, List.append_assoc]
          · cases hp : hk.hPrepatch <;> cases hu : hk.hUpdate <;> cases hpp : hk.hPostpatch <;>
              simp [patchVnode, runM_bind, runM_map, runM_postpatchHook, emptyData, prepatchEvs, updateEvs, updateCond,
                postpatchEvs, hasUpdateHook, hd, ht, hot, hot', hhk, hdh, hp, hu, hpp,
                holdc, hnewc, hvid, helm, List.append_assoc]

lemma mem_updateEvs_module (ctx : Ctx) (o n : VNode) (i : Nat) :
    Ev.moduleUpdate i o.vid n.vid ∈ updateEvs ctx o n ↔ i < ctx.cbs.update := by
  simp only [updateEvs, List.mem_append, List.mem_map, List.mem_range]
  constructor
  · rintro (⟨j, hj, hje⟩ | hhk)
    · injection hje with h1 _
      exact h1 ▸ hj
    · rcases hf : hasUpdateHook n with _ | _ <;> rw [hf] at hhk
      · simp at hhk
      · rw [if_pos rfl] at hhk
        rcases List.mem_singleton.mp hhk with hc
        exact Ev.noConfusion hc
  · intro hi
    exact Or.inl ⟨i, hi, rfl⟩

lemma mem_updateEvs_hook (ctx : Ctx) (o n : VNode) :
    Ev.hookUpdate o.vid n.vid ∈ updateEvs ctx o n ↔ hasUpdateHook n = true := by
  simp only [updateEvs, List.mem_append, List.mem_map, List.mem_range]
  constructor
  · rintro (⟨j, _, hje⟩ | hhk)
    · exact Ev.noConfusion hje
    · rcases hf : hasUpdateHook n with _ | _
      · rw [hf] at hhk
        simp at hhk
      · rfl
  · intro hf
    rw [hf]
    right
    simp

/-- **C6.** In `patchVnode` over two distinct leaf vnodes, the
registered module `update` hooks and the new vnode's own `hook.update`
fire if and only if the new vnode's `data` is present, or its `text` is
defined and differs from the old vnode's text; when neither condition
holds no update hook fires at that node.  (Stated for childless vnodes,
where the node-level condition is isolated from recursion into
children; the run starts from an empty trace.) -/
theorem claim_C6_update_hooks_iff (ctx : Ctx) (fuel : Nat) (old new : VNode) (s : S)
    (hne : old.vid ≠ new.vid) (holdc : old.children = none) (hnewc : new.children = none)
    (hs : s.trace = []) :
    (∀ i, i < ctx.cbs.update →
      (Ev.moduleUpdate i old.vid new.vid ∈ (runM (patchVnode ctx (fuel + 1) old new) s).2.trace
        ↔ updateCond old new)) ∧
    (Ev.hookUpdate old.vid new.vid ∈ (runM (patchVnode ctx (fuel + 1) old new) s).2.trace
      ↔ (updateCond old new ∧ hasUpdateHook new = true)) := by
  obtain ⟨tail, htr, hnu⟩ := patchVnode_trace_shape ctx fuel old new s hne holdc hnewc
  rw [htr, hs]
  simp only [List.nil_append, List.mem_append]
  constructor
  · intro i hi
    constructor
    · rintro ((hpre | hblk) | htail)
      · exact absurd rfl ((noUpd_prepatchEvs old new _ hpre).1 i old.vid new.vid)
      · by_cases hc : updateCond old new
        · exact hc
        · rw [if_neg hc] at hblk
          simp at hblk
      · exact absurd rfl ((hnu _ htail).1 i old.vid new.vid)
    · intro hc
      left; right
      rw [if_pos hc]
      exact (mem_updateEvs_module ctx old new i).mpr hi
  · constructor
    · rintro ((hpre | hblk) | htail)
      · exact absurd rfl ((noUpd_prepatchEvs old new _ hpre).2 old.vid new.vid)
      · by_cases hc : updateCond old new
        · rw [if_pos hc] at hblk
          exact ⟨hc, (mem_updateEvs_hook ctx old new).mp hblk⟩
        · rw [if_neg hc] at hblk
          simp at hblk
      · exact absurd rfl ((hnu _ htail).2 old.vid new.vid)
    · rintro ⟨hc, hf⟩
      left; right
      rw [if_pos hc]
      exact (mem_updateEvs_hook ctx old new).mpr hf

/-- Concrete leaves for the C6 witness: new vnode with `data` present
and `hook.update` declared, one module `update` hook registered. -/
def oldLeaf : VNode := .mk (some "div") none (some ⟨none, none, none⟩) none none (some 3) 10

def newLeaf : VNode :=
  .mk (some "div") none (some ⟨some { noHooks with hUpdate := true }, none, none⟩)
    none none none 11

def ctxU : Ctx := ⟨⟨0, 1, 0, 0, 0, 0⟩, false, true⟩

theorem claim_C6_update_hooks_iff_witness :
    (∀ i, i < ctxU.cbs.update →
      (Ev.moduleUpdate i oldLeaf.vid newLeaf.vid
          ∈ (runM (patchVnode ctxU 3 oldLeaf newLeaf) s0).2.trace
        ↔ updateCond oldLeaf newLeaf)) ∧
    (Ev.hookUpdate oldLeaf.vid newLeaf.vid
        ∈ (runM (patchVnode ctxU 3 oldLeaf newLeaf) s0).2.trace
      ↔ (updateCond oldLeaf newLeaf ∧ hasUpdateHook newLeaf = true)) :=
  claim_C6_update_hooks_iff ctxU 2 oldLeaf newLeaf s0 (by decide) rfl rfl rfl

/-! ## A Hoare-triple layer for the engine monad (for C5 and C7) -/

/-- Partial-correctness triple with an error postcondition: from any
state satisfying `P`, a successful run satisfies `Q`, a throwing run
leaves a state satisfying `E`. -/
def MTriple {α : Type} (P : S → Prop) (x : M α) (Q : α → S → Prop) (E : S → Prop) : Prop :=
  ∀ s, P s →
    (∀ a s', runM x s = (Except.ok a, s') → Q a s') ∧
    (∀ er s', runM x s = (Except.error er, s') → E s')

lemma MTriple.purePost {α : Type} {P : S → Prop} {Q : α → S → Prop} {E : S → Prop}
    (a : α) (h : ∀ s, P s → Q a s) : MTriple P (pure a) Q E := by
  intro s hP
  constructor
  · intro b s' hr
    rw [runM_pure] at hr
    injection hr with h1 h2
    injection h1 with h1
    exact h2 ▸ h1 ▸ h s hP
  · intro er s' hr
    rw [runM_pure] at hr
    injection hr with h1 _
    exact Except.noConfusion h1

lemma MTriple.throwPost {α : Type} {P : S → Prop} {Q : α → S → Prop} {E : S → Prop}
    (er : Err) (h : ∀ s, P s → E s) : MTriple P (throw er : M α) Q E := by
  intro s hP
  constructor
  · intro b s' hr
    rw [runM_throw] at hr
    injection hr with h1 _
    exact Except.noConfusion h1
  · intro er' s' hr
    rw [runM_throw] at hr
    injection hr with _ h2
    rw [← h2]
    exact h s hP

lemma MTriple.bind {α β : Type} {P : S → Prop} {x : M α} {Q : α → S → Prop}
    {f : α → M β} {R : β → S → Prop} {E : S → Prop}
    (hx : MTriple P x Q E) (hf : ∀ a, MTriple (Q a) (f a) R E) :
    MTriple P (x >>= f) R E := by
  intro s hP
  constructor
  · intro b s'' hr
    rw [runM_bind] at hr
    rcases hstep : runM x s with ⟨r, s1⟩
    rw [hstep] at hr
    rcases r with er | a
    · exact absurd hr (by simp)
    · exact ((hf a) s1 ((hx s hP).1 a s1 hstep)).1 b s'' hr
  · intro er s'' hr
    rw [runM_bind] at hr
    rcases hstep : runM x s with ⟨r, s1⟩
    rw [hstep] at hr
    rcases r with er' | a
    · obtain ⟨h1, h2⟩ : (Except.error er' : Except Err β) = Except.error er ∧ s1 = s'' := by
        constructor <;> [injection hr; injection hr]
      exact h2 ▸ (hx s hP).2 er' s1 hstep
    · exact ((hf a) s1 ((hx s hP).1 a s1 hstep)).2 er s'' hr

lemma MTriple.conseq {α : Type} {P P' : S → Prop} {x : M α} {Q Q' : α → S → Prop}
    {E E' : S → Prop} (h : MTriple P x Q E)
    (hP : ∀ s, P' s → P s) (hQ : ∀ a s, Q a s → Q' a s) (hE : ∀ s, E s → E' s) :
    MTriple P' x Q' E' := by
  intro s hP'
  refine ⟨fun a s' hr => hQ a s' ((h s (hP s hP')).1 a s' hr),
          fun er s' hr => hE s' ((h s (hP s hP')).2 er s' hr)⟩

lemma MTriple.iteSplit {α : Type} {P : S → Prop} (c : Prop) [Decidable c] {x y : M α}
    {Q : α → S → Prop} {E : S → Prop}
    (hx : c → MTriple P x Q E) (hy : ¬c → MTriple P y Q E) :
    MTriple P (if c then x else y) Q E := by
  by_cases h : c
  · rw [if_pos h]; exact hx h
  · rw [if_neg h]; exact hy h

/-- Triple for a state-transformer primitive that always succeeds. -/
lemma MTriple.ofModify {P : S → Prop} {Q : Unit → S → Prop} {E : S → Prop}
    (g : S → S) (x : M Unit) (hx : ∀ s, runM x s = (Except.ok (), g s))
    (h : ∀ s, P s → Q () (g s)) : MTriple P x Q E := by
  intro s hP
  constructor
  · intro a s' hr
    rw [hx] at hr
    injection hr with _ h2
    rcases a
    exact h2 ▸ h s hP
  · intro er s' hr
    rw [hx] at hr
    injection hr with h1 _
    exact Except.noConfusion h1

/-! ### The DOM frame invariant of `createElm` -/

/-- Every key and member of the baseline host tree is below `n0`. -/
def BaseWF (n0 : Nat) (D0 : Dom) : Prop :=
  ∀ p l, (p, l) ∈ D0 → p < n0 ∧ ∀ c ∈ l, c < n0

/-- During element building, the host tree is the untouched baseline
plus freshly allocated entries whose keys and members are all fresh. -/
def Inv (n0 : Nat) (D0 : Dom) (s : S) : Prop :=
  n0 ≤ s.nextId ∧ ∃ fr, s.dom = D0 ++ fr ∧
    ∀ p l, (p, l) ∈ fr → n0 ≤ p ∧ p < s.nextId ∧ ∀ c ∈ l, n0 ≤ c ∧ c < s.nextId

/-- `true` iff the node declares `data.hook.insert`. -/
def insertHooked (v : VNode) : Bool :=
  match v.hook with
  | some h => h.hInsert
  | none => false

/-- Queue extension: the queue grew only by insert-hooked vnodes. -/
def QExt (ql : List VNode) (s : S) : Prop :=
  ∃ q, s.queue = ql ++ q ∧ ∀ u ∈ q, insertHooked u = true

/-- The state evolution `createElm` performs: invariant kept, id
counter monotone, queue extended only by insert-hooked nodes. -/
def Evo (n0 : Nat) (D0 : Dom) (m : Nat) (ql : List VNode) (s : S) : Prop :=
  Inv n0 D0 s ∧ m ≤ s.nextId ∧ QExt ql s

lemma inv_traceQueue (n0 : Nat) (D0 : Dom) (s : S) (t : List Ev) (q : List VNode)
    (h : Inv n0 D0 s) : Inv n0 D0 { s with trace := t, queue := q } := h

lemma evo_emit (n0 : Nat) (D0 : Dom) (m : Nat) (ql : List VNode) (e : Ev) {E} :
    MTriple (Evo n0 D0 m ql) (emit e) (fun _ => Evo n0 D0 m ql) E := by
  apply MTriple.ofModify (fun s => { s with trace := s.trace ++ [e] }) _ (fun s => rfl)
  intro s hP
  exact ⟨hP.1, hP.2.1, hP.2.2⟩

lemma evo_emitAll (n0 : Nat) (D0 : Dom) (m : Nat) (ql : List VNode) (es : List Ev) {E} :
    MTriple (Evo n0 D0 m ql) (emitAll es) (fun _ => Evo n0 D0 m ql) E := by
  apply MTriple.ofModify (fun s => { s with trace := s.trace ++ es }) _ (fun s => rfl)
  intro s hP
  exact ⟨hP.1, hP.2.1, hP.2.2⟩

lemma evo_pushQueue (n0 : Nat) (D0 : Dom) (m : Nat) (ql : List VNode) (u : VNode)
    (hu : insertHooked u = true) {E} :
    MTriple (Evo n0 D0 m ql) (pushQueue u) (fun _ => Evo n0 D0 m ql) E := by
  apply MTriple.ofModify (fun s => { s with queue := s.queue ++ [u] }) _ (fun s => rfl)
  intro s hP
  obtain ⟨q, hq, hall⟩ := hP.2.2
  refine ⟨hP.1, hP.2.1, q ++ [u], ?_, ?_⟩
  · simp [hq]
  · intro w hw
    rcases List.mem_append.mp hw with h | h
    · exact hall w h
    · rcases List.mem_singleton.mp h with rfl
      exact hu

lemma evo_alloc (n0 : Nat) (D0 : Dom) (m : Nat) (ql : List VNode) {E} :
    MTriple (Evo n0 D0 m ql) allocNode
      (fun a s' => Evo n0 D0 m ql s' ∧ m ≤ a ∧ n0 ≤ a ∧ a < s'.nextId) E := by
  intro s hP
  constructor
  · intro a s' hr
    rw [runM_allocNode] at hr
    obtain ⟨⟨hn0, fr, hdom, hfr⟩, hm, hq⟩ := hP
    injection hr with h1 h2
    injection h1 with h1
    subst h1
    subst h2
    refine ⟨⟨⟨by simp; omega, fr ++ [(s.nextId, [])], ?_, ?_⟩, by simp; omega, hq⟩,
      hm, hn0, by simp⟩
    · simp [hdom]
    · intro p l hpl
      rcases List.mem_append.mp hpl with h | h
      · obtain ⟨ha, hb, hc⟩ := hfr p l h
        exact ⟨ha, by simp; omega, fun c hcm => ⟨(hc c hcm).1, by have := (hc c hcm).2; simp; omega⟩⟩
      · rcases List.mem_singleton.mp h with heq
        injection heq with h1 h2
        subst h1
        subst h2
        exact ⟨hn0, by simp, by simp⟩
  · intro er s' hr
    rw [runM_allocNode] at hr
    injection hr with h1 _
    exact Except.noConfusion h1

/-! ### DOM splitting lemmas for the frame invariant -/

lemma domUnlink_append (a b : Dom) (c : Nat) :
    domUnlink (a ++ b) c = domUnlink a c ++ domUnlink b c := by
  simp [domUnlink]

lemma domUnlink_base_id (n0 : Nat) (D0 : Dom) (hbase : BaseWF n0 D0)
    (c : Nat) (hc : n0 ≤ c) : domUnlink D0 c = D0 := by
  unfold domUnlink
  apply List.map_congr_left ?_ |>.trans (List.map_id D0)
  intro q hq
  have hmem : c ∉ q.2 := by
    intro hin
    have := ((hbase q.1 q.2) (by simpa using hq)).2 c hin
    omega
  simp [List.erase_of_not_mem hmem]

lemma domLookup_append_right (n0 : Nat) (D0 : Dom) (fr : Dom)
    (hkeys : ∀ p l, (p, l) ∈ D0 → p < n0) (p : Nat) (hp : n0 ≤ p) :
    domLookup (D0 ++ fr) p = domLookup fr p := by
  unfold domLookup
  rw [List.find?_append]
  have : D0.find? (fun q => q.1 = p) = none := by
    rw [List.find?_eq_none]
    intro q hq hq1
    have := hkeys q.1 q.2 (by simpa using hq)
    simp at hq1
    omega
  rw [this]
  rfl

lemma domLookup_append_left (n0 : Nat) (D0 : Dom) (fr : Dom)
    (hfr : ∀ p l, (p, l) ∈ fr → n0 ≤ p) (p : Nat) (hp : p < n0) :
    domLookup (D0 ++ fr) p = domLookup D0 p := by
  unfold domLookup
  rw [List.find?_append]
  rcases h : D0.find? (fun q => q.1 = p) with _ | q
  · have hn : fr.find? (fun q => q.1 = p) = none := by
      rw [List.find?_eq_none]
      intro q hq hq1
      have := hfr q.1 q.2 (by simpa using hq)
      simp at hq1
      omega
    rw [h, hn]
    rfl
  · rw [h]
    rfl

lemma domSet_append_right (n0 : Nat) (D0 : Dom) (fr : Dom)
    (hkeys : ∀ p l, (p, l) ∈ D0 → p < n0) (p : Nat) (hp : n0 ≤ p) (l : List Nat) :
    domSet (D0 ++ fr) p l = D0 ++ domSet fr p l := by
  unfold domSet
  rw [List.map_append]
  congr 1
  apply List.map_congr_left ?_ |>.trans (List.map_id D0)
  intro q hq
  have : ¬(q.1 = p) := by
    have := hkeys q.1 q.2 (by simpa using hq)
    omega
  simp [this]

lemma domParent_append_none (n0 : Nat) (D0 : Dom) (fr : Dom)
    (hfr : ∀ p l, (p, l) ∈ fr → ∀ c ∈ l, n0 ≤ c) (e : Nat) (he : e < n0)
    (hD : domParent D0 e = none) :
    domParent (D0 ++ fr) e = none := by
  unfold domParent at *
  rw [List.find?_append]
  rcases h : D0.find? (fun q => e ∈ q.2) with _ | q
  · have hn : fr.find? (fun q => e ∈ q.2) = none := by
      rw [List.find?_eq_none]
      intro q hq hq1
      simp at hq1
      have := hfr q.1 q.2 (by simpa using hq) e hq1
      omega
    rw [h, hn]
    rfl
  · rw [h] at hD
    simp at hD

/-! ### Primitive triples for the frame invariant -/

lemma evo_allocLike (n0 : Nat) (D0 : Dom) (m : Nat) (ql : List VNode)
    (x : M Nat) (tr : S → List Ev)
    (hx : ∀ s, runM x s = (Except.ok s.nextId,
      { s with nextId := s.nextId + 1, dom := s.dom ++ [(s.nextId, [])],
               trace := tr s })) {E} :
    MTriple (Evo n0 D0 m ql) x
      (fun a s' => Evo n0 D0 (a + 1) ql s' ∧ m ≤ a ∧ n0 ≤ a) E := by
  intro s hP
  constructor
  · intro a s' hr
    rw [hx] at hr
    obtain ⟨⟨hn0, fr, hdom, hfr⟩, hm, hq⟩ := hP
    injection hr with h1 h2
    injection h1 with h1
    subst h1
    subst h2
    refine ⟨⟨⟨by simp; omega, fr ++ [(s.nextId, [])], by simp [hdom], ?_⟩, by simp, hq⟩,
      hm, hn0⟩
    intro p l hpl
    rcases List.mem_append.mp hpl with h | h
    · obtain ⟨ha, hb, hc⟩ := hfr p l h
      exact ⟨ha, by simp; omega,
        fun c hcm => ⟨(hc c hcm).1, by have := (hc c hcm).2; simp; omega⟩⟩
    · rcases List.mem_singleton.mp h with heq
      injection heq with h1 h2
      subst h1
      subst h2
      exact ⟨hn0, by simp, by simp⟩
  · intro er s' hr
    rw [hx] at hr
    injection hr with h1 _
    exact Except.noConfusion h1

lemma evo_createElement (n0 : Nat) (D0 : Dom) (m : Nat) (ql : List VNode) (tag : String) {E} :
    MTriple (Evo n0 D0 m ql) (apiCreateElement tag)
      (fun a s' => Evo n0 D0 (a + 1) ql s' ∧ m ≤ a ∧ n0 ≤ a) E :=
  evo_allocLike n0 D0 m ql _ _ (fun s => runM_apiCreateElement tag s)

lemma evo_createElementNS (n0 : Nat) (D0 : Dom) (m : Nat) (ql : List VNode)
    (ns tag : String) {E} :
    MTriple (Evo n0 D0 m ql) (apiCreateElementNS ns tag)
      (fun a s' => Evo n0 D0 (a + 1) ql s' ∧ m ≤ a ∧ n0 ≤ a) E :=
  evo_allocLike n0 D0 m ql _ _ (fun s => runM_apiCreateElementNS ns tag s)

lemma evo_createTextNode (n0 : Nat) (D0 : Dom) (m : Nat) (ql : List VNode) (t : String) {E} :
    MTriple (Evo n0 D0 m ql) (apiCreateTextNode t)
      (fun a s' => Evo n0 D0 (a + 1) ql s' ∧ m ≤ a ∧ n0 ≤ a) E :=
  evo_allocLike n0 D0 m ql _ _ (fun s => runM_apiCreateTextNode t s)

lemma evo_createComment (n0 : Nat) (D0 : Dom) (m : Nat) (ql : List VNode) (t : String) {E} :
    MTriple (Evo n0 D0 m ql) (apiCreateComment t)
      (fun a s' => Evo n0 D0 (a + 1) ql s' ∧ m ≤ a ∧ n0 ≤ a) E :=
  evo_allocLike n0 D0 m ql _ _ (fun s => runM_apiCreateComment t s)

lemma evo_createFragment (n0 : Nat) (D0 : Dom) (m : Nat) (ql : List VNode) {E} :
    MTriple (Evo n0 D0 m ql) apiCreateDocumentFragment
      (fun a s' => Evo n0 D0 (a + 1) ql s' ∧ m ≤ a ∧ n0 ≤ a) E :=
  evo_allocLike n0 D0 m ql _ _ (fun s => runM_apiCreateDocumentFragment s)

lemma evo_setAttr (n0 : Nat) (D0 : Dom) (m : Nat) (ql : List VNode)
    (id : Nat) (na va : String) {E} :
    MTriple (Evo n0 D0 m ql) (apiSetAttribute id na va) (fun _ => Evo n0 D0 m ql) E := by
  apply MTriple.ofModify (fun s => { s with trace := s.trace ++ [.setAttr id na va] }) _
    (fun s => rfl)
  intro s hP
  exact ⟨hP.1, hP.2.1, hP.2.2⟩

lemma evo_appendChild (n0 : Nat) (D0 : Dom) (m : Nat) (ql : List VNode)
    (hbase : BaseWF n0 D0) (parent child : Nat) (hpar : n0 ≤ parent) :
    MTriple (fun s => Evo n0 D0 m ql s ∧ n0 ≤ child ∧ child < s.nextId)
      (apiAppendChild parent child)
      (fun _ => Evo n0 D0 m ql) (Evo n0 D0 m ql) := by
  intro s hP
  obtain ⟨⟨⟨hn0, fr, hdom, hfr⟩, hm, hq⟩, hch1, hch2⟩ := hP
  have hkeys : ∀ p l, (p, l) ∈ D0 → p < n0 := fun p l h => (hbase p l h).1
  have hunl : domUnlink s.dom child = D0 ++ domUnlink fr child := by
    rw [hdom, domUnlink_append, domUnlink_base_id n0 D0 hbase child hch1]
  have hfr' : ∀ p l, (p, l) ∈ domUnlink fr child →
      n0 ≤ p ∧ p < s.nextId ∧ ∀ c ∈ l, n0 ≤ c ∧ c < s.nextId := by
    intro p l hpl
    unfold domUnlink at hpl
    obtain ⟨q, hq', heq⟩ := List.mem_map.mp hpl
    injection heq with h1 h2
    obtain ⟨ha, hb, hc⟩ := hfr q.1 q.2 (by simpa using hq')
    subst h1
    refine ⟨ha, hb, ?_⟩
    intro c hcm
    rw [← h2] at hcm
    exact hc c (List.mem_of_mem_erase hcm)
  constructor
  · intro a s' hr
    rw [runM_apiAppendChild] at hr
    dsimp only at hr
    rcases hlk : domLookup (domUnlink s.dom child) parent with _ | l
    · rw [hlk] at hr
      exact absurd hr (by simp)
    · rw [hlk] at hr
      injection hr with _ h2
      subst h2
      rw [hunl] at hlk
      rw [domLookup_append_right n0 D0 _ hkeys parent hpar] at hlk
      rw [hunl, domSet_append_right n0 D0 _ hkeys parent hpar]
      have hlmem : ∀ c ∈ l, n0 ≤ c ∧ c < s.nextId := by
        unfold domLookup at hlk
        rcases hf : (domUnlink fr child).find? (fun q => q.1 = parent) with _ | q'
        · rw [hf] at hlk
          simp at hlk
        · rw [hf] at hlk
          simp at hlk
          have h2 := List.mem_of_find?_eq_some hf
          rcases q' with ⟨p', l'⟩
          have h3 := hfr' p' l' (by simpa using h2)
          rw [← hlk]
          exact h3.2.2
      have hparlt : parent < s.nextId := by
        unfold domLookup at hlk
        rcases hf : (domUnlink fr child).find? (fun q => q.1 = parent) with _ | q'
        · rw [hf] at hlk
          simp at hlk
        · have h1 := List.find?_some hf
          have h2 := List.mem_of_find?_eq_some hf
          simp at h1
          rcases q' with ⟨p', l'⟩
          have h3 := hfr' p' l' (by simpa using h2)
          simp at h1
          omega
      refine ⟨⟨hn0, domSet (domUnlink fr child) parent (l ++ [child]), rfl, ?_⟩, hm, hq⟩
      intro p l2 hpl
      unfold domSet at hpl
      obtain ⟨q2, hq2, heq⟩ := List.mem_map.mp hpl
      by_cases hq2p : q2.1 = parent
      · rw [if_pos hq2p] at heq
        injection heq with h1 h2
        subst h1
        subst h2
        refine ⟨hpar, hparlt, ?_⟩
        intro c hcm
        rcases List.mem_append.mp hcm with h | h
        · exact hlmem c h
        · rcases List.mem_singleton.mp h with rfl
          exact ⟨hch1, hch2⟩
      · rw [if_neg hq2p] at heq
        rcases q2 with ⟨p2, l2'⟩
        injection heq with h1 h2
        subst h1
        subst h2
        exact hfr' p2 l2' (by simpa using hq2)
  · intro er s' hr
    rw [runM_apiAppendChild] at hr
    dsimp only at hr
    rcases hlk : domLookup (domUnlink s.dom child) parent with _ | l
    · rw [hlk] at hr
      injection hr with _ h2
      subst h2
      exact ⟨⟨hn0, fr, hdom, hfr⟩, hm, hq⟩
    · rw [hlk] at hr
      exact absurd hr (by simp)

lemma MTriple.matchOpt {α β : Type} (o : Option β) (fx : β → M α) (fy : M α)
    {P : S → Prop} {Q : α → S → Prop} {E : S → Prop}
    (hs : ∀ b, o = some b → MTriple P (fx b) Q E)
    (hn : o = none → MTriple P fy Q E) :
    MTriple P (match o with | some b => fx b | none => fy) Q E := by
  rcases ho : o with _ | b
  · exact hn ho
  · exact hs b ho

lemma MTriple.exPre {α β : Type} {p : β → Prop} {g : β → S → Prop}
    {x : M α} {Q : α → S → Prop} {E : S → Prop}
    (h : ∀ b, p b → MTriple (g b) x Q E) :
    MTriple (fun s => ∃ b, p b ∧ g b s) x Q E := by
  intro s hP
  obtain ⟨b, hb, hg⟩ := hP
  exact h b hb s hg

lemma MTriple.falsePre {α : Type} {P : S → Prop} {x : M α} {Q : α → S → Prop} {E : S → Prop}
    (h : ∀ s, P s → False) : MTriple P x Q E := by
  intro s hP
  exact absurd hP (fun hc => h s hc)

/-- The `data.hook?.x?.()` pattern as one triple. -/
lemma evo_hookStep (n0 : Nat) (D0 : Dom) (m : Nat) (ql : List VNode)
    (ho : Option Hooks) (g : Hooks → Bool) (ev : Ev) {E} :
    MTriple (Evo n0 D0 m ql)
      ((match ho with
        | some h => if g h then emit ev else pure ()
        | none => pure ()) : M Unit)
      (fun _ => Evo n0 D0 m ql) E := by
  rcases ho with _ | h
  · exact MTriple.purePost () (fun s hP => hP)
  · dsimp only
    cases hg : g h
    · rw [if_neg (by simp)]
      exact MTriple.purePost () (fun s hP => hP)
    · rw [if_pos rfl]
      exact evo_emit n0 D0 m ql ev

/-- The tail of `createElm`'s element path: the unguarded
`vnode.data!.hook` read, the `create` hook and the queue push. -/
lemma evo_finalHookStep (n0 : Nat) (D0 : Dom) (m : Nat) (ql : List VNode)
    (a2 : VNode) (vid : Nat) :
    MTriple (Evo n0 D0 m ql)
      ((match a2.data with
        | none => throw Err.typeErr
        | some d => do
          (match d.hook with
           | some h => do
             (if h.hCreate then emit (.hookCreate vid) else pure ())
             (if h.hInsert then pushQueue a2 else pure ())
           | none => pure ())
          pure a2) : M VNode)
      (fun v1 s' => v1 = a2 ∧ Evo n0 D0 m ql s')
      (Evo n0 D0 m ql) := by
  rcases hd : a2.data with _ | d
  · exact MTriple.throwPost _ (fun s hP => hP)
  · dsimp only
    have hins : ∀ (h : Hooks), d.hook = some h → h.hInsert = true → insertHooked a2 = true := by
      intro h hh hi
      simp [insertHooked, VNode.hook, hd, hh, hi]
    rcases hh : d.hook with _ | h
    · dsimp only
      apply MTriple.bind (Q := fun _ => Evo n0 D0 m ql)
      · exact MTriple.purePost () (fun s hP => hP)
      · intro _
        exact MTriple.purePost a2 (fun s hP => ⟨rfl, hP⟩)
    · dsimp only
      apply MTriple.bind (Q := fun _ => Evo n0 D0 m ql)
      · apply MTriple.bind (Q := fun _ => Evo n0 D0 m ql)
        · by_cases hc : h.hCreate
          · rw [if_pos hc]
            exact evo_emit n0 D0 m ql _
          · rw [if_neg hc]
            exact MTriple.purePost () (fun s hP => hP)
        · intro _
          by_cases hi : h.hInsert
          · rw [if_pos hi]
            exact evo_pushQueue n0 D0 m ql a2 (hins h hh hi)
          · rw [if_neg hi]
            exact MTriple.purePost () (fun s hP => hP)
      · intro _
        exact MTriple.purePost a2 (fun s hP => ⟨rfl, hP⟩)

/-- Weakening the baseline lower bound of the evolution predicate. -/
lemma evo_mono (n0 : Nat) (D0 : Dom) (m m' : Nat) (ql : List VNode) (s : S)
    (h : Evo n0 D0 m ql s) (hm : m' ≤ m) : Evo n0 D0 m' ql s :=
  ⟨h.1, le_trans hm h.2.1, h.2.2⟩

lemma MTriple.purePre {α : Type} {A : Prop} {P : S → Prop} {x : M α}
    {Q : α → S → Prop} {E : S → Prop}
    (h : A → MTriple P x Q E) : MTriple (fun s => A ∧ P s) x Q E := by
  intro s hP
  exact h hP.1 s hP.2

@[simp] lemma VNode.withChildren_elm (v : VNode) (c : Option (List (Option VNode))) :
    (v.withChildren c).elm = v.elm := by
  rcases v with ⟨s, k, d, cc, t, e, i⟩
  rfl

@[simp] lemma VNode.withText_elm (v : VNode) (t : Option String) :
    (v.withText t).elm = v.elm := by
  rcases v with ⟨s, k, d, c, tt, e, i⟩
  rfl

/-- The frame property of `createElm`: the host tree evolves only by
fresh entries (the baseline tree is untouched), the id counter is
monotone, the pass queue extends only by insert-hooked vnodes, and the
returned vnode is bound to a freshly allocated host node. -/
lemma createElm_frame (ctx : Ctx) (n0 : Nat) (D0 : Dom) (hbase : BaseWF n0 D0) :
    ∀ fuel : Nat,
      (∀ v m ql, MTriple (Evo n0 D0 m ql) (createElm ctx fuel v)
         (fun v1 s' => ∃ ve, (v1.elm = some ve ∧ n0 ≤ ve ∧ m ≤ ve) ∧
           Evo n0 D0 (ve + 1) ql s')
         (Evo n0 D0 m ql)) ∧
      (∀ parentElm chs m ql, n0 ≤ parentElm →
        MTriple (Evo n0 D0 m ql) (createElmChildren ctx fuel parentElm chs)
          (fun _ => Evo n0 D0 m ql) (Evo n0 D0 m ql)) := by
  intro fuel
  induction fuel with
  | zero =>
    constructor
    · intro v m ql
      simp only [createElm]
      exact MTriple.throwPost _ (fun s hP => hP)
    · intro parentElm chs m ql _
      rcases chs with _ | ⟨hd, tl⟩
      · simp only [createElmChildren]
        exact MTriple.purePost [] (fun s hP => hP)
      · simp only [createElmChildren]
        exact MTriple.throwPost _ (fun s hP => hP)
  | succ fuel ih =>
    constructor
    · intro v m ql
      obtain ⟨sel, key, data, children, text, elm0, vid⟩ := v
      simp only [createElm, VNode.data, VNode.children, VNode.sel, VNode.text, VNode.vid]
      apply MTriple.bind (Q := fun _ => Evo n0 D0 m ql)
      · -- the `init` hook step
        rcases data with _ | d
        · exact MTriple.purePost () (fun s hP => hP)
        · exact evo_hookStep n0 D0 m ql d.hook (fun h => h.hInit) (.hookInit vid)
      · intro _
        rcases sel with _ | selStr
        · -- selectorless: fragment or text node
          apply MTriple.iteSplit ((none : Option String) = some "!")
          · intro hc
            exact absurd hc (by simp)
          · intro _
            dsimp only
            rcases children with _ | chs
            · -- no children: text path (the fragment condition is false)
              apply MTriple.iteSplit (ctx.fragments ∧ (none : Option (List (Option VNode))).isSome)
              · intro hc
                exact absurd hc.2 (by simp)
              · intro _
                apply MTriple.bind
                  (Q := fun a s => (m ≤ a ∧ n0 ≤ a) ∧ Evo n0 D0 (a + 1) ql s)
                · exact (evo_createTextNode n0 D0 m ql _).conseq (fun s h => h)
                    (fun a s h => ⟨⟨h.2.1, h.2.2⟩, h.1⟩) (fun s h => h)
                · intro a
                  apply MTriple.purePre
                  intro ⟨hma, hna⟩
                  apply MTriple.purePost
                  intro s hP
                  exact ⟨a, ⟨by simp, hna, hma⟩, hP⟩
            · -- children present: fragment path (when enabled)
              apply MTriple.iteSplit
                (ctx.fragments ∧ (some chs : Option (List (Option VNode))).isSome)
              · intro _
                dsimp only
                apply MTriple.bind
                  (Q := fun a s => (m ≤ a ∧ n0 ≤ a) ∧ Evo n0 D0 (a + 1) ql s)
                · apply MTriple.iteSplit ctx.hasFragment
                  · intro _
                    exact (evo_createFragment n0 D0 m ql).conseq (fun s h => h)
                      (fun a s h => ⟨⟨h.2.1, h.2.2⟩, h.1⟩) (fun s h => h)
                  · intro _
                    exact MTriple.throwPost _ (fun s hP => hP)
                · intro a
                  apply MTriple.purePre
                  intro ⟨hma, hna⟩
                  apply MTriple.bind (Q := fun _ => Evo n0 D0 (a + 1) ql)
                  · exact evo_emitAll n0 D0 (a + 1) ql _
                  · intro _
                    apply MTriple.bind (Q := fun _ => Evo n0 D0 (a + 1) ql)
                    · exact ((ih.2 a chs (a + 1) ql hna).conseq (fun s h => h)
                        (fun b s h => h) (fun s h => evo_mono n0 D0 (a + 1) m ql s h (by omega)))
                    · intro chs'
                      apply MTriple.purePost
                      intro s hP
                      exact ⟨a, ⟨by simp, hna, hma⟩, hP⟩
              · intro _
                apply MTriple.bind
                  (Q := fun a s => (m ≤ a ∧ n0 ≤ a) ∧ Evo n0 D0 (a + 1) ql s)
                · exact (evo_createTextNode n0 D0 m ql _).conseq (fun s h => h)
                    (fun a s h => ⟨⟨h.2.1, h.2.2⟩, h.1⟩) (fun s h => h)
                · intro a
                  apply MTriple.purePre
                  intro ⟨hma, hna⟩
                  apply MTriple.purePost
                  intro s hP
                  exact ⟨a, ⟨by simp, hna, hma⟩, hP⟩
        · -- defined selector: comment or element
          apply MTriple.iteSplit ((some selStr : Option String) = some "!")
          · intro _
            apply MTriple.bind
              (Q := fun a s => (m ≤ a ∧ n0 ≤ a) ∧ Evo n0 D0 (a + 1) ql s)
            · exact (evo_createComment n0 D0 m ql _).conseq (fun s h => h)
                (fun a s h => ⟨⟨h.2.1, h.2.2⟩, h.1⟩) (fun s h => h)
            · intro a
              apply MTriple.purePre
              intro ⟨hma, hna⟩
              apply MTriple.purePost
              intro s hP
              exact ⟨a, ⟨by simp, hna, hma⟩, hP⟩
          · intro _
            dsimp only
            apply MTriple.bind
              (Q := fun a s => (m ≤ a ∧ n0 ≤ a) ∧ Evo n0 D0 (a + 1) ql s)
            · -- element creation, with or without a namespace
              rcases data with _ | d
              · dsimp only
                exact (evo_createElement n0 D0 m ql _).conseq (fun s h => h)
                  (fun a s h => ⟨⟨h.2.1, h.2.2⟩, h.1⟩) (fun s h => h)
              · dsimp only
                rcases hns : d.ns with _ | ns
                · dsimp only
                  exact (evo_createElement n0 D0 m ql _).conseq (fun s h => h)
                    (fun a s h => ⟨⟨h.2.1, h.2.2⟩, h.1⟩) (fun s h => h)
                · dsimp only
                  exact (evo_createElementNS n0 D0 m ql _ _).conseq (fun s h => h)
                    (fun a s h => ⟨⟨h.2.1, h.2.2⟩, h.1⟩) (fun s h => h)
            · intro a
              apply MTriple.purePre
              intro ⟨hma, hna⟩
              apply MTriple.bind (Q := fun _ => Evo n0 D0 (a + 1) ql)
              · apply MTriple.iteSplit
                · intro _
                  exact evo_setAttr n0 D0 (a + 1) ql _ _ _
                · intro _
                  exact MTriple.purePost () (fun s hP => hP)
              · intro _
                apply MTriple.bind (Q := fun _ => Evo n0 D0 (a + 1) ql)
                · apply MTriple.iteSplit
                  · intro _
                    exact evo_setAttr n0 D0 (a + 1) ql _ _ _
                  · intro _
                    exact MTriple.purePost () (fun s hP => hP)
                · intro _
                  apply MTriple.bind (Q := fun _ => Evo n0 D0 (a + 1) ql)
                  · exact evo_emitAll n0 D0 (a + 1) ql _
                  · intro _
                    apply MTriple.bind
                      (Q := fun v2 s => v2.elm = some a ∧ Evo n0 D0 (a + 1) ql s)
                    · -- children or text content
                      rcases children with _ | chs
                      · rcases text with _ | t
                        · exact MTriple.purePost _ (fun s hP => ⟨by simp, hP⟩)
                        · apply MTriple.bind
                            (Q := fun b s => (n0 ≤ b ∧ a + 1 ≤ b) ∧
                              Evo n0 D0 (b + 1) ql s)
                          · exact (evo_createTextNode n0 D0 (a + 1) ql _).conseq
                              (fun s h => h)
                              (fun b s h => ⟨⟨h.2.2, h.2.1⟩, h.1⟩) (fun s h =>
                                evo_mono n0 D0 (a + 1) m ql s h (by omega))
                          · intro b
                            apply MTriple.purePre
                            intro ⟨hnb, hab⟩
                            apply MTriple.bind (Q := fun _ => Evo n0 D0 (a + 1) ql)
                            · apply (evo_appendChild n0 D0 (b + 1) ql hbase a b hna).conseq
                              · intro s h
                                exact ⟨h, hnb, by
                                  have := h.2.1
                                  omega⟩
                              · intro c s h
                                exact evo_mono n0 D0 (b + 1) (a + 1) ql s h (by omega)
                              · intro s h
                                exact evo_mono n0 D0 (b + 1) m ql s h (by omega)
                            · intro _
                              exact MTriple.purePost _ (fun s hP => ⟨by simp, hP⟩)
                      · apply MTriple.bind (Q := fun _ => Evo n0 D0 (a + 1) ql)
                        · exact (ih.2 a chs (a + 1) ql hna).conseq (fun s h => h)
                            (fun b s h => h)
                            (fun s h => evo_mono n0 D0 (a + 1) m ql s h (by omega))
                        · intro chs'
                          exact MTriple.purePost _ (fun s hP => ⟨by simp, hP⟩)
                    · intro v2
                      apply MTriple.purePre
                      intro helm2
                      apply (evo_finalHookStep n0 D0 (a + 1) ql v2 vid).conseq
                      · intro s h
                        exact h
                      · intro v1 s h
                        exact ⟨a, ⟨h.1 ▸ helm2, hna, hma⟩, h.2⟩
                      · intro s h
                        exact evo_mono n0 D0 (a + 1) m ql s h (by omega)
    · intro parentElm chs m ql hpar
      rcases chs with _ | ⟨hd, tl⟩
      · simp only [createElmChildren]
        exact MTriple.purePost [] (fun s hP => hP)
      · rcases hd with _ | ch
        · simp only [createElmChildren]
          apply MTriple.bind (Q := fun _ => Evo n0 D0 m ql)
          · exact ih.2 parentElm tl m ql hpar
          · intro t'
            exact MTriple.purePost _ (fun s hP => hP)
        · simp only [createElmChildren]
          apply MTriple.bind
            (Q := fun ch' s => ∃ ve, (ch'.elm = some ve ∧ n0 ≤ ve ∧ m ≤ ve) ∧
              Evo n0 D0 (ve + 1) ql s)
          · exact ih.1 ch m ql
          · intro ch'
            apply MTriple.exPre
            intro b ⟨hbe, hnb, hmb⟩
            rw [hbe]
            dsimp only
            apply MTriple.bind (Q := fun _ => Evo n0 D0 (b + 1) ql)
            · apply (evo_appendChild n0 D0 (b + 1) ql hbase parentElm b hpar).conseq
              · intro s h
                exact ⟨h, hnb, by
                  have := h.2.1
                  omega⟩
              · intro c s h
                exact h
              · intro s h
                exact evo_mono n0 D0 (b + 1) m ql s h (by omega)
            · intro _
              apply MTriple.bind (Q := fun _ => Evo n0 D0 (b + 1) ql)
              · exact (ih.2 parentElm tl (b + 1) ql hpar).conseq (fun s h => h)
                  (fun c s h => h)
                  (fun s h => evo_mono n0 D0 (b + 1) m ql s h (by omega))
              · intro t'
                apply MTriple.purePost
                intro s hP
                exact evo_mono n0 D0 (b + 1) m ql s hP (by omega)

/-! ## C7: patching over an unattached old root -/

lemma runM_modifyQueueClear (s : S) :
    runM (modify (fun s => { s with queue := [] }) : M Unit) s
      = (.ok (), { s with queue := [] }) := rfl

/-- When every queued vnode declares `data.hook.insert` (which
`createElm` guarantees for the pass queue), the flush loop succeeds and
emits exactly one `insert` invocation per queued vnode, in queue
order. -/
lemma flushLoop_ok (q : List VNode) :
    ∀ s : S, (∀ u ∈ q, insertHooked u = true) →
      runM (flushLoop q) s
        = (Except.ok (), { s with trace := s.trace ++ q.map (fun u => Ev.hookInsert u.vid) }) := by
  induction q with
  | nil =>
    intro s _
    simp [flushLoop]
  | cons v t ih =>
    intro s hq
    have hv : insertHooked v = true := hq v (by simp)
    rcases hh : v.hook with _ | h
    · exfalso
      simp [insertHooked, hh] at hv
    · have hi : h.hInsert = true := by simpa [insertHooked, hh] using hv
      simp only [flushLoop]
      rw [runM_bind, hh]
      dsimp only
      rw [if_pos hi, runM_emit]
      dsimp only
      rw [ih _ (fun u hu => hq u (List.mem_cons_of_mem _ hu))]
      simp

lemma runM_flushInsert (s : S) (h : ∀ u ∈ s.queue, insertHooked u = true) :
    runM flushInsert s
      = (Except.ok (), { s with trace := s.trace ++ s.queue.map (fun u => Ev.hookInsert u.vid) }) := by
  simp only [flushInsert]
  rw [runM_bind, runM_get]
  dsimp only
  exact flushLoop_ok s.queue s h

/-- **C7.** When `patch` runs with an old root that is not
`sameVnode`-equivalent to the new vnode, whose bound host node exists
but has no parent in the live tree, and element building itself
succeeds, then: `patch` returns `Ok` (no error raised or reported), the
returned vnode has `elm` populated (the subtree was fully built), every
pre-existing host node keeps its exact child list, and the old root's
host node still has no parent — no host-tree insertion occurred. -/
theorem claim_C7_unattached_root_silent
    (ctx : Ctx) (fuel : Nat) (oldVnode vnode : VNode) (s : S) (e : Nat)
    (hsame : sameVnode oldVnode vnode = false)
    (helm : oldVnode.elm = some e)
    (he : e < s.nextId)
    (hwf : BaseWF s.nextId s.dom)
    (hpar : domParent s.dom e = none)
    (hok : ∃ v1 s2, runM (createElm ctx fuel vnode)
        { s with trace := s.trace ++ (List.range ctx.cbs.pre).map Ev.modulePre,
                 queue := [] }
      = (Except.ok v1, s2)) :
    ∃ v1 s', runM (patch ctx fuel oldVnode vnode) s = (Except.ok v1, s')
      ∧ v1.elm.isSome = true
      ∧ (∀ p, p < s.nextId → domLookup s'.dom p = domLookup s.dom p)
      ∧ domParent s'.dom e = none := by
  obtain ⟨v1, s2, hce⟩ := hok
  have hEvo1 : Evo s.nextId s.dom s.nextId []
      { s with trace := s.trace ++ (List.range ctx.cbs.pre).map Ev.modulePre,
               queue := [] } := by
    refine ⟨⟨le_refl _, [], by simp, ?_⟩, le_refl _, [], by simp, ?_⟩
    · intro p l hm
      simp at hm
    · intro u hu
      simp at hu
  have hframe := ((createElm_frame ctx s.nextId s.dom hwf fuel).1 vnode s.nextId []
    _ hEvo1).1 v1 s2 hce
  obtain ⟨ve, ⟨hv1elm, _, _⟩, hEvo2⟩ := hframe
  obtain ⟨⟨hn2, fr, hdom2, hfr⟩, _, q2, hq2, hq2all⟩ := hEvo2
  have hall : ∀ u ∈ s2.queue, insertHooked u = true := by
    intro u hu
    rw [hq2] at hu
    exact hq2all u (by simpa using hu)
  have hrun : runM (patch ctx fuel oldVnode vnode) s
      = (Except.ok v1,
         { s2 with trace := (s2.trace ++ s2.queue.map (fun u => Ev.hookInsert u.vid))
             ++ (List.range ctx.cbs.post).map Ev.modulePost }) := by
    simp only [patch]
    rw [runM_bind, runM_modifyQueueClear]
    dsimp only
    rw [runM_bind, runM_emitAll]
    dsimp only
    rw [runM_bind, if_neg (by simp [hsame]), helm]
    dsimp only
    rw [runM_bind, runM_apiParentNode]
    dsimp only
    rw [hpar, runM_bind, hce]
    dsimp only
    rw [runM_bind, runM_pure]
    dsimp only
    rw [runM_pure]
    dsimp only
    rw [runM_bind, runM_flushInsert s2 hall]
    dsimp only
    rw [runM_bind, runM_emitAll]
    dsimp only
    rw [runM_pure]
  refine ⟨v1, _, hrun, ?_, ?_, ?_⟩
  · rw [hv1elm]
    rfl
  · intro p hp
    show domLookup s2.dom p = domLookup s.dom p
    rw [hdom2]
    exact domLookup_append_left s.nextId s.dom fr (fun p l hm => (hfr p l hm).1) p hp
  · show domParent s2.dom e = none
    rw [hdom2]
    exact domParent_append_none s.nextId s.dom fr
      (fun p l hm c hc => ((hfr p l hm).2.2 c hc).1) e he hpar

/-- The concrete C7 scenario: an old `div` root bound to host node 0
(present but parentless), patched against a fresh `span`. -/
def vC7old : VNode := .mk (some "div") none (some emptyData) none none (some 0) 0

def vC7new : VNode := .mk (some "span") none (some emptyData) none none none 1

def ctxC7 : Ctx := ⟨⟨0, 0, 0, 0, 0, 0⟩, false, false⟩

def sC7 : S := ⟨1, [(0, [])], [], []⟩

theorem claim_C7_unattached_root_silent_witness :
    ∃ v1 s', runM (patch ctxC7 2 vC7old vC7new) sC7 = (Except.ok v1, s')
      ∧ v1.elm.isSome = true
      ∧ (∀ p, p < sC7.nextId → domLookup s'.dom p = domLookup sC7.dom p)
      ∧ domParent s'.dom 0 = none :=
  claim_C7_unattached_root_silent ctxC7 2 vC7old vC7new sC7 0
    (by decide) rfl (by decide)
    (by
      intro p l hm
      have h := List.mem_singleton.mp hm
      rw [Prod.mk.injEq] at h
      obtain ⟨h1, h2⟩ := h
      subst h1
      subst h2
      refine ⟨by decide, ?_⟩
      intro c hc
      simp at hc)
    rfl ⟨_, _, rfl⟩

/-! ## C5: insert hooks — flush order and timing -/

/-- Recognize an `insert`-hook invocation event. -/
def Ev.isInsertHook : Ev → Bool
  | .hookInsert _ => true
  | _ => false

/-- The trace extends `t0` only by events that are not `insert`-hook
invocations (the element-building phase never fires `insert`). -/
def NoIns (t0 : List Ev) (s : S) : Prop :=
  ∃ es, s.trace = t0 ++ es ∧ ∀ ev ∈ es, ev.isInsertHook = false

lemma noIns_run {α : Type} (x : M α)
    (hx : ∀ s, ∃ es, (runM x s).2.trace = s.trace ++ es ∧ ∀ ev ∈ es, ev.isInsertHook = false)
    (t0 : List Ev) :
    MTriple (NoIns t0) x (fun _ => NoIns t0) (NoIns t0) := by
  intro s hP
  obtain ⟨es0, hs0, hes0⟩ := hP
  obtain ⟨es, htr, hes⟩ := hx s
  have key : ∀ s' : S, (runM x s).2 = s' → NoIns t0 s' := by
    intro s' h2
    refine ⟨es0 ++ es, ?_, ?_⟩
    · rw [← h2, htr, hs0, List.append_assoc]
    · intro ev hev
      rcases List.mem_append.mp hev with h | h
      · exact hes0 ev h
      · exact hes ev h
  constructor
  · intro a s' hr
    exact key s' (by rw [hr])
  · intro er s' hr
    exact key s' (by rw [hr])

lemma noIns_emit (t0 : List Ev) (e : Ev) (he : e.isInsertHook = false) :
    MTriple (NoIns t0) (emit e) (fun _ => NoIns t0) (NoIns t0) :=
  noIns_run _ (fun s => ⟨[e], by simp, by simpa using he⟩) t0

lemma noIns_emitAll (t0 : List Ev) (es : List Ev) (he : ∀ e ∈ es, e.isInsertHook = false) :
    MTriple (NoIns t0) (emitAll es) (fun _ => NoIns t0) (NoIns t0) :=
  noIns_run _ (fun s => ⟨es, by simp, he⟩) t0

lemma noIns_pushQueue (t0 : List Ev) (u : VNode) :
    MTriple (NoIns t0) (pushQueue u) (fun _ => NoIns t0) (NoIns t0) :=
  noIns_run _ (fun s => ⟨[], by simp, by simp⟩) t0

lemma noIns_createElement (t0 : List Ev) (tag : String) :
    MTriple (NoIns t0) (apiCreateElement tag) (fun _ => NoIns t0) (NoIns t0) :=
  noIns_run _ (fun s => ⟨[.createElement s.nextId tag], by simp, by simp [Ev.isInsertHook]⟩) t0

lemma noIns_createElementNS (t0 : List Ev) (ns tag : String) :
    MTriple (NoIns t0) (apiCreateElementNS ns tag) (fun _ => NoIns t0) (NoIns t0) :=
  noIns_run _ (fun s => ⟨[.createElementNS s.nextId ns tag], by simp, by simp [Ev.isInsertHook]⟩) t0

lemma noIns_createTextNode (t0 : List Ev) (t : String) :
    MTriple (NoIns t0) (apiCreateTextNode t) (fun _ => NoIns t0) (NoIns t0) :=
  noIns_run _ (fun s => ⟨[.createTextNode s.nextId t], by simp, by simp [Ev.isInsertHook]⟩) t0

lemma noIns_createComment (t0 : List Ev) (t : String) :
    MTriple (NoIns t0) (apiCreateComment t) (fun _ => NoIns t0) (NoIns t0) :=
  noIns_run _ (fun s => ⟨[.createComment s.nextId t], by simp, by simp [Ev.isInsertHook]⟩) t0

lemma noIns_createFragment (t0 : List Ev) :
    MTriple (NoIns t0) apiCreateDocumentFragment (fun _ => NoIns t0) (NoIns t0) :=
  noIns_run _ (fun s => ⟨[.createDocumentFragment s.nextId], by simp, by simp [Ev.isInsertHook]⟩) t0

lemma noIns_setAttr (t0 : List Ev) (id : Nat) (n v : String) :
    MTriple (NoIns t0) (apiSetAttribute id n v) (fun _ => NoIns t0) (NoIns t0) :=
  noIns_run _ (fun s => ⟨[.setAttr id n v], by simp, by simp [Ev.isInsertHook]⟩) t0

lemma noIns_appendChild (t0 : List Ev) (parent child : Nat) :
    MTriple (NoIns t0) (apiAppendChild parent child) (fun _ => NoIns t0) (NoIns t0) := by
  apply noIns_run _ _ t0
  intro s
  refine ⟨[.appendChild parent child], ?_, by simp [Ev.isInsertHook]⟩
  rw [runM_apiAppendChild]
  dsimp only
  rcases h : domLookup (domUnlink s.dom child) parent with _ | l
  · rfl
  · rfl

lemma noIns_hookStep (t0 : List Ev) (ho : Option Hooks) (g : Hooks → Bool) (ev : Ev)
    (hev : ev.isInsertHook = false) :
    MTriple (NoIns t0)
      ((match ho with
        | some h => if g h then emit ev else pure ()
        | none => pure ()) : M Unit)
      (fun _ => NoIns t0) (NoIns t0) := by
  rcases ho with _ | h
  · exact MTriple.purePost () (fun s hP => hP)
  · dsimp only
    cases hg : g h
    · rw [if_neg (by simp)]
      exact MTriple.purePost () (fun s hP => hP)
    · rw [if_pos rfl]
      exact noIns_emit t0 ev hev

lemma noIns_finalHookStep (t0 : List Ev) (a2 : VNode) (vid : Nat) :
    MTriple (NoIns t0)
      ((match a2.data with
        | none => throw Err.typeErr
        | some d => do
          (match d.hook with
           | some h => do
             (if h.hCreate then emit (.hookCreate vid) else pure ())
             (if h.hInsert then pushQueue a2 else pure ())
           | none => pure ())
          pure a2) : M VNode)
      (fun _ => NoIns t0) (NoIns t0) := by
  rcases hd : a2.data with _ | d
  · exact MTriple.throwPost _ (fun s hP => hP)
  · dsimp only
    rcases hh : d.hook with _ | h
    · dsimp only
      apply MTriple.bind (Q := fun _ => NoIns t0)
      · exact MTriple.purePost () (fun s hP => hP)
      · intro _
        exact MTriple.purePost a2 (fun s hP => hP)
    · dsimp only
      apply MTriple.bind (Q := fun _ => NoIns t0)
      · apply MTriple.bind (Q := fun _ => NoIns t0)
        · by_cases hc : h.hCreate
          · rw [if_pos hc]
            exact noIns_emit t0 _ rfl
          · rw [if_neg hc]
            exact MTriple.purePost () (fun s hP => hP)
        · intro _
          by_cases hi : h.hInsert
          · rw [if_pos hi]
            exact noIns_pushQueue t0 a2
          · rw [if_neg hi]
            exact MTriple.purePost () (fun s hP => hP)
      · intro _
        exact MTriple.purePost a2 (fun s hP => hP)

/-- `createElm`/`createElmChildren` never emit an `insert`-hook event:
the element-building phase only records building work, and `insert`
hooks queue up for the post-pass flush. -/
lemma createElm_noIns (ctx : Ctx) (t0 : List Ev) :
    ∀ fuel : Nat,
      (∀ v, MTriple (NoIns t0) (createElm ctx fuel v) (fun _ => NoIns t0) (NoIns t0)) ∧
      (∀ parentElm chs, MTriple (NoIns t0) (createElmChildren ctx fuel parentElm chs)
        (fun _ => NoIns t0) (NoIns t0)) := by
  intro fuel
  induction fuel with
  | zero =>
    constructor
    · intro v
      simp only [createElm]
      exact MTriple.throwPost _ (fun s hP => hP)
    · intro parentElm chs
      rcases chs with _ | ⟨hd, tl⟩
      · simp only [createElmChildren]
        exact MTriple.purePost [] (fun s hP => hP)
      · simp only [createElmChildren]
        exact MTriple.throwPost _ (fun s hP => hP)
  | succ fuel ih =>
    constructor
    · intro v
      obtain ⟨sel, key, data, children, text, elm0, vid⟩ := v
      simp only [createElm, VNode.data, VNode.children, VNode.sel, VNode.text, VNode.vid]
      apply MTriple.bind (Q := fun _ => NoIns t0)
      · rcases data with _ | d
        · exact MTriple.purePost () (fun s hP => hP)
        · exact noIns_hookStep t0 d.hook (fun h => h.hInit) (.hookInit vid) rfl
      · intro _
        rcases sel with _ | selStr
        · apply MTriple.iteSplit ((none : Option String) = some "!")
          · intro hc
            exact absurd hc (by simp)
          · intro _
            dsimp only
            rcases children with _ | chs
            · apply MTriple.iteSplit
                (ctx.fragments ∧ (none : Option (List (Option VNode))).isSome)
              · intro hc
                exact absurd hc.2 (by simp)
              · intro _
                apply MTriple.bind (Q := fun _ => NoIns t0)
                · exact noIns_createTextNode t0 _
                · intro a
                  exact MTriple.purePost _ (fun s hP => hP)
            · apply MTriple.iteSplit
                (ctx.fragments ∧ (some chs : Option (List (Option VNode))).isSome)
              · intro _
                dsimp only
                apply MTriple.bind (Q := fun _ => NoIns t0)
                · apply MTriple.iteSplit ctx.hasFragment
                  · intro _
                    exact noIns_createFragment t0
                  · intro _
                    exact MTriple.throwPost _ (fun s hP => hP)
                · intro a
                  apply MTriple.bind (Q := fun _ => NoIns t0)
                  · refine noIns_emitAll t0 _ ?_
                    intro e he
                    simp only [List.mem_map] at he
                    obtain ⟨i, _, rfl⟩ := he
                    rfl
                  · intro _
                    apply MTriple.bind (Q := fun _ => NoIns t0)
                    · exact ih.2 a chs
                    · intro chs'
                      exact MTriple.purePost _ (fun s hP => hP)
              · intro _
                apply MTriple.bind (Q := fun _ => NoIns t0)
                · exact noIns_createTextNode t0 _
                · intro a
                  exact MTriple.purePost _ (fun s hP => hP)
        · apply MTriple.iteSplit ((some selStr : Option String) = some "!")
          · intro _
            apply MTriple.bind (Q := fun _ => NoIns t0)
            · exact noIns_createComment t0 _
            · intro a
              exact MTriple.purePost _ (fun s hP => hP)
          · intro _
            dsimp only
            apply MTriple.bind (Q := fun _ => NoIns t0)
            · rcases data with _ | d
              · dsimp only
                exact noIns_createElement t0 _
              · dsimp only
                rcases hns : d.ns with _ | ns
                · dsimp only
                  exact noIns_createElement t0 _
                · dsimp only
                  exact noIns_createElementNS t0 _ _
            · intro a
              apply MTriple.bind (Q := fun _ => NoIns t0)
              · apply MTriple.iteSplit
                · intro _
                  exact noIns_setAttr t0 _ _ _
                · intro _
                  exact MTriple.purePost () (fun s hP => hP)
              · intro _
                apply MTriple.bind (Q := fun _ => NoIns t0)
                · apply MTriple.iteSplit
                  · intro _
                    exact noIns_setAttr t0 _ _ _
                  · intro _
                    exact MTriple.purePost () (fun s hP => hP)
                · intro _
                  apply MTriple.bind (Q := fun _ => NoIns t0)
                  · refine noIns_emitAll t0 _ ?_
                    intro e he
                    simp only [List.mem_map] at he
                    obtain ⟨i, _, rfl⟩ := he
                    rfl
                  · intro _
                    apply MTriple.bind (Q := fun _ => NoIns t0)
                    · rcases children with _ | chs
                      · rcases text with _ | t
                        · exact MTriple.purePost _ (fun s hP => hP)
                        · apply MTriple.bind (Q := fun _ => NoIns t0)
                          · exact noIns_createTextNode t0 _
                          · intro b
                            apply MTriple.bind (Q := fun _ => NoIns t0)
                            · exact noIns_appendChild t0 a b
                            · intro _
                              exact MTriple.purePost _ (fun s hP => hP)
                      · apply MTriple.bind (Q := fun _ => NoIns t0)
                        · exact ih.2 a chs
                        · intro chs'
                          exact MTriple.purePost _ (fun s hP => hP)
                    · intro v2
                      exact noIns_finalHookStep t0 v2 vid
    · intro parentElm chs
      rcases chs with _ | ⟨hd, tl⟩
      · simp only [createElmChildren]
        exact MTriple.purePost [] (fun s hP => hP)
      · rcases hd with _ | ch
        · simp only [createElmChildren]
          apply MTriple.bind (Q := fun _ => NoIns t0)
          · exact ih.2 parentElm tl
          · intro t'
            exact MTriple.purePost _ (fun s hP => hP)
        · simp only [createElmChildren]
          apply MTriple.bind (Q := fun _ => NoIns t0)
          · exact ih.1 ch
          · intro ch'
            apply MTriple.bind (Q := fun _ => NoIns t0)
            · rcases he : ch'.elm with _ | e
              · exact MTriple.throwPost _ (fun s hP => hP)
              · exact noIns_appendChild t0 parentElm e
            · intro _
              apply MTriple.bind (Q := fun _ => NoIns t0)
              · exact ih.2 parentElm tl
              · intro t'
                exact MTriple.purePost _ (fun s hP => hP)

/-- Hooks with only `insert` declared. -/
def hkIns : Hooks := ⟨false, false, true, false, false, false, false, false⟩

def dIns : VNodeData := ⟨some hkIns, none, none⟩

/-- A parent `div` (vid 10) with one `span` child (vid 11), both
declaring `data.hook.insert`. -/
def vC5child : VNode := .mk (some "span") none (some dIns) none none none 11

def vC5parent : VNode :=
  .mk (some "div") none (some dIns) (some [some vC5child]) none none 10

/-- An old root (`b`, bound to host node 0) that is not
`sameVnode`-equivalent to `vC5parent`. -/
def vC5old : VNode := .mk (some "b") none (some emptyData) none none (some 0) 0

def sC5 : S := ⟨1, [(0, [])], [], []⟩

/-- **C5 counterexample.** One concrete patch pass refutes two parts of
the claim.  The parent's host node (id 1) is created before the
child's (id 2) — creation order is parent-first — yet the child's
`insert` hook fires before the parent's: queued insert hooks fire in
subtree-completion order (a node is queued only after its children are
built), not "in the order the nodes were created during element
building".  Moreover both `insert` hooks fire although the freshly
built root (host node 1) was never attached anywhere (`domParent` is
`none`): "already attached at its final position in the live tree"
also fails on an unattached old root. -/
theorem claim_C5_counterexample :
    ∃ v1 s', runM (patch ctxC7 5 vC5old vC5parent) sC5 = (Except.ok v1, s')
      ∧ s'.trace = [.createElement 1 "div", .createElement 2 "span",
          .appendChild 1 2, .hookInsert 11, .hookInsert 10]
      ∧ s'.trace.indexOf (Ev.createElement 1 "div")
          < s'.trace.indexOf (Ev.createElement 2 "span")
      ∧ s'.trace.indexOf (Ev.hookInsert 11) < s'.trace.indexOf (Ev.hookInsert 10)
      ∧ v1.elm = some 1
      ∧ domParent s'.dom 1 = none := by
  refine ⟨_, _, rfl, ?_, ?_, ?_, ?_, ?_⟩ <;> decide

/-- **C5, amended.** In a root-replacing patch pass (non-equivalent
roots, unattached old root, element building succeeds): the pass trace
decomposes as pre-module hooks, then the element-building events
`buildEvs` — which contain no `insert`-hook invocation at all — then
exactly one `insert` invocation per queued vnode in queue order (the
order nodes completed building, children before their parent), then
the post-module hooks.  So every insert hook fires exactly once, after
the entire element-building phase, in completion order — and it fires
even though the new tree was never attached to the live tree. -/
theorem claim_C5_amended_insert_flush
    (ctx : Ctx) (fuel : Nat) (oldVnode vnode : VNode) (s : S) (e : Nat)
    (hsame : sameVnode oldVnode vnode = false)
    (helm : oldVnode.elm = some e)
    (hwf : BaseWF s.nextId s.dom)
    (hpar : domParent s.dom e = none)
    (hok : ∃ v1 s2, runM (createElm ctx fuel vnode)
        { s with trace := s.trace ++ (List.range ctx.cbs.pre).map Ev.modulePre,
                 queue := [] }
      = (Except.ok v1, s2)) :
    ∃ (v1 : VNode) (s' : S) (buildEvs : List Ev) (q : List VNode),
      runM (patch ctx fuel oldVnode vnode) s = (Except.ok v1, s')
      ∧ (∀ u ∈ q, insertHooked u = true)
      ∧ (∀ ev ∈ buildEvs, ev.isInsertHook = false)
      ∧ s'.trace = s.trace
          ++ (List.range ctx.cbs.pre).map Ev.modulePre
          ++ buildEvs
          ++ q.map (fun u => Ev.hookInsert u.vid)
          ++ (List.range ctx.cbs.post).map Ev.modulePost := by
  obtain ⟨v1, s2, hce⟩ := hok
  have hEvo1 : Evo s.nextId s.dom s.nextId []
      { s with trace := s.trace ++ (List.range ctx.cbs.pre).map Ev.modulePre,
               queue := [] } := by
    refine ⟨⟨le_refl _, [], by simp, ?_⟩, le_refl _, [], by simp, ?_⟩
    · intro p l hm
      simp at hm
    · intro u hu
      simp at hu
  have hframe := ((createElm_frame ctx s.nextId s.dom hwf fuel).1 vnode s.nextId []
    _ hEvo1).1 v1 s2 hce
  obtain ⟨ve, ⟨hv1elm, _, _⟩, hEvo2⟩ := hframe
  obtain ⟨⟨hn2, fr, hdom2, hfr⟩, _, q2, hq2, hq2all⟩ := hEvo2
  have hN1 : NoIns (s.trace ++ (List.range ctx.cbs.pre).map Ev.modulePre)
      { s with trace := s.trace ++ (List.range ctx.cbs.pre).map Ev.modulePre,
               queue := [] } := ⟨[], by simp, by simp⟩
  have hni := ((createElm_noIns ctx
      (s.trace ++ (List.range ctx.cbs.pre).map Ev.modulePre) fuel).1 vnode
    _ hN1).1 v1 s2 hce
  obtain ⟨buildEvs, htr2, hins⟩ := hni
  have hall : ∀ u ∈ s2.queue, insertHooked u = true := by
    intro u hu
    rw [hq2] at hu
    exact hq2all u (by simpa using hu)
  have hrun : runM (patch ctx fuel oldVnode vnode) s
      = (Except.ok v1,
         { s2 with trace := (s2.trace ++ s2.queue.map (fun u => Ev.hookInsert u.vid))
             ++ (List.range ctx.cbs.post).map Ev.modulePost }) := by
    simp only [patch]
    rw [runM_bind, runM_modifyQueueClear]
    dsimp only
    rw [runM_bind, runM_emitAll]
    dsimp only
    rw [runM_bind, if_neg (by simp [hsame]), helm]
    dsimp only
    rw [runM_bind, runM_apiParentNode]
    dsimp only
    rw [hpar, runM_bind, hce]
    dsimp only
    rw [runM_bind, runM_pure]
    dsimp only
    rw [runM_pure]
    dsimp only
    rw [runM_bind, runM_flushInsert s2 hall]
    dsimp only
    rw [runM_bind, runM_emitAll]
    dsimp only
    rw [runM_pure]
  refine ⟨v1, _, buildEvs, q2, hrun, hq2all, hins, ?_⟩
  dsimp only
  rw [htr2, hq2]
  simp [List.append_assoc]

theorem claim_C5_amended_insert_flush_witness :
    ∃ (v1 : VNode) (s' : S) (buildEvs : List Ev) (q : List VNode),
      runM (patch ctxC7 5 vC5old vC5parent) sC5 = (Except.ok v1, s')
      ∧ (∀ u ∈ q, insertHooked u = true)
      ∧ (∀ ev ∈ buildEvs, ev.isInsertHook = false)
      ∧ s'.trace = sC5.trace
          ++ (List.range ctxC7.cbs.pre).map Ev.modulePre
          ++ buildEvs
          ++ q.map (fun u => Ev.hookInsert u.vid)
          ++ (List.range ctxC7.cbs.post).map Ev.modulePost :=
  claim_C5_amended_insert_flush ctxC7 5 vC5old vC5parent sC5 0
    (by decide) rfl
    (by
      intro p l hm
      have h := List.mem_singleton.mp hm
      rw [Prod.mk.injEq] at h
      obtain ⟨h1, h2⟩ := h
      subst h1
      subst h2
      refine ⟨by decide, ?_⟩
      intro c hc
      simp at hc)
    rfl ⟨_, _, rfl⟩

/-! ## C1: reordering a keyed permutation of children

`updateChildren` over a new child list that is a permutation of the
old keyed child list.  The children are flat element vnodes (no
`data`, no nested children, no text) with pairwise-distinct defined
keys; every new child matches one old child (equal `key` and `sel`)
through an index bijection `p`. -/

lemma getOpt_natCast (l : List (Option VNode)) (k : Nat) :
    getOpt l (k : Int) = (l[k]?).join := by
  simp only [getOpt]
  by_cases h : k < l.length
  · rw [dif_pos ⟨Int.natCast_nonneg k, by simpa using h⟩]
    simp [List.getElem?_eq_getElem, h]
  · rw [dif_neg (by simpa using h)]
    rw [List.getElem?_eq_none (by omega)]
    rfl

lemma getOpt_neg (l : List (Option VNode)) (i : Int) (hi : i < 0) :
    getOpt l i = none := by
  simp only [getOpt]
  rw [dif_neg (by omega)]

lemma setAt_natCast (l : List (Option VNode)) (k : Nat) (v : Option VNode) :
    setAt l (k : Int) v = l.set k v := by
  simp [setAt]

lemma set_get_self (w : VNode) :
    ∀ (l : List (Option VNode)) (k : Nat) (hk : k < l.length),
      l.get ⟨k, hk⟩ = some w → l.set k (some w) = l := by
  intro l
  induction l with
  | nil =>
    intro k hk
    simp at hk
  | cons a t ih =>
    intro k hk hg
    rcases k with _ | k
    · simp only [List.get] at hg
      simp [List.set, hg]
    · simp only [List.set]
      rw [ih k (by simpa using hk) (by simpa using hg)]

lemma setAt_same (l : List (Option VNode)) (i : Int) (w : VNode)
    (h : getOpt l i = some w) : setAt l i (some w) = l := by
  simp only [getOpt] at h
  by_cases hr : 0 ≤ i ∧ i.toNat < l.length
  · rw [dif_pos hr] at h
    simp only [setAt, if_pos hr.1]
    exact set_get_self w l i.toNat hr.2 h
  · rw [dif_neg hr] at h
    exact absurd h (by simp)

lemma map_getD_range (es : List Nat) :
    (List.range es.length).map (fun i => es.getD i 0) = es := by
  apply List.ext_getElem
  · simp
  · intro i h1 h2
    simp [List.getD_eq_getElem?_getD, List.getElem?_eq_getElem h2]

lemma writeBack_eq_set (l : List (Option VNode)) (k : Nat) (w v : VNode)
    (hslot : getOpt l (k : Int) = some w) (hvid : w.vid = v.vid) :
    writeBack l (k : Int) v = l.set k (some v) := by
  simp only [writeBack, hslot, hvid, if_pos rfl]
  exact setAt_natCast l k (some v)

lemma listInsertBefore_append_left (X Z : List Nat) (x r : Nat) (hr : r ∉ X) :
    listInsertBefore (X ++ Z) x r = X ++ listInsertBefore Z x r := by
  induction X with
  | nil => rfl
  | cons y Y ih =>
    have hy : y ≠ r := by
      intro h
      exact hr (h ▸ List.mem_cons_self y Y)
    simp only [List.cons_append, listInsertBefore, if_neg hy, List.append_eq]
    rw [ih (fun h => hr (List.mem_cons_of_mem _ h))]

lemma listInsertBefore_cons_self (T : List Nat) (x r : Nat) :
    listInsertBefore (r :: T) x r = x :: r :: T := by
  simp [listInsertBefore]

lemma listNextAfter_split (X Z : List Nat) (y : Nat) (hy : y ∉ X) :
    listNextAfter (X ++ y :: Z) y = Z.head? := by
  induction X with
  | nil =>
    rcases Z with _ | ⟨z, T⟩
    · rfl
    · simp [listNextAfter]
  | cons a X' ih =>
    have ha : a ≠ y := by
      intro h
      exact hy (h ▸ List.mem_cons_self a X')
    have hne : X' ++ y :: Z ≠ [] := by simp
    rcases hXZ : X' ++ y :: Z with _ | ⟨b, T⟩
    · exact absurd hXZ hne
    · simp only [List.cons_append, hXZ, listNextAfter, if_neg ha]
      rw [← hXZ]
      exact ih (fun h => hy (List.mem_cons_of_mem _ h))

/-! DOM-frame lemmas: the host tree is `A ++ [(pe, L)] ++ B` where no
entry of `A`/`B` is keyed `pe` and none of them contains the child
being moved. -/

lemma domUnlink_frame (A B : Dom) (pe : Nat) (L : List Nat) (x : Nat)
    (hA : ∀ q ∈ A, x ∉ q.2) (hB : ∀ q ∈ B, x ∉ q.2) :
    domUnlink (A ++ [(pe, L)] ++ B) x = A ++ [(pe, L.erase x)] ++ B := by
  have hAm : A.map (fun q => (q.1, q.2.erase x)) = A := by
    apply List.map_congr_left ?_ |>.trans (List.map_id A)
    intro q hq
    simp [List.erase_of_not_mem (hA q hq)]
  have hBm : B.map (fun q => (q.1, q.2.erase x)) = B := by
    apply List.map_congr_left ?_ |>.trans (List.map_id B)
    intro q hq
    simp [List.erase_of_not_mem (hB q hq)]
  simp only [domUnlink, List.map_append, hAm, hBm, List.map_cons, List.map_nil]

lemma domLookup_frame_self (A B : Dom) (pe : Nat) (L : List Nat)
    (hA : ∀ q ∈ A, q.1 ≠ pe) :
    domLookup (A ++ [(pe, L)] ++ B) pe = some L := by
  simp only [domLookup, List.append_assoc, List.find?_append]
  have h0 : A.find? (fun q => q.1 = pe) = none := by
    rw [List.find?_eq_none]
    intro q hq
    simp [hA q hq]
  rw [h0]
  simp [List.find?]

lemma domLookup_frame_other (A B : Dom) (pe : Nat) (L L' : List Nat) (q0 : Nat)
    (hq : q0 ≠ pe) :
    domLookup (A ++ [(pe, L)] ++ B) q0 = domLookup (A ++ [(pe, L')] ++ B) q0 := by
  have hne : pe ≠ q0 := Ne.symm hq
  simp only [domLookup, List.append_assoc, List.find?_append]
  have h1 : List.find? (fun q => q.1 = q0) [(pe, L)] = none := by
    simp [List.find?, hne]
  have h2 : List.find? (fun q => q.1 = q0) [(pe, L')] = none := by
    simp [List.find?, hne]
  rw [h1, h2]

lemma domSet_frame (A B : Dom) (pe : Nat) (L L' : List Nat)
    (hA : ∀ q ∈ A, q.1 ≠ pe) (hB : ∀ q ∈ B, q.1 ≠ pe) :
    domSet (A ++ [(pe, L)] ++ B) pe L' = A ++ [(pe, L')] ++ B := by
  have hAm : A.map (fun q => if q.1 = pe then (pe, L') else q) = A := by
    apply List.map_congr_left ?_ |>.trans (List.map_id A)
    intro q hq
    simp [hA q hq]
  have hBm : B.map (fun q => if q.1 = pe then (pe, L') else q) = B := by
    apply List.map_congr_left ?_ |>.trans (List.map_id B)
    intro q hq
    simp [hB q hq]
  simp only [domSet, List.map_append, hAm, hBm, List.map_cons, List.map_nil]
  simp

lemma runM_insertBefore_frame (pe : Nat) (A B : Dom) (L : List Nat) (x : Nat)
    (ref : Option Nat) (s : S)
    (hdom : s.dom = A ++ [(pe, L)] ++ B)
    (hA : ∀ q ∈ A, q.1 ≠ pe ∧ x ∉ q.2) (hB : ∀ q ∈ B, q.1 ≠ pe ∧ x ∉ q.2)
    (href : ∀ r, ref = some r → r ∈ L.erase x) :
    runM (apiInsertBefore pe x ref) s
      = (Except.ok (), { s with
          trace := s.trace ++ [.insertBefore pe x ref],
          dom := A ++ [(pe, match ref with
            | none => L.erase x ++ [x]
            | some r => listInsertBefore (L.erase x) x r)] ++ B }) := by
  simp only [apiInsertBefore]
  rw [runM_bind, runM_emit]
  dsimp only
  rw [runM_bind, runM_get]
  dsimp only
  rw [hdom, domUnlink_frame A B pe L x (fun q hq => (hA q hq).2) (fun q hq => (hB q hq).2)]
  rw [domLookup_frame_self A B pe _ (fun q hq => (hA q hq).1)]
  dsimp only
  rcases ref with _ | r
  · dsimp only
    rw [runM_set]
    rw [domSet_frame A B pe _ _ (fun q hq => (hA q hq).1) (fun q hq => (hB q hq).1)]
  · dsimp only
    rw [if_pos (href r rfl), runM_set]
    rw [domSet_frame A B pe _ _ (fun q hq => (hA q hq).1) (fun q hq => (hB q hq).1)]

lemma runM_nextSibling_frame (pe : Nat) (A B : Dom) (L : List Nat) (y : Nat) (s : S)
    (hdom : s.dom = A ++ [(pe, L)] ++ B)
    (hA : ∀ q ∈ A, q.1 ≠ pe ∧ y ∉ q.2) (hy : y ∈ L) :
    runM (apiNextSibling y) s = (Except.ok (listNextAfter L y), s) := by
  simp only [apiNextSibling]
  rw [runM_bind, runM_get]
  dsimp only
  have hpar : domParent s.dom y = some pe := by
    rw [hdom]
    simp only [domParent, List.append_assoc, List.find?_append]
    have h0 : A.find? (fun q => y ∈ q.2) = none := by
      rw [List.find?_eq_none]
      intro q hq
      simp [(hA q hq).2]
    rw [h0]
    simp [List.find?, hy]
  rw [domNextSibling, hpar, hdom]
  dsimp only
  rw [domLookup_frame_self A B pe L (fun q hq => (hA q hq).1)]
  rfl

/-- `patchVnode` over two flat vnodes (no data/children/text on the new
node, no children/text on the old, distinct objects) is pure: it
returns the old node and the new node bound to the old host node, and
does not touch the state. -/
lemma patchVnode_flat (ctx : Ctx) (k : Nat) (o nv : VNode)
    (ho : o.children = none) (hot : o.text = none)
    (hnd : nv.data = none) (hnc : nv.children = none) (hnt : nv.text = none)
    (hv : o.vid ≠ nv.vid) (s : S) :
    runM (patchVnode ctx (k + 1) o nv) s = (Except.ok (o, nv.withElm o.elm), s) := by
  have hhook : nv.hook = none := by simp [VNode.hook, hnd]
  simp [patchVnode, runM_bind, hhook, hnd, hnc, hnt, ho, hot, hv, postpatchHook,
    Option.ne_none_iff_isSome]

/-- `rvLoop` over a range of emptied (nulled) slots does nothing. -/
lemma rvLoop_noop (cbs : Cbs) (pe : Nat) (l : List (Option VNode)) :
    ∀ (k : Nat) (idx : Int) (s : S),
      (∀ i : Int, idx ≤ i → i < idx + k → getOpt l i = none) →
      runM (rvLoop cbs pe l k idx) s = (Except.ok (), s) := by
  intro k
  induction k with
  | zero =>
    intro idx s _
    simp [rvLoop]
  | succ k ih =>
    intro idx s hnone
    have h0 : getOpt l idx = none := hnone idx (le_refl _) (by omega)
    simp only [rvLoop]
    rw [runM_bind, h0]
    dsimp only
    rw [runM_pure]
    dsimp only
    exact ih (idx + 1) s (fun i h1 h2 => hnone i (by omega) (by push_cast at h2 ⊢; omega))

/-- Placeholder vnode for out-of-range `getD` reads (never produced by
an in-range access). -/
def vnDummy : VNode := .mk none none none none none none 0

/-- A reordering scenario: a parent host node `parentElm` whose DOM
entry sits between frames `A` and `B`, old flat children `olds` bound
to the distinct host nodes `es`, new children `news`, and the match
`p` sending each new position to the old position with the same key. -/
structure Sc where
  parentElm : Nat
  olds : List VNode
  news : List VNode
  es : List Nat
  p : Nat → Nat
  A : Dom
  B : Dom

def Sc.n (sc : Sc) : Nat := sc.olds.length

def Sc.m (sc : Sc) : Nat := sc.news.length

def Sc.oAt (sc : Sc) (i : Nat) : VNode := sc.olds.getD i vnDummy

def Sc.nAt (sc : Sc) (j : Nat) : VNode := sc.news.getD j vnDummy

def Sc.elm (sc : Sc) (i : Nat) : Nat := sc.es.getD i 0

/-- The new vnode at position `j` after reconciliation: bound to the
host node of its key-matching old vnode. -/
def Sc.bound (sc : Sc) (j : Nat) : VNode := (sc.nAt j).withElm (some (sc.elm (sc.p j)))

/-- Wellformedness of a reordering scenario: `p` is a key- and
selector-preserving bijection, the children are flat with distinct
defined keys and distinct bound host nodes, and the DOM frames neither
reuse the parent key nor contain any child host node. -/
structure ScWF (sc : Sc) : Prop where
  hm : sc.m = sc.n
  hes : sc.es.length = sc.n
  hnd : sc.es.Nodup
  hpr : ∀ j, j < sc.m → sc.p j < sc.n
  hpi : ∀ j1 j2, j1 < sc.m → j2 < sc.m → sc.p j1 = sc.p j2 → j1 = j2
  hkeq : ∀ j, j < sc.m → (sc.nAt j).key = (sc.oAt (sc.p j)).key
  hseq : ∀ j, j < sc.m → (sc.nAt j).sel = (sc.oAt (sc.p j)).sel
  hoflat : ∀ i, i < sc.n → (sc.oAt i).children = none ∧ (sc.oAt i).text = none ∧
    (sc.oAt i).data = none ∧ (sc.oAt i).elm = some (sc.elm i) ∧ (sc.oAt i).key.isSome
  hnflat : ∀ j, j < sc.m → (sc.nAt j).data = none ∧ (sc.nAt j).children = none ∧
    (sc.nAt j).text = none
  hvd : ∀ i j, i < sc.n → j < sc.m → (sc.oAt i).vid ≠ (sc.nAt j).vid
  hkd : ∀ i1 i2, i1 < sc.n → i2 < sc.n → i1 ≠ i2 →
    propOfOptKey (sc.oAt i1).key ≠ propOfOptKey (sc.oAt i2).key
  hfa : ∀ q ∈ sc.A, q.1 ≠ sc.parentElm ∧ ∀ x ∈ sc.es, x ∉ q.2
  hfb : ∀ q ∈ sc.B, q.1 ≠ sc.parentElm ∧ ∀ x ∈ sc.es, x ∉ q.2

/-- Old index `i` has already been matched by a processed new position
(one outside the live window `[an, bn)`). -/
def consumedB (sc : Sc) (an bn i : Nat) : Bool :=
  decide (∃ j, j < sc.m ∧ sc.p j = i ∧ (j < an ∨ bn ≤ j))

/-- Host nodes of the already-placed new prefix, in new order. -/
def frontL (sc : Sc) (an : Nat) : List Nat :=
  (List.range an).map (fun j => sc.elm (sc.p j))

/-- Host nodes of the already-placed new suffix, in new order. -/
def backL (sc : Sc) (bn : Nat) : List Nat :=
  (List.range' bn (sc.m - bn)).map (fun j => sc.elm (sc.p j))

/-- Old indices not yet consumed, in old order. -/
def midIdx (sc : Sc) (an bn : Nat) : List Nat :=
  (List.range sc.n).filter (fun i => !consumedB sc an bn i)

def midL (sc : Sc) (an bn : Nat) : List Nat := (midIdx sc an bn).map sc.elm

def childList (sc : Sc) (an bn : Nat) : List Nat :=
  frontL sc an ++ midL sc an bn ++ backL sc bn

def domOf (sc : Sc) (an bn : Nat) : Dom :=
  sc.A ++ [(sc.parentElm, childList sc an bn)] ++ sc.B

/-- The `updateChildren` loop invariant over the shrinking windows
`[an, bn)` (new) and `[cn, dn)` (old). -/
structure UCInv (sc : Sc) (an bn cn dn N0 : Nat) (Q0 : List VNode)
    (st : LoopSt) (s : S) : Prop where
  han : an ≤ bn
  hbn : bn ≤ sc.m
  hcd : cn ≤ dn
  hdn : dn ≤ sc.n
  hia : st.newStartIdx = (an : Int)
  hib : st.newEndIdx = (bn : Int) - 1
  hic : st.oldStartIdx = (cn : Int)
  hid : st.oldEndIdx = (dn : Int) - 1
  hlenN : st.newCh.length = sc.m
  hlenO : st.oldCh.length = sc.n
  hnew : ∀ j, j < sc.m → st.newCh[j]? =
    some (some (if an ≤ j ∧ j < bn then sc.nAt j else sc.bound j))
  holdC : ∀ i, i < sc.n → consumedB sc an bn i = true →
    cn ≤ i → i < dn → st.oldCh[i]? = some none
  holdU : ∀ i, i < sc.n → consumedB sc an bn i = false →
    cn ≤ i ∧ i < dn ∧ st.oldCh[i]? = some (some (sc.oAt i))
  hosv : st.oldStartVnode = getOpt st.oldCh st.oldStartIdx
  hoev : st.oldEndVnode = getOpt st.oldCh st.oldEndIdx
  hnsv : an < bn → st.newStartVnode = getOpt st.newCh st.newStartIdx
  hnev : an < bn → st.newEndVnode = getOpt st.newCh st.newEndIdx
  hkm : ∀ km, st.oldKeyToIdx = some km → ∀ j, j < sc.m → an ≤ j → j < bn →
    kmapLookup km (propOfOptKey ((sc.nAt j).key)) = some ((sc.p j : Int))
  hnid : s.nextId = N0
  hq : s.queue = Q0
  hdom : s.dom = domOf sc an bn

/-! Pointwise facts about `consumedB`. -/

lemma consumedB_eq_true (sc : Sc) (an bn i : Nat) :
    consumedB sc an bn i = true ↔ ∃ j, j < sc.m ∧ sc.p j = i ∧ (j < an ∨ bn ≤ j) := by
  simp [consumedB]

lemma consumedB_self_window (sc : Sc) (hwf : ScWF sc) (an bn j : Nat)
    (haj : an ≤ j) (hjb : j < bn) (hj : j < sc.m) :
    consumedB sc an bn (sc.p j) = false := by
  simp only [consumedB, decide_eq_false_iff_not]
  rintro ⟨j2, hj2, hpe, hor⟩
  have := hwf.hpi j2 j hj2 hj hpe
  omega

lemma consumedB_step_left (sc : Sc) (hwf : ScWF sc) (an bn i : Nat)
    (ha : an < sc.m) :
    consumedB sc (an + 1) bn i = (consumedB sc an bn i || decide (i = sc.p an)) := by
  rcases hc : (consumedB sc an bn i || decide (i = sc.p an)) with _ | _
  · simp only [Bool.or_eq_false_iff, decide_eq_false_iff_not] at hc
    simp only [consumedB, decide_eq_false_iff_not] at hc ⊢
    rintro ⟨j, hj, hpe, hor⟩
    rcases hor with h | h
    · rcases Nat.lt_succ_iff_lt_or_eq.mp h with h2 | h2
      · exact hc.1 ⟨j, hj, hpe, Or.inl h2⟩
      · exact hc.2 (by rw [← hpe, h2])
    · exact hc.1 ⟨j, hj, hpe, Or.inr h⟩
  · simp only [Bool.or_eq_true, decide_eq_true_eq] at hc
    simp only [consumedB, decide_eq_true_eq] at hc ⊢
    rcases hc with ⟨j, hj, hpe, hor⟩ | h
    · exact ⟨j, hj, hpe, by omega⟩
    · exact ⟨an, ha, h.symm, by omega⟩

lemma consumedB_step_right (sc : Sc) (hwf : ScWF sc) (an bn i : Nat)
    (hb1 : 1 ≤ bn) (hb : bn ≤ sc.m) :
    consumedB sc an (bn - 1) i = (consumedB sc an bn i || decide (i = sc.p (bn - 1))) := by
  rcases hc : (consumedB sc an bn i || decide (i = sc.p (bn - 1))) with _ | _
  · simp only [Bool.or_eq_false_iff, decide_eq_false_iff_not] at hc
    simp only [consumedB, decide_eq_false_iff_not] at hc ⊢
    rintro ⟨j, hj, hpe, hor⟩
    rcases hor with h | h
    · exact hc.1 ⟨j, hj, hpe, Or.inl h⟩
    · rcases Nat.lt_or_ge j bn with h2 | h2
      · have : j = bn - 1 := by omega
        exact hc.2 (by rw [← hpe, this])
      · exact hc.1 ⟨j, hj, hpe, Or.inr h2⟩
  · simp only [Bool.or_eq_true, decide_eq_true_eq] at hc
    simp only [consumedB, decide_eq_true_eq] at hc ⊢
    rcases hc with ⟨j, hj, hpe, hor⟩ | h
    · exact ⟨j, hj, hpe, by omega⟩
    · exact ⟨bn - 1, by omega, h.symm, by omega⟩

/-! Front / back list algebra. -/

lemma frontL_succ (sc : Sc) (an : Nat) :
    frontL sc (an + 1) = frontL sc an ++ [sc.elm (sc.p an)] := by
  simp [frontL, List.range_succ]

lemma range_glue : ∀ (b : Nat) (a c : Nat),
    List.range' a b ++ List.range' (a + b) c = List.range' a (b + c) := by
  intro b
  induction b with
  | zero =>
    intro a c
    simp [List.range']
  | succ b ih =>
    intro a c
    rw [List.range'_succ]
    have h2 : a + (b + 1) = (a + 1) + b := by omega
    have h3 : b + 1 + c = (b + c) + 1 := by omega
    rw [h2, h3, List.range'_succ, List.cons_append, ih (a + 1) c]

lemma backL_pred (sc : Sc) (bn : Nat) (h1 : 1 ≤ bn) (h2 : bn ≤ sc.m) :
    backL sc (bn - 1) = sc.elm (sc.p (bn - 1)) :: backL sc bn := by
  simp only [backL]
  have h3 : sc.m - (bn - 1) = (sc.m - bn) + 1 := by omega
  rw [h3, List.range'_succ]
  have h4 : bn - 1 + 1 = bn := by omega
  rw [h4]
  simp

lemma front_back_full (sc : Sc) (an : Nat) (h : an ≤ sc.m) :
    frontL sc an ++ backL sc an = (List.range sc.m).map (fun j => sc.elm (sc.p j)) := by
  simp only [frontL, backL, ← List.map_append]
  congr 1
  rw [List.range_eq_range', List.range_eq_range']
  have := range_glue an 0 (sc.m - an)
  simp only [Nat.zero_add] at this
  rw [this]
  congr 1
  omega

/-! Filtered-range algebra for the middle segment. -/

lemma filter_congr_list {l : List Nat} {f g : Nat → Bool}
    (h : ∀ x ∈ l, f x = g x) : l.filter f = l.filter g :=
  List.filter_congr h

lemma filter_erase_nodup (c : Nat) :
    ∀ (l : List Nat), l.Nodup → ∀ (U : Nat → Bool),
      (l.filter U).erase c = l.filter (fun i => U i && decide (i ≠ c)) := by
  intro l
  induction l with
  | nil =>
    intro _ U
    simp
  | cons b t ih =>
    intro hnd U
    have hbt : b ∉ t := (List.nodup_cons.mp hnd).1
    have htn : t.Nodup := (List.nodup_cons.mp hnd).2
    rcases hb : U b with _ | _
    · have hf1 : List.filter U (b :: t) = List.filter U t := by
        simp [List.filter_cons, hb]
      have hf2 : List.filter (fun i => U i && decide (i ≠ c)) (b :: t)
          = List.filter (fun i => U i && decide (i ≠ c)) t := by
        simp [List.filter_cons, hb]
      rw [hf1, hf2]
      exact ih htn U
    · have hf1 : List.filter U (b :: t) = b :: List.filter U t := by
        simp [List.filter_cons, hb]
      by_cases hbc : b = c
      · subst hbc
        have hf2 : List.filter (fun i => U i && decide (i ≠ b)) (b :: t)
            = List.filter (fun i => U i && decide (i ≠ b)) t := by
          simp [List.filter_cons]
        rw [hf1, hf2, List.erase_cons_head]
        apply filter_congr_list
        intro x hx
        have hxb : x ≠ b := fun h => hbt (h ▸ hx)
        simp [hxb]
      · have hf2 : List.filter (fun i => U i && decide (i ≠ c)) (b :: t)
            = b :: List.filter (fun i => U i && decide (i ≠ c)) t := by
          simp [List.filter_cons, hb, hbc]
        rw [hf1, hf2, List.erase_cons_tail (by simp [hbc])]
        rw [ih htn U]

lemma filter_range_split_min (U : Nat → Bool) :
    ∀ (n : Nat) (c : Nat), c < n → U c = true → (∀ i, i < c → U i = false) →
      (List.range n).filter U = c :: (List.range n).filter (fun i => U i && decide (i ≠ c)) := by
  intro n
  induction n with
  | zero =>
    intro c hc
    omega
  | succ n ih =>
    intro c hc hU hlow
    rw [List.range_succ, List.filter_append, List.filter_append]
    rcases Nat.lt_or_ge c n with h | h
    · rw [ih c h hU hlow]
      have hcn : ¬(n = c) := by omega
      simp only [List.filter_cons, List.filter_nil]
      rcases hn : U n with _ | _
      · simp
      · simp [hcn]
    · have hcn : c = n := by omega
      subst hcn
      have h1 : (List.range c).filter U = [] := by
        rw [List.filter_eq_nil_iff]
        intro x hx
        simp [hlow x (List.mem_range.mp hx)]
      have h2 : (List.range c).filter (fun i => U i && decide (i ≠ c)) = [] := by
        rw [List.filter_eq_nil_iff]
        intro x hx
        simp [hlow x (List.mem_range.mp hx)]
      rw [h1, h2]
      simp [hU]

lemma filter_range_split_max (U : Nat → Bool) :
    ∀ (n : Nat) (d : Nat), d < n → U d = true → (∀ i, d < i → i < n → U i = false) →
      (List.range n).filter U
        = ((List.range n).filter (fun i => U i && decide (i ≠ d))) ++ [d] := by
  intro n
  induction n with
  | zero =>
    intro d hd
    omega
  | succ n ih =>
    intro d hd hU hhigh
    rw [List.range_succ, List.filter_append, List.filter_append]
    rcases Nat.lt_or_ge d n with h | h
    · rw [ih d h hU (fun i h1 h2 => hhigh i h1 (by omega))]
      have hUn : U n = false := hhigh n h (by omega)
      simp only [List.filter_cons, List.filter_nil, hUn, Bool.false_and, cond_false]
      simp
    · have hdn : d = n := by omega
      subst hdn
      have h1 : (List.range d).filter U = (List.range d).filter (fun i => U i && decide (i ≠ d)) := by
        apply filter_congr_list
        intro x hx
        have : x ≠ d := by
          have := List.mem_range.mp hx
          omega
        simp [this]
      rw [h1]
      simp [hU]

lemma map_erase_injOn (f : Nat → Nat) :
    ∀ (l : List Nat) (a : Nat), a ∈ l → (∀ x ∈ l, f x = f a → x = a) →
      (l.map f).erase (f a) = (l.erase a).map f := by
  intro l
  induction l with
  | nil =>
    intro a ha
    simp at ha
  | cons b t ih =>
    intro a ha hinj
    by_cases hb : b = a
    · subst hb
      simp [List.erase_cons_head]
    · have hfb : f b ≠ f a := by
        intro h
        exact hb (hinj b (List.mem_cons_self b t) h)
      rw [List.map_cons, List.erase_cons_tail (by simp [hfb]),
        List.erase_cons_tail (by simp [hb]), List.map_cons]
      have hat : a ∈ t := by
        rcases List.mem_cons.mp ha with h | h
        · exact absurd h.symm hb
        · exact h
      rw [ih a hat (fun x hx => hinj x (List.mem_cons_of_mem _ hx))]

lemma getD_inj_of_nodup (es : List Nat) (hnd : es.Nodup) (x y : Nat)
    (hx : x < es.length) (hy : y < es.length) (h : es.getD x 0 = es.getD y 0) : x = y := by
  rw [List.getD_eq_getElem?_getD, List.getD_eq_getElem?_getD,
    List.getElem?_eq_getElem hx, List.getElem?_eq_getElem hy] at h
  simp only [Option.getD_some] at h
  have hinj := List.nodup_iff_injective_get.mp hnd
  have h2 : es.get ⟨x, hx⟩ = es.get ⟨y, hy⟩ := by
    simp only [List.get_eq_getElem]
    exact h
  have h3 := hinj h2
  simpa using congrArg Fin.val h3

lemma midIdx_mem_lt (sc : Sc) (an bn : Nat) (x : Nat) (hx : x ∈ midIdx sc an bn) :
    x < sc.n := by
  simp only [midIdx, List.mem_filter, List.mem_range] at hx
  exact hx.1

lemma midIdx_nodup (sc : Sc) (an bn : Nat) : (midIdx sc an bn).Nodup :=
  List.Nodup.filter _ (List.nodup_range sc.n)

/-! Branch selection: `sameVnode` over matched flat children decides
`p j = i`. -/

lemma elm_inj (sc : Sc) (hwf : ScWF sc) (x y : Nat) (hx : x < sc.n) (hy : y < sc.n)
    (h : sc.elm x = sc.elm y) : x = y :=
  getD_inj_of_nodup sc.es hwf.hnd x y (by rw [hwf.hes]; exact hx) (by rw [hwf.hes]; exact hy) h

lemma sameVnode_flat_true (sc : Sc) (hwf : ScWF sc) (i j : Nat) (hi : i < sc.n)
    (hj : j < sc.m) (h : sc.p j = i) : sameVnode (sc.oAt i) (sc.nAt j) = true := by
  have hkey := hwf.hkeq j hj
  have hsel := hwf.hseq j hj
  rw [h] at hkey hsel
  simp [sameVnode, VNode.dataIs, (hwf.hoflat i hi).2.2.1, (hwf.hnflat j hj).1,
    hkey, hsel]

lemma sameVnode_flat_false (sc : Sc) (hwf : ScWF sc) (i j : Nat) (hi : i < sc.n)
    (hj : j < sc.m) (h : sc.p j ≠ i) : sameVnode (sc.oAt i) (sc.nAt j) = false := by
  have hkne : (sc.oAt i).key ≠ (sc.nAt j).key := by
    intro heq
    have h2 : propOfOptKey (sc.oAt i).key = propOfOptKey (sc.oAt (sc.p j)).key := by
      rw [heq, hwf.hkeq j hj]
    exact hwf.hkd i (sc.p j) hi (hwf.hpr j hj) (fun he => h he.symm) h2
  simp only [sameVnode]
  simp
  intro _ hk
  exact absurd hk hkne

/-! Membership of host nodes across the three segments. -/

lemma elm_not_mem_map_of_not_mem (sc : Sc) (hwf : ScWF sc) (lIdx : List Nat)
    (hall : ∀ x ∈ lIdx, x < sc.n) (i : Nat) (hi : i < sc.n) (hnm : i ∉ lIdx) :
    sc.elm i ∉ lIdx.map sc.elm := by
  intro hmem
  obtain ⟨x, hx, heq⟩ := List.mem_map.mp hmem
  exact hnm ((elm_inj sc hwf x i (hall x hx) hi heq) ▸ hx)

lemma elm_pj_not_mem_front (sc : Sc) (hwf : ScWF sc) (an j : Nat) (hj : j < sc.m)
    (han : an ≤ sc.m) (hge : an ≤ j) : sc.elm (sc.p j) ∉ frontL sc an := by
  intro hmem
  obtain ⟨j2, hj2, heq⟩ := List.mem_map.mp hmem
  have hj2m : j2 < an := List.mem_range.mp hj2
  have := elm_inj sc hwf (sc.p j2) (sc.p j) (hwf.hpr j2 (by omega)) (hwf.hpr j hj) heq
  have := hwf.hpi j2 j (by omega) hj this
  omega

lemma elm_pj_not_mem_back (sc : Sc) (hwf : ScWF sc) (bn j : Nat) (hj : j < sc.m)
    (hlt : j < bn) : sc.elm (sc.p j) ∉ backL sc bn := by
  intro hmem
  obtain ⟨j2, hj2, heq⟩ := List.mem_map.mp hmem
  have hj2m := List.mem_range'_1.mp hj2
  have hj2m2 : j2 < sc.m := by omega
  have := elm_inj sc hwf (sc.p j2) (sc.p j) (hwf.hpr j2 hj2m2) (hwf.hpr j hj) heq
  have := hwf.hpi j2 j hj2m2 hj this
  omega

lemma elm_unconsumed_not_mem_front (sc : Sc) (hwf : ScWF sc) (an bn i : Nat)
    (hi : i < sc.n) (han : an ≤ sc.m) (hu : consumedB sc an bn i = false) :
    sc.elm i ∉ frontL sc an := by
  intro hmem
  obtain ⟨j2, hj2, heq⟩ := List.mem_map.mp hmem
  have hj2m : j2 < an := List.mem_range.mp hj2
  have hpe := elm_inj sc hwf (sc.p j2) i (hwf.hpr j2 (by omega)) hi heq
  simp only [consumedB, decide_eq_false_iff_not] at hu
  exact hu ⟨j2, by omega, hpe, Or.inl hj2m⟩

lemma elm_unconsumed_not_mem_back (sc : Sc) (hwf : ScWF sc) (an bn i : Nat)
    (hi : i < sc.n) (hu : consumedB sc an bn i = false) :
    sc.elm i ∉ backL sc bn := by
  intro hmem
  obtain ⟨j2, hj2, heq⟩ := List.mem_map.mp hmem
  have hj2m := List.mem_range'_1.mp hj2
  have hj2m2 : j2 < sc.m := by omega
  have hpe := elm_inj sc hwf (sc.p j2) i (hwf.hpr j2 hj2m2) hi heq
  simp only [consumedB, decide_eq_false_iff_not] at hu
  exact hu ⟨j2, hj2m2, hpe, Or.inr (by omega)⟩

lemma mem_midL_of_unconsumed (sc : Sc) (an bn i : Nat) (hi : i < sc.n)
    (hu : consumedB sc an bn i = false) : sc.elm i ∈ midL sc an bn := by
  apply List.mem_map_of_mem
  simp only [midIdx, List.mem_filter, List.mem_range]
  exact ⟨hi, by simp [hu]⟩

/-! Window facts at loop exit. -/

lemma exit_new_done (sc : Sc) (hwf : ScWF sc) (an bn cn dn N0 : Nat) (Q0 : List VNode)
    (st : LoopSt) (s : S) (hinv : UCInv sc an bn cn dn N0 Q0 st s)
    (hnc : ¬(cn < dn ∧ an < bn)) : an = bn := by
  rcases Nat.lt_or_ge an bn with h | h
  · exfalso
    have h1 : an < sc.m := by
      have := hinv.hbn
      omega
    have h2 := consumedB_self_window sc hwf an bn an (le_refl _) h h1
    have h3 := hinv.holdU (sc.p an) (hwf.hpr an h1) h2
    exact hnc ⟨by omega, h⟩
  · have := hinv.han
    omega

/-- `p` is injective from `[0, m)` into `[0, n)` with `m = n`, hence
surjective: every old index has been matched. -/
lemma p_surj (sc : Sc) (hwf : ScWF sc) (i : Nat) (hi : i < sc.n) :
    ∃ j, j < sc.m ∧ sc.p j = i := by
  obtain ⟨j, hjm, hji⟩ := Finset.surj_on_of_inj_on_of_card_le
    (fun j (_ : j ∈ Finset.range sc.m) => sc.p j)
    (fun a ha => Finset.mem_range.mpr (hwf.hpr a (Finset.mem_range.mp ha)))
    (fun a1 a2 ha1 ha2 he =>
      hwf.hpi a1 a2 (Finset.mem_range.mp ha1) (Finset.mem_range.mp ha2) he)
    (by simp [hwf.hm])
    i (Finset.mem_range.mpr hi)
  exact ⟨j, Finset.mem_range.mp hjm, hji.symm⟩

lemma all_consumed_at_exit (sc : Sc) (hwf : ScWF sc) (an : Nat) (i : Nat)
    (hi : i < sc.n) : consumedB sc an an i = true := by
  simp only [consumedB, decide_eq_true_eq]
  obtain ⟨j, hjm, hji⟩ := p_surj sc hwf i hi
  exact ⟨j, hjm, hji, by omega⟩

/-! Invariant steps for the eight loop branches. -/

lemma inv_skip_left (sc : Sc) (an bn cn dn N0 : Nat) (Q0 : List VNode)
    (st : LoopSt) (s : S) (hinv : UCInv sc an bn cn dn N0 Q0 st s)
    (hc : cn < dn) (hcons : consumedB sc an bn cn = true) :
    UCInv sc an bn (cn + 1) dn N0 Q0
      { st with oldStartIdx := st.oldStartIdx + 1,
                oldStartVnode := getOpt st.oldCh (st.oldStartIdx + 1) } s := by
  refine ⟨hinv.han, hinv.hbn, by omega, hinv.hdn, hinv.hia, hinv.hib, ?_, hinv.hid,
    hinv.hlenN, hinv.hlenO, hinv.hnew, ?_, ?_, ?_, hinv.hoev, hinv.hnsv, hinv.hnev,
    hinv.hkm, hinv.hnid, hinv.hq, hinv.hdom⟩
  · show st.oldStartIdx + 1 = ((cn + 1 : Nat) : Int)
    rw [hinv.hic]
    push_cast
    ring
  · intro i hi hci h1 h2
    exact hinv.holdC i hi hci (by omega) h2
  · intro i hi hui
    obtain ⟨h1, h2, h3⟩ := hinv.holdU i hi hui
    have hne : i ≠ cn := by
      intro he
      rw [he, hcons] at hui
      exact absurd hui (by simp)
    exact ⟨by omega, h2, h3⟩
  · rfl

lemma inv_skip_right (sc : Sc) (an bn cn dn N0 : Nat) (Q0 : List VNode)
    (st : LoopSt) (s : S) (hinv : UCInv sc an bn cn dn N0 Q0 st s)
    (hc : cn < dn) (hcons : consumedB sc an bn (dn - 1) = true) :
    UCInv sc an bn cn (dn - 1) N0 Q0
      { st with oldEndIdx := st.oldEndIdx - 1,
                oldEndVnode := getOpt st.oldCh (st.oldEndIdx - 1) } s := by
  refine ⟨hinv.han, hinv.hbn, by omega, by have := hinv.hdn; omega, hinv.hia, hinv.hib,
    hinv.hic, ?_, hinv.hlenN, hinv.hlenO, hinv.hnew, ?_, ?_, hinv.hosv, ?_, hinv.hnsv,
    hinv.hnev, hinv.hkm, hinv.hnid, hinv.hq, hinv.hdom⟩
  · show st.oldEndIdx - 1 = ((dn - 1 : Nat) : Int) - 1
    rw [hinv.hid]
    have : ((dn - 1 : Nat) : Int) = (dn : Int) - 1 := by omega
    rw [this]
  · intro i hi hci h1 h2
    exact hinv.holdC i hi hci h1 (by omega)
  · intro i hi hui
    obtain ⟨h1, h2, h3⟩ := hinv.holdU i hi hui
    have hne : i ≠ dn - 1 := by
      intro he
      rw [he, hcons] at hui
      exact absurd hui (by simp)
    exact ⟨h1, by omega, h3⟩
  · rfl

lemma midIdx_step_left (sc : Sc) (hwf : ScWF sc) (an bn : Nat) (ha : an < sc.m) :
    midIdx sc (an + 1) bn
      = (List.range sc.n).filter
          (fun i => (!consumedB sc an bn i) && decide (i ≠ sc.p an)) := by
  apply filter_congr_list
  intro x _
  rw [consumedB_step_left sc hwf an bn x ha]
  simp [Bool.not_or, decide_not]

lemma midIdx_step_right (sc : Sc) (hwf : ScWF sc) (an bn : Nat)
    (hb1 : 1 ≤ bn) (hb : bn ≤ sc.m) :
    midIdx sc an (bn - 1)
      = (List.range sc.n).filter
          (fun i => (!consumedB sc an bn i) && decide (i ≠ sc.p (bn - 1))) := by
  apply filter_congr_list
  intro x _
  rw [consumedB_step_right sc hwf an bn x hb1 hb]
  simp [Bool.not_or, decide_not]

lemma midIdx_split_head (sc : Sc) (an bn cn : Nat) (hcn : cn < sc.n)
    (hu : consumedB sc an bn cn = false)
    (hlow : ∀ i, i < cn → consumedB sc an bn i = true) :
    midIdx sc an bn
      = cn :: (List.range sc.n).filter
          (fun i => (!consumedB sc an bn i) && decide (i ≠ cn)) :=
  filter_range_split_min (fun i => !consumedB sc an bn i) sc.n cn hcn
    (by simp [hu]) (fun i hi => by simp [hlow i hi])

lemma midIdx_split_last (sc : Sc) (an bn dn : Nat) (hdn : dn < sc.n)
    (hu : consumedB sc an bn dn = false)
    (hhigh : ∀ i, dn < i → i < sc.n → consumedB sc an bn i = true) :
    midIdx sc an bn
      = ((List.range sc.n).filter
          (fun i => (!consumedB sc an bn i) && decide (i ≠ dn))) ++ [dn] :=
  filter_range_split_max (fun i => !consumedB sc an bn i) sc.n dn hdn
    (by simp [hu]) (fun i h1 h2 => by simp [hhigh i h1 h2])

lemma childList_match_start (sc : Sc) (hwf : ScWF sc) (an bn cn : Nat)
    (ha : an < bn) (hb : bn ≤ sc.m) (hcn : cn < sc.n)
    (hu : consumedB sc an bn cn = false)
    (hlow : ∀ i, i < cn → consumedB sc an bn i = true)
    (hpa : sc.p an = cn) :
    childList sc (an + 1) bn = childList sc an bn := by
  simp only [childList, midL]
  rw [frontL_succ, hpa, midIdx_step_left sc hwf an bn (by omega), hpa,
    midIdx_split_head sc an bn cn hcn hu hlow]
  simp [List.append_assoc]

lemma childList_match_end (sc : Sc) (hwf : ScWF sc) (an bn dn : Nat)
    (ha : an < bn) (hb : bn ≤ sc.m) (hdn : dn < sc.n)
    (hu : consumedB sc an bn dn = false)
    (hhigh : ∀ i, dn < i → i < sc.n → consumedB sc an bn i = true)
    (hpb : sc.p (bn - 1) = dn) :
    childList sc an (bn - 1) = childList sc an bn := by
  simp only [childList, midL]
  rw [backL_pred sc bn (by omega) hb, hpb,
    midIdx_step_right sc hwf an bn (by omega) hb, hpb,
    midIdx_split_last sc an bn dn hdn hu hhigh]
  simp [List.append_assoc]

lemma inv_match_start (sc : Sc) (hwf : ScWF sc) (an bn cn dn N0 : Nat) (Q0 : List VNode)
    (st : LoopSt) (s : S) (hinv : UCInv sc an bn cn dn N0 Q0 st s)
    (ha : an < bn) (hc : cn < dn)
    (hu : consumedB sc an bn cn = false) (hpa : sc.p an = cn) :
    UCInv sc (an + 1) bn (cn + 1) dn N0 Q0
      { st with
          oldCh := st.oldCh,
          newCh := st.newCh.set an (some (sc.bound an)),
          oldStartIdx := st.oldStartIdx + 1,
          oldStartVnode := getOpt st.oldCh (st.oldStartIdx + 1),
          newStartIdx := st.newStartIdx + 1,
          newStartVnode := getOpt (st.newCh.set an (some (sc.bound an)))
            (st.newStartIdx + 1) } s := by
  have ham : an < sc.m := by
    have := hinv.hbn
    omega
  refine ⟨by omega, hinv.hbn, by omega, hinv.hdn, ?_, hinv.hib, ?_, hinv.hid,
    ?_, hinv.hlenO, ?_, ?_, ?_, ?_, hinv.hoev, ?_, ?_, ?_, hinv.hnid, hinv.hq, ?_⟩
  · show st.newStartIdx + 1 = ((an + 1 : Nat) : Int)
    rw [hinv.hia]
    push_cast
    ring
  · show st.oldStartIdx + 1 = ((cn + 1 : Nat) : Int)
    rw [hinv.hic]
    push_cast
    ring
  · show (st.newCh.set an (some (sc.bound an))).length = sc.m
    simp [hinv.hlenN]
  · -- hnew
    intro j hj
    by_cases hja : j = an
    · rw [hja, List.getElem?_set_self (by rw [hinv.hlenN]; exact ham)]
      have hcond : ¬(an + 1 ≤ an ∧ an < bn) := by omega
      rw [if_neg hcond]
    · rw [List.getElem?_set_ne (fun he => hja he.symm), hinv.hnew j hj]
      by_cases h2 : an + 1 ≤ j ∧ j < bn
      · rw [if_pos h2, if_pos ⟨by omega, h2.2⟩]
      · rw [if_neg h2, if_neg (by omega)]
  · -- holdC
    intro i hi hci h1 h2
    rw [consumedB_step_left sc hwf an bn i ham, hpa] at hci
    rcases Bool.or_eq_true_iff.mp hci with h | h
    · exact hinv.holdC i hi h (by omega) h2
    · have : i = cn := of_decide_eq_true h
      omega
  · -- holdU
    intro i hi hui
    rw [consumedB_step_left sc hwf an bn i ham, hpa] at hui
    have h1 := Bool.or_eq_false_iff.mp hui
    have hne : i ≠ cn := of_decide_eq_false h1.2
    obtain ⟨g1, g2, g3⟩ := hinv.holdU i hi h1.1
    exact ⟨by omega, g2, g3⟩
  · rfl
  · -- hnsv
    intro _
    rfl
  · -- hnev
    intro hlt
    show st.newEndVnode = getOpt (st.newCh.set an (some (sc.bound an))) st.newEndIdx
    rw [hinv.hnev (by omega), hinv.hib]
    have hbn1 : ((bn : Int) - 1) = ((bn - 1 : Nat) : Int) := by
      have := hinv.han
      omega
    rw [hbn1, getOpt_natCast, getOpt_natCast,
      List.getElem?_set_ne (by omega : an ≠ bn - 1)]
  · -- hkm
    intro km hkm2 j hj hj1 hj2
    exact hinv.hkm km hkm2 j hj (by omega) hj2
  · -- hdom
    show s.dom = domOf sc (an + 1) bn
    rw [hinv.hdom]
    simp only [domOf]
    rw [childList_match_start sc hwf an bn cn ha hinv.hbn (by have := hinv.hdn; omega)
      hu ?_ hpa]
    intro i hi
    rcases hci : consumedB sc an bn i with _ | _
    · obtain ⟨g1, _, _⟩ := hinv.holdU i (by have := hinv.hdn; omega) hci
      omega
    · rfl

lemma inv_match_end (sc : Sc) (hwf : ScWF sc) (an bn cn dn N0 : Nat) (Q0 : List VNode)
    (st : LoopSt) (s : S) (hinv : UCInv sc an bn cn dn N0 Q0 st s)
    (ha : an < bn) (hc : cn < dn)
    (hu : consumedB sc an bn (dn - 1) = false) (hpb : sc.p (bn - 1) = dn - 1) :
    UCInv sc an (bn - 1) cn (dn - 1) N0 Q0
      { st with
          oldCh := st.oldCh,
          newCh := st.newCh.set (bn - 1) (some (sc.bound (bn - 1))),
          oldEndIdx := st.oldEndIdx - 1,
          oldEndVnode := getOpt st.oldCh (st.oldEndIdx - 1),
          newEndIdx := st.newEndIdx - 1,
          newEndVnode := getOpt (st.newCh.set (bn - 1) (some (sc.bound (bn - 1))))
            (st.newEndIdx - 1) } s := by
  have hbm : bn - 1 < sc.m := by
    have := hinv.hbn
    omega
  refine ⟨by omega, by have := hinv.hbn; omega, by omega, by have := hinv.hdn; omega,
    hinv.hia, ?_, hinv.hic, ?_, ?_, hinv.hlenO, ?_, ?_, ?_, hinv.hosv, ?_, ?_, ?_, ?_,
    hinv.hnid, hinv.hq, ?_⟩
  · show st.newEndIdx - 1 = ((bn - 1 : Nat) : Int) - 1
    rw [hinv.hib]
    have : ((bn - 1 : Nat) : Int) = (bn : Int) - 1 := by omega
    rw [this]
  · show st.oldEndIdx - 1 = ((dn - 1 : Nat) : Int) - 1
    rw [hinv.hid]
    have : ((dn - 1 : Nat) : Int) = (dn : Int) - 1 := by omega
    rw [this]
  · show (st.newCh.set (bn - 1) (some (sc.bound (bn - 1)))).length = sc.m
    simp [hinv.hlenN]
  · -- hnew
    intro j hj
    by_cases hjb : j = bn - 1
    · rw [hjb, List.getElem?_set_self (by rw [hinv.hlenN]; exact hbm)]
      have hcond : ¬(an ≤ bn - 1 ∧ bn - 1 < bn - 1) := by omega
      rw [if_neg hcond]
    · rw [List.getElem?_set_ne (fun he => hjb he.symm), hinv.hnew j hj]
      by_cases h2 : an ≤ j ∧ j < bn - 1
      · rw [if_pos h2, if_pos ⟨h2.1, by omega⟩]
      · rw [if_neg h2, if_neg (by omega)]
  · -- holdC
    intro i hi hci h1 h2
    rw [consumedB_step_right sc hwf an bn i (by omega) hinv.hbn, hpb] at hci
    rcases Bool.or_eq_true_iff.mp hci with h | h
    · exact hinv.holdC i hi h h1 (by omega)
    · have : i = dn - 1 := of_decide_eq_true h
      omega
  · -- holdU
    intro i hi hui
    rw [consumedB_step_right sc hwf an bn i (by omega) hinv.hbn, hpb] at hui
    have h1 := Bool.or_eq_false_iff.mp hui
    have hne : i ≠ dn - 1 := of_decide_eq_false h1.2
    obtain ⟨g1, g2, g3⟩ := hinv.holdU i hi h1.1
    exact ⟨g1, by omega, g3⟩
  · rfl
  · -- hnsv
    intro hlt
    show st.newStartVnode
      = getOpt (st.newCh.set (bn - 1) (some (sc.bound (bn - 1)))) st.newStartIdx
    rw [hinv.hnsv (by omega), hinv.hia, getOpt_natCast, getOpt_natCast,
      List.getElem?_set_ne (by omega : bn - 1 ≠ an)]
  · -- hnev
    intro _
    rfl
  · -- hkm
    intro km hkm2 j hj hj1 hj2
    exact hinv.hkm km hkm2 j hj hj1 (by omega)
  · -- hdom
    show s.dom = domOf sc an (bn - 1)
    rw [hinv.hdom]
    simp only [domOf]
    rw [childList_match_end sc hwf an bn (dn - 1) ha hinv.hbn
      (by have := hinv.hdn; omega) hu ?_ hpb]
    intro i h1 h2
    rcases hci : consumedB sc an bn i with _ | _
    · obtain ⟨_, g2, _⟩ := hinv.holdU i h2 hci
      omega
    · rfl

/-! Host-list surgery for the moving branches. -/

lemma nextAfter_at_max (sc : Sc) (hwf : ScWF sc) (an bn dn : Nat)
    (hd : dn - 1 < sc.n) (hbn : bn ≤ sc.m) (han : an ≤ sc.m)
    (hu : consumedB sc an bn (dn - 1) = false)
    (hhigh : ∀ i, dn - 1 < i → i < sc.n → consumedB sc an bn i = true) :
    listNextAfter (childList sc an bn) (sc.elm (dn - 1)) = (backL sc bn).head? := by
  have hsplit := midIdx_split_last sc an bn (dn - 1) hd hu hhigh
  have hre : childList sc an bn
      = (frontL sc an
          ++ ((List.range sc.n).filter
            (fun i => (!consumedB sc an bn i) && decide (i ≠ dn - 1))).map sc.elm)
        ++ sc.elm (dn - 1) :: backL sc bn := by
    simp only [childList, midL]
    rw [hsplit]
    simp [List.append_assoc]
  rw [hre]
  apply listNextAfter_split
  intro hmem
  rcases List.mem_append.mp hmem with h | h
  · exact elm_unconsumed_not_mem_front sc hwf an bn (dn - 1) hd han hu h
  · refine elm_not_mem_map_of_not_mem sc hwf _ ?_ (dn - 1) hd ?_ h
    · intro x hx
      exact List.mem_range.mp (List.mem_filter.mp hx).1
    · intro hmem2
      have := List.mem_filter.mp hmem2
      simp at this

lemma childList_erase_unconsumed (sc : Sc) (hwf : ScWF sc) (an bn x : Nat)
    (hx : x < sc.n) (han : an ≤ sc.m)
    (hux : consumedB sc an bn x = false) :
    (childList sc an bn).erase (sc.elm x)
      = frontL sc an
        ++ (((List.range sc.n).filter
            (fun i => (!consumedB sc an bn i) && decide (i ≠ x))).map sc.elm
          ++ backL sc bn) := by
  simp only [childList]
  rw [List.append_assoc]
  rw [List.erase_append_right _
    (elm_unconsumed_not_mem_front sc hwf an bn x hx han hux)]
  rw [List.erase_append_left _ (mem_midL_of_unconsumed sc an bn x hx hux)]
  have hmap : (midL sc an bn).erase (sc.elm x)
      = ((midIdx sc an bn).erase x).map sc.elm := by
    apply map_erase_injOn
    · simp only [midIdx, List.mem_filter, List.mem_range]
      exact ⟨hx, by simp [hux]⟩
    · intro y hy heq
      exact elm_inj sc hwf y x (midIdx_mem_lt sc an bn y hy) hx heq
  rw [hmap]
  simp only [midIdx]
  rw [filter_erase_nodup x (List.range sc.n) (List.nodup_range sc.n)]

lemma childList_move_right_none (sc : Sc) (hwf : ScWF sc) (an bn cn : Nat)
    (ha : an < bn) (hbn : bn ≤ sc.m) (hcn : cn < sc.n)
    (hucn : consumedB sc an bn cn = false)
    (hpb : sc.p (bn - 1) = cn) (hbk : backL sc bn = []) :
    (childList sc an bn).erase (sc.elm cn) ++ [sc.elm cn] = childList sc an (bn - 1) := by
  have herase := childList_erase_unconsumed sc hwf an bn cn hcn (by omega) hucn
  have hmidstep : (List.range sc.n).filter
      (fun i => (!consumedB sc an bn i) && decide (i ≠ cn)) = midIdx sc an (bn - 1) := by
    rw [midIdx_step_right sc hwf an bn (by omega) hbn, hpb]
  have hback : backL sc (bn - 1) = sc.elm cn :: backL sc bn := by
    rw [backL_pred sc bn (by omega) hbn, hpb]
  rw [hbk] at herase hback
  rw [herase, hmidstep]
  simp only [childList, midL]
  rw [hback]
  simp [List.append_assoc]

lemma childList_move_right_some (sc : Sc) (hwf : ScWF sc) (an bn cn : Nat)
    (ha : an < bn) (hbn : bn ≤ sc.m) (hcn : cn < sc.n)
    (hucn : consumedB sc an bn cn = false)
    (hpb : sc.p (bn - 1) = cn) (r : Nat) (tl : List Nat)
    (hbk : backL sc bn = r :: tl) :
    listInsertBefore ((childList sc an bn).erase (sc.elm cn)) (sc.elm cn) r
      = childList sc an (bn - 1) := by
  have herase := childList_erase_unconsumed sc hwf an bn cn hcn (by omega) hucn
  have hmidstep : (List.range sc.n).filter
      (fun i => (!consumedB sc an bn i) && decide (i ≠ cn)) = midIdx sc an (bn - 1) := by
    rw [midIdx_step_right sc hwf an bn (by omega) hbn, hpb]
  have hback : backL sc (bn - 1) = sc.elm cn :: backL sc bn := by
    rw [backL_pred sc bn (by omega) hbn, hpb]
  rw [hbk] at herase hback
  rw [herase]
  have hrid : ∃ j, bn ≤ j ∧ j < sc.m ∧ r = sc.elm (sc.p j) := by
    have hmem : r ∈ backL sc bn := by
      rw [hbk]
      exact List.mem_cons_self r tl
    obtain ⟨j, hj, he⟩ := List.mem_map.mp hmem
    have hj2 := List.mem_range'_1.mp hj
    exact ⟨j, by omega, by omega, he.symm⟩
  obtain ⟨j, hj1, hj2, hre⟩ := hrid
  have hrfront : r ∉ frontL sc an := by
    rw [hre]
    exact elm_pj_not_mem_front sc hwf an j hj2 (by omega) (by omega)
  have hrmid : r ∉ ((List.range sc.n).filter
      (fun i => (!consumedB sc an bn i) && decide (i ≠ cn))).map sc.elm := by
    rw [hre]
    refine elm_not_mem_map_of_not_mem sc hwf _ ?_ (sc.p j) (hwf.hpr j hj2) ?_
    · intro y hy
      exact List.mem_range.mp (List.mem_filter.mp hy).1
    · intro hmem2
      have h3 := (List.mem_filter.mp hmem2).2
      have h4 : consumedB sc an bn (sc.p j) = true := by
        simp only [consumedB, decide_eq_true_eq]
        exact ⟨j, hj2, rfl, Or.inr hj1⟩
      rw [h4] at h3
      simp at h3
  rw [listInsertBefore_append_left _ _ _ _ hrfront]
  rw [listInsertBefore_append_left _ _ _ _ hrmid]
  rw [listInsertBefore_cons_self]
  simp only [childList, midL]
  rw [hback, hmidstep]
  simp [List.append_assoc]

lemma childList_move_to_front (sc : Sc) (hwf : ScWF sc) (an bn cn : Nat)
    (ha : an < bn) (hbn : bn ≤ sc.m) (hcn : cn < sc.n)
    (hucn : consumedB sc an bn cn = false)
    (hlow : ∀ i, i < cn → consumedB sc an bn i = true)
    (hpn : sc.p an < sc.n)
    (hup : consumedB sc an bn (sc.p an) = false)
    (hne : sc.p an ≠ cn) :
    listInsertBefore ((childList sc an bn).erase (sc.elm (sc.p an)))
      (sc.elm (sc.p an)) (sc.elm cn) = childList sc (an + 1) bn := by
  have herase := childList_erase_unconsumed sc hwf an bn (sc.p an) hpn (by omega) hup
  have hmidstep : (List.range sc.n).filter
      (fun i => (!consumedB sc an bn i) && decide (i ≠ sc.p an)) = midIdx sc (an + 1) bn :=
    (midIdx_step_left sc hwf an bn (by omega)).symm
  have hsplit : midIdx sc (an + 1) bn
      = cn :: (List.range sc.n).filter
          (fun i => (!consumedB sc (an + 1) bn i) && decide (i ≠ cn)) := by
    refine midIdx_split_head sc (an + 1) bn cn hcn ?_ ?_
    · rw [consumedB_step_left sc hwf an bn cn (by omega)]
      simp [hucn, Ne.symm hne]
    · intro i hi
      rw [consumedB_step_left sc hwf an bn i (by omega)]
      simp [hlow i hi]
  rw [herase, hmidstep, hsplit]
  rw [listInsertBefore_append_left _ _ _ _
    (elm_unconsumed_not_mem_front sc hwf an bn cn hcn (by omega) hucn)]
  rw [List.map_cons, List.cons_append, listInsertBefore_cons_self]
  simp only [childList, midL]
  rw [frontL_succ, hsplit]
  simp [List.append_assoc]

lemma inv_move_right (sc : Sc) (hwf : ScWF sc) (an bn cn dn N0 : Nat) (Q0 : List VNode)
    (st : LoopSt) (s : S) (hinv : UCInv sc an bn cn dn N0 Q0 st s)
    (ha : an < bn) (hc : cn < dn)
    (hucn : consumedB sc an bn cn = false) (hpb : sc.p (bn - 1) = cn)
    (s1 : S) (hs1n : s1.nextId = N0) (hs1q : s1.queue = Q0)
    (hs1d : s1.dom = domOf sc an (bn - 1)) :
    UCInv sc an (bn - 1) (cn + 1) dn N0 Q0
      { st with
          oldCh := st.oldCh,
          newCh := st.newCh.set (bn - 1) (some (sc.bound (bn - 1))),
          oldStartIdx := st.oldStartIdx + 1,
          oldStartVnode := getOpt st.oldCh (st.oldStartIdx + 1),
          newEndIdx := st.newEndIdx - 1,
          newEndVnode := getOpt (st.newCh.set (bn - 1) (some (sc.bound (bn - 1))))
            (st.newEndIdx - 1) } s1 := by
  have hbm : bn - 1 < sc.m := by
    have := hinv.hbn
    omega
  refine ⟨by omega, by omega, by omega, hinv.hdn, hinv.hia, ?_, ?_, hinv.hid,
    ?_, hinv.hlenO, ?_, ?_, ?_, ?_, hinv.hoev, ?_, ?_, ?_, hs1n, hs1q, hs1d⟩
  · show st.newEndIdx - 1 = ((bn - 1 : Nat) : Int) - 1
    rw [hinv.hib]
    have : ((bn - 1 : Nat) : Int) = (bn : Int) - 1 := by omega
    rw [this]
  · show st.oldStartIdx + 1 = ((cn + 1 : Nat) : Int)
    rw [hinv.hic]
    push_cast
    ring
  · show (st.newCh.set (bn - 1) (some (sc.bound (bn - 1)))).length = sc.m
    simp [hinv.hlenN]
  · intro j hj
    by_cases hjb : j = bn - 1
    · rw [hjb, List.getElem?_set_self (by rw [hinv.hlenN]; exact hbm)]
      have hcond : ¬(an ≤ bn - 1 ∧ bn - 1 < bn - 1) := by omega
      rw [if_neg hcond]
    · rw [List.getElem?_set_ne (fun he => hjb he.symm), hinv.hnew j hj]
      by_cases h2 : an ≤ j ∧ j < bn - 1
      · rw [if_pos h2, if_pos ⟨h2.1, by omega⟩]
      · rw [if_neg h2, if_neg (by omega)]
  · intro i hi hci h1 h2
    rw [consumedB_step_right sc hwf an bn i (by omega) hinv.hbn, hpb] at hci
    rcases Bool.or_eq_true_iff.mp hci with h | h
    · exact hinv.holdC i hi h (by omega) h2
    · have : i = cn := of_decide_eq_true h
      omega
  · intro i hi hui
    rw [consumedB_step_right sc hwf an bn i (by omega) hinv.hbn, hpb] at hui
    have h1 := Bool.or_eq_false_iff.mp hui
    have hne : i ≠ cn := of_decide_eq_false h1.2
    obtain ⟨g1, g2, g3⟩ := hinv.holdU i hi h1.1
    exact ⟨by omega, g2, g3⟩
  · rfl
  · intro hlt
    show st.newStartVnode
      = getOpt (st.newCh.set (bn - 1) (some (sc.bound (bn - 1)))) st.newStartIdx
    rw [hinv.hnsv (by omega), hinv.hia, getOpt_natCast, getOpt_natCast,
      List.getElem?_set_ne (by omega : bn - 1 ≠ an)]
  · intro _
    rfl
  · intro km hkm2 j hj hj1 hj2
    exact hinv.hkm km hkm2 j hj hj1 (by omega)

lemma inv_move_left (sc : Sc) (hwf : ScWF sc) (an bn cn dn N0 : Nat) (Q0 : List VNode)
    (st : LoopSt) (s : S) (hinv : UCInv sc an bn cn dn N0 Q0 st s)
    (ha : an < bn) (hc : cn < dn) (hpa : sc.p an = dn - 1)
    (s1 : S) (hs1n : s1.nextId = N0) (hs1q : s1.queue = Q0)
    (hs1d : s1.dom = domOf sc (an + 1) bn) :
    UCInv sc (an + 1) bn cn (dn - 1) N0 Q0
      { st with
          oldCh := st.oldCh,
          newCh := st.newCh.set an (some (sc.bound an)),
          oldEndIdx := st.oldEndIdx - 1,
          oldEndVnode := getOpt st.oldCh (st.oldEndIdx - 1),
          newStartIdx := st.newStartIdx + 1,
          newStartVnode := getOpt (st.newCh.set an (some (sc.bound an)))
            (st.newStartIdx + 1) } s1 := by
  have ham : an < sc.m := by
    have := hinv.hbn
    omega
  refine ⟨by omega, hinv.hbn, by omega, by have := hinv.hdn; omega, ?_, hinv.hib,
    hinv.hic, ?_, ?_, hinv.hlenO, ?_, ?_, ?_, hinv.hosv, ?_, ?_, ?_, ?_,
    hs1n, hs1q, hs1d⟩
  · show st.newStartIdx + 1 = ((an + 1 : Nat) : Int)
    rw [hinv.hia]
    push_cast
    ring
  · show st.oldEndIdx - 1 = ((dn - 1 : Nat) : Int) - 1
    rw [hinv.hid]
    have : ((dn - 1 : Nat) : Int) = (dn : Int) - 1 := by omega
    rw [this]
  · show (st.newCh.set an (some (sc.bound an))).length = sc.m
    simp [hinv.hlenN]
  · intro j hj
    by_cases hja : j = an
    · rw [hja, List.getElem?_set_self (by rw [hinv.hlenN]; exact ham)]
      have hcond : ¬(an + 1 ≤ an ∧ an < bn) := by omega
      rw [if_neg hcond]
    · rw [List.getElem?_set_ne (fun he => hja he.symm), hinv.hnew j hj]
      by_cases h2 : an + 1 ≤ j ∧ j < bn
      · rw [if_pos h2, if_pos ⟨by omega, h2.2⟩]
      · rw [if_neg h2, if_neg (by omega)]
  · intro i hi hci h1 h2
    rw [consumedB_step_left sc hwf an bn i ham, hpa] at hci
    rcases Bool.or_eq_true_iff.mp hci with h | h
    · exact hinv.holdC i hi h h1 (by omega)
    · have : i = dn - 1 := of_decide_eq_true h
      omega
  · intro i hi hui
    rw [consumedB_step_left sc hwf an bn i ham, hpa] at hui
    have h1 := Bool.or_eq_false_iff.mp hui
    have hne : i ≠ dn - 1 := of_decide_eq_false h1.2
    obtain ⟨g1, g2, g3⟩ := hinv.holdU i hi h1.1
    exact ⟨g1, by omega, g3⟩
  · rfl
  · intro _
    rfl
  · intro hlt
    show st.newEndVnode = getOpt (st.newCh.set an (some (sc.bound an))) st.newEndIdx
    rw [hinv.hnev (by omega), hinv.hib]
    have hbn1 : ((bn : Int) - 1) = ((bn - 1 : Nat) : Int) := by omega
    rw [hbn1, getOpt_natCast, getOpt_natCast,
      List.getElem?_set_ne (by omega : an ≠ bn - 1)]
  · intro km hkm2 j hj hj1 hj2
    exact hinv.hkm km hkm2 j hj (by omega) hj2

lemma inv_fallback (sc : Sc) (hwf : ScWF sc) (an bn cn dn N0 : Nat) (Q0 : List VNode)
    (st : LoopSt) (s : S) (hinv : UCInv sc an bn cn dn N0 Q0 st s)
    (ha : an < bn) (hc : cn < dn)
    (hnec : sc.p an ≠ cn) (hned : sc.p an ≠ dn - 1) (km : List (String × Int))
    (hkmP : ∀ j, j < sc.m → an ≤ j → j < bn →
      kmapLookup km (propOfOptKey ((sc.nAt j).key)) = some ((sc.p j : Int)))
    (s1 : S) (hs1n : s1.nextId = N0) (hs1q : s1.queue = Q0)
    (hs1d : s1.dom = domOf sc (an + 1) bn) :
    UCInv sc (an + 1) bn cn dn N0 Q0
      { st with
          oldCh := st.oldCh.set (sc.p an) none,
          newCh := st.newCh.set an (some (sc.bound an)),
          oldKeyToIdx := some km,
          newStartIdx := st.newStartIdx + 1,
          newStartVnode := getOpt (st.newCh.set an (some (sc.bound an)))
            (st.newStartIdx + 1) } s1 := by
  have ham : an < sc.m := by
    have := hinv.hbn
    omega
  have hup : consumedB sc an bn (sc.p an) = false :=
    consumedB_self_window sc hwf an bn an (le_refl _) ha ham
  obtain ⟨hwc, hwd, hslot⟩ := hinv.holdU (sc.p an) (hwf.hpr an ham) hup
  refine ⟨by omega, hinv.hbn, hinv.hcd, hinv.hdn, ?_, hinv.hib, hinv.hic, hinv.hid,
    ?_, ?_, ?_, ?_, ?_, ?_, ?_, ?_, ?_, ?_, hs1n, hs1q, hs1d⟩
  · show st.newStartIdx + 1 = ((an + 1 : Nat) : Int)
    rw [hinv.hia]
    push_cast
    ring
  · show (st.newCh.set an (some (sc.bound an))).length = sc.m
    simp [hinv.hlenN]
  · show (st.oldCh.set (sc.p an) none).length = sc.n
    simp [hinv.hlenO]
  · intro j hj
    by_cases hja : j = an
    · rw [hja, List.getElem?_set_self (by rw [hinv.hlenN]; exact ham)]
      have hcond : ¬(an + 1 ≤ an ∧ an < bn) := by omega
      rw [if_neg hcond]
    · rw [List.getElem?_set_ne (fun he => hja he.symm), hinv.hnew j hj]
      by_cases h2 : an + 1 ≤ j ∧ j < bn
      · rw [if_pos h2, if_pos ⟨by omega, h2.2⟩]
      · rw [if_neg h2, if_neg (by omega)]
  · intro i hi hci h1 h2
    rw [consumedB_step_left sc hwf an bn i ham] at hci
    by_cases hip : i = sc.p an
    · rw [hip, List.getElem?_set_self (by rw [hinv.hlenO]; exact hwf.hpr an ham)]
    · rw [List.getElem?_set_ne (fun he => hip he.symm)]
      rcases Bool.or_eq_true_iff.mp hci with h | h
      · exact hinv.holdC i hi h h1 h2
      · exact absurd (of_decide_eq_true h) hip
  · intro i hi hui
    rw [consumedB_step_left sc hwf an bn i ham] at hui
    have h1 := Bool.or_eq_false_iff.mp hui
    have hne : i ≠ sc.p an := of_decide_eq_false h1.2
    obtain ⟨g1, g2, g3⟩ := hinv.holdU i hi h1.1
    refine ⟨g1, g2, ?_⟩
    rw [List.getElem?_set_ne (fun he => hne he.symm)]
    exact g3
  · show st.oldStartVnode = getOpt (st.oldCh.set (sc.p an) none) st.oldStartIdx
    rw [hinv.hosv, hinv.hic, getOpt_natCast, getOpt_natCast,
      List.getElem?_set_ne (fun he => hnec he)]
  · show st.oldEndVnode = getOpt (st.oldCh.set (sc.p an) none) st.oldEndIdx
    rw [hinv.hoev, hinv.hid]
    have hdn1 : ((dn : Int) - 1) = ((dn - 1 : Nat) : Int) := by omega
    rw [hdn1, getOpt_natCast, getOpt_natCast,
      List.getElem?_set_ne (fun he => hned he)]
  · intro _
    rfl
  · intro hlt
    show st.newEndVnode = getOpt (st.newCh.set an (some (sc.bound an))) st.newEndIdx
    rw [hinv.hnev (by omega), hinv.hib]
    have hbn1 : ((bn : Int) - 1) = ((bn - 1 : Nat) : Int) := by omega
    rw [hbn1, getOpt_natCast, getOpt_natCast,
      List.getElem?_set_ne (by omega : an ≠ bn - 1)]
  · intro km2 hkm2 j hj hj1 hj2
    have : km2 = km := by
      injection hkm2 with h
      exact h.symm
    rw [this]
    exact hkmP j hj (by omega) hj2

/-- Building `createKeyToOldIdx` over the current old window: with
distinct key properties, looking up an unprocessed new child's key
returns exactly its matching old index. -/
lemma kmBuild (sc : Sc) (hwf : ScWF sc) (an bn cn dn : Nat)
    (oldCh : List (Option VNode)) (hdn : dn ≤ sc.n)
    (holdC : ∀ i, i < sc.n → consumedB sc an bn i = true →
      cn ≤ i → i < dn → oldCh[i]? = some none)
    (holdU : ∀ i, i < sc.n → consumedB sc an bn i = false →
      cn ≤ i ∧ i < dn ∧ oldCh[i]? = some (some (sc.oAt i))) :
    ∀ j, j < sc.m → an ≤ j → j < bn →
      kmapLookup (createKeyToOldIdx oldCh (cn : Int) ((dn : Int) - 1))
        (propOfOptKey ((sc.nAt j).key)) = some ((sc.p j : Int)) := by
  intro j hj hj1 hj2
  have hup : consumedB sc an bn (sc.p j) = false :=
    consumedB_self_window sc hwf an bn j hj1 hj2 hj
  obtain ⟨hwc, hwd, hslot⟩ := holdU (sc.p j) (hwf.hpr j hj) hup
  have hcount : (((dn : Int) - 1) + 1 - (cn : Int)).toNat = dn - cn := by omega
  rw [createKeyToOldIdx, hcount, ckLoop_lookup]
  obtain ⟨k, hkk⟩ := Option.isSome_iff_exists.mp
    (hwf.hoflat (sc.p j) (hwf.hpr j hj)).2.2.2.2
  have hkp : keyPropAt oldCh ((sc.p j : Nat) : Int)
      = some (propOfOptKey ((sc.nAt j).key)) := by
    simp only [keyPropAt]
    rw [getOpt_natCast, hslot]
    show ((sc.oAt (sc.p j)).key).map JsKey.toProp
      = some (propOfOptKey ((sc.nAt j).key))
    rw [hwf.hkeq j hj, hkk]
    rfl
  have hsome := lastMatch_isSome oldCh (propOfOptKey ((sc.nAt j).key)) (dn - cn)
    (cn : Int) ((sc.p j : Nat) : Int) (by omega) (by push_cast; omega) hkp
  obtain ⟨j0, hj0⟩ := Option.isSome_iff_exists.mp hsome
  obtain ⟨hge, hltb, hkpj0, _⟩ :=
    lastMatch_mem oldCh (propOfOptKey ((sc.nAt j).key)) (dn - cn) (cn : Int) j0 hj0
  have hj0nn : 0 ≤ j0 := by omega
  have hj0n : j0 = ((j0.toNat : Nat) : Int) := by omega
  have hi0d : j0.toNat < dn := by
    push_cast at hltb
    omega
  have hi0c : cn ≤ j0.toNat := by omega
  have hi0n : j0.toNat < sc.n := by omega
  have hij : j0.toNat = sc.p j := by
    rcases hci0 : consumedB sc an bn j0.toNat with _ | _
    · obtain ⟨_, _, hsl⟩ := holdU j0.toNat hi0n hci0
      rw [hj0n] at hkpj0
      simp only [keyPropAt] at hkpj0
      rw [getOpt_natCast, hsl] at hkpj0
      obtain ⟨k0, hkk0⟩ := Option.isSome_iff_exists.mp
        (hwf.hoflat j0.toNat hi0n).2.2.2.2
      have hk0P : k0.toProp = propOfOptKey ((sc.nAt j).key) := by
        have h2 : ((sc.oAt j0.toNat).key).map JsKey.toProp
            = some (propOfOptKey ((sc.nAt j).key)) := hkpj0
        rw [hkk0] at h2
        simpa using h2
      by_contra hne
      apply hwf.hkd j0.toNat (sc.p j) hi0n (hwf.hpr j hj) hne
      rw [hkk0, ← hwf.hkeq j hj]
      exact hk0P
    · have hsl := holdC j0.toNat hi0n hci0 hi0c hi0d
      rw [hj0n] at hkpj0
      simp only [keyPropAt] at hkpj0
      rw [getOpt_natCast, hsl] at hkpj0
      simp at hkpj0
  have hlm : lastMatch oldCh (propOfOptKey ((sc.nAt j).key)) (dn - cn) (cn : Int)
      = some ((sc.p j : Int)) := by
    rw [hj0, hj0n, hij]
  rw [hlm]
  rfl

lemma writeBack_id (l : List (Option VNode)) (i : Int) (w : VNode)
    (h : getOpt l i = some w) : writeBack l i w = l := by
  simp only [writeBack, h]
  rw [if_pos trivial]
  exact setAt_same l i w h

lemma elm_mem_es (sc : Sc) (hwf : ScWF sc) (i : Nat) (hi : i < sc.n) :
    sc.elm i ∈ sc.es := by
  simp only [Sc.elm]
  rw [List.getD_eq_getElem?_getD, List.getElem?_eq_getElem (by rw [hwf.hes]; exact hi)]
  simp only [Option.getD_some]
  exact List.getElem_mem _

lemma frameA (sc : Sc) (hwf : ScWF sc) (i : Nat) (hi : i < sc.n) :
    ∀ q ∈ sc.A, q.1 ≠ sc.parentElm ∧ sc.elm i ∉ q.2 := fun q hq =>
  ⟨(hwf.hfa q hq).1, (hwf.hfa q hq).2 (sc.elm i) (elm_mem_es sc hwf i hi)⟩

lemma frameB (sc : Sc) (hwf : ScWF sc) (i : Nat) (hi : i < sc.n) :
    ∀ q ∈ sc.B, q.1 ≠ sc.parentElm ∧ sc.elm i ∉ q.2 := fun q hq =>
  ⟨(hwf.hfb q hq).1, (hwf.hfb q hq).2 (sc.elm i) (elm_mem_es sc hwf i hi)⟩

/-- The four-pointer loop on a flat keyed permutation: from any state
satisfying the invariant, with fuel at least the combined window size
plus one, the loop terminates successfully in a state that satisfies
the invariant with the new window exhausted. -/
lemma updateLoop_perm (sc : Sc) (hwf : ScWF sc) (ctx : Ctx) (N0 : Nat) (Q0 : List VNode) :
    ∀ (fuel an bn cn dn : Nat) (st : LoopSt) (s : S),
      UCInv sc an bn cn dn N0 Q0 st s →
      (bn - an) + (dn - cn) + 1 ≤ fuel →
      ∃ (an2 cn2 dn2 : Nat) (st2 : LoopSt) (s2 : S),
        runM (updateLoop ctx fuel sc.parentElm st) s = (Except.ok st2, s2)
        ∧ UCInv sc an2 an2 cn2 dn2 N0 Q0 st2 s2 := by
  intro fuel
  induction fuel with
  | zero =>
    intro an bn cn dn st s hinv hf
    omega
  | succ fuel ih =>
    intro an bn cn dn st s hinv hf
    by_cases hcond : cn < dn ∧ an < bn
    · obtain ⟨hcd, hab⟩ := hcond
      have ham : an < sc.m := by
        have := hinv.hbn
        omega
      have hcn : cn < sc.n := by
        have := hinv.hdn
        omega
      have hdn1 : dn - 1 < sc.n := by
        have := hinv.hdn
        omega
      have hbm1 : bn - 1 < sc.m := by
        have := hinv.hbn
        omega
      have hcondT : st.oldStartIdx ≤ st.oldEndIdx ∧ st.newStartIdx ≤ st.newEndIdx := by
        rw [hinv.hic, hinv.hid, hinv.hia, hinv.hib]
        omega
      rcases fuel with _ | k
      · omega
      have hnsv : st.newStartVnode = some (sc.nAt an) := by
        rw [hinv.hnsv hab, hinv.hia, getOpt_natCast, hinv.hnew an ham,
          if_pos ⟨le_refl an, hab⟩]
        rfl
      have hnev : st.newEndVnode = some (sc.nAt (bn - 1)) := by
        rw [hinv.hnev hab, hinv.hib]
        have hcast : (bn : Int) - 1 = ((bn - 1 : Nat) : Int) := by omega
        rw [hcast, getOpt_natCast, hinv.hnew (bn - 1) hbm1,
          if_pos ⟨by omega, by omega⟩]
        rfl
      rw [updateLoop]
      rw [if_pos hcondT]
      dsimp only
      rcases hcons : consumedB sc an bn cn with _ | _
      · -- old start slot unconsumed
        have hslotO : getOpt st.oldCh ((cn : Nat) : Int) = some (sc.oAt cn) := by
          rw [getOpt_natCast, (hinv.holdU cn hcn hcons).2.2]
          rfl
        have hosv : st.oldStartVnode = some (sc.oAt cn) := by
          rw [hinv.hosv, hinv.hic]
          exact hslotO
        rcases hconsd : consumedB sc an bn (dn - 1) with _ | _
        · -- old end slot unconsumed
          have hcastd : (dn : Int) - 1 = ((dn - 1 : Nat) : Int) := by omega
          have hslotD : getOpt st.oldCh (((dn - 1 : Nat) : Nat) : Int)
              = some (sc.oAt (dn - 1)) := by
            rw [getOpt_natCast, (hinv.holdU (dn - 1) hdn1 hconsd).2.2]
            rfl
          have hoev : st.oldEndVnode = some (sc.oAt (dn - 1)) := by
            rw [hinv.hoev, hinv.hid, hcastd]
            exact hslotD
          rw [hosv, hoev, hnsv, hnev]
          dsimp only
          have helmc : (sc.oAt cn).elm = some (sc.elm cn) :=
            (hwf.hoflat cn hcn).2.2.2.1
          have helmd : (sc.oAt (dn - 1)).elm = some (sc.elm (dn - 1)) :=
            (hwf.hoflat (dn - 1) hdn1).2.2.2.1
          have hlow : ∀ i, i < cn → consumedB sc an bn i = true := by
            intro i hi
            rcases hci : consumedB sc an bn i with _ | _
            · obtain ⟨g1, _, _⟩ := hinv.holdU i (by omega) hci
              omega
            · rfl
          have hhigh : ∀ i, dn - 1 < i → i < sc.n → consumedB sc an bn i = true := by
            intro i h1 h2
            rcases hci : consumedB sc an bn i with _ | _
            · obtain ⟨_, g2, _⟩ := hinv.holdU i h2 hci
              omega
            · rfl
          have hdomC : s.dom = sc.A ++ [(sc.parentElm, childList sc an bn)] ++ sc.B :=
            hinv.hdom
          by_cases hpa : sc.p an = cn
          · -- branch 4: start-start match
            rw [sameVnode_flat_true sc hwf cn an hcn ham hpa, if_pos rfl]
            rw [runM_bind, patchVnode_flat ctx k (sc.oAt cn) (sc.nAt an)
              (hwf.hoflat cn hcn).1 (hwf.hoflat cn hcn).2.1
              (hwf.hnflat an ham).1 (hwf.hnflat an ham).2.1 (hwf.hnflat an ham).2.2
              (hwf.hvd cn an hcn ham) s]
            dsimp only
            rw [helmc]
            rw [hinv.hic, hinv.hia]
            rw [writeBack_id st.oldCh ((cn : Nat) : Int) (sc.oAt cn) hslotO]
            have hslotNa : getOpt st.newCh ((an : Nat) : Int) = some (sc.nAt an) := by
              rw [getOpt_natCast, hinv.hnew an ham, if_pos ⟨le_refl an, hab⟩]
              rfl
            rw [writeBack_eq_set st.newCh an (sc.nAt an)
              ((sc.nAt an).withElm (some (sc.elm cn))) hslotNa (by simp)]
            have hbnd : (sc.nAt an).withElm (some (sc.elm cn)) = sc.bound an := by
              rw [Sc.bound, hpa]
            rw [hbnd]
            rw [← hinv.hic, ← hinv.hia, ← hoev, ← hnev]
            exact ih (an + 1) bn (cn + 1) dn _ s
              (inv_match_start sc hwf an bn cn dn N0 Q0 st s hinv hab hcd hcons hpa)
              (by omega)
          · have hfa4 : sameVnode (sc.oAt cn) (sc.nAt an) = false :=
              sameVnode_flat_false sc hwf cn an hcn ham hpa
            rw [hfa4, if_neg (by simp)]
            by_cases hpb : sc.p (bn - 1) = dn - 1
            · -- branch 5: end-end match
              rw [sameVnode_flat_true sc hwf (dn - 1) (bn - 1) hdn1 hbm1 hpb,
                if_pos rfl]
              rw [runM_bind, patchVnode_flat ctx k (sc.oAt (dn - 1)) (sc.nAt (bn - 1))
                (hwf.hoflat (dn - 1) hdn1).1 (hwf.hoflat (dn - 1) hdn1).2.1
                (hwf.hnflat (bn - 1) hbm1).1 (hwf.hnflat (bn - 1) hbm1).2.1
                (hwf.hnflat (bn - 1) hbm1).2.2
                (hwf.hvd (dn - 1) (bn - 1) hdn1 hbm1) s]
              dsimp only
              rw [helmd]
              rw [hinv.hid, hinv.hib]
              have hcastb : (bn : Int) - 1 = ((bn - 1 : Nat) : Int) := by omega
              rw [hcastd, hcastb]
              rw [writeBack_id st.oldCh (((dn - 1 : Nat) : Nat) : Int)
                (sc.oAt (dn - 1)) hslotD]
              have hslotNb : getOpt st.newCh (((bn - 1 : Nat) : Nat) : Int)
                  = some (sc.nAt (bn - 1)) := by
                rw [getOpt_natCast, hinv.hnew (bn - 1) hbm1,
                  if_pos ⟨by omega, by omega⟩]
                rfl
              rw [writeBack_eq_set st.newCh (bn - 1) (sc.nAt (bn - 1))
                ((sc.nAt (bn - 1)).withElm (some (sc.elm (dn - 1)))) hslotNb (by simp)]
              have hbnd : (sc.nAt (bn - 1)).withElm (some (sc.elm (dn - 1)))
                  = sc.bound (bn - 1) := by
                rw [Sc.bound, hpb]
              rw [hbnd]
              rw [← hcastd, ← hcastb, ← hinv.hid, ← hinv.hib, ← hosv, ← hnsv]
              exact ih an (bn - 1) cn (dn - 1) _ s
                (inv_match_end sc hwf an bn cn dn N0 Q0 st s hinv hab hcd hconsd hpb)
                (by omega)
            · have hfa5 : sameVnode (sc.oAt (dn - 1)) (sc.nAt (bn - 1)) = false :=
                sameVnode_flat_false sc hwf (dn - 1) (bn - 1) hdn1 hbm1 hpb
              rw [hfa5, if_neg (by simp)]
              by_cases hpc : sc.p (bn - 1) = cn
              · -- branch 6: start moved right
                rw [sameVnode_flat_true sc hwf cn (bn - 1) hcn hbm1 hpc, if_pos rfl]
                rw [runM_bind, patchVnode_flat ctx k (sc.oAt cn) (sc.nAt (bn - 1))
                  (hwf.hoflat cn hcn).1 (hwf.hoflat cn hcn).2.1
                  (hwf.hnflat (bn - 1) hbm1).1 (hwf.hnflat (bn - 1) hbm1).2.1
                  (hwf.hnflat (bn - 1) hbm1).2.2
                  (hwf.hvd cn (bn - 1) hcn hbm1) s]
                dsimp only
                rw [helmc]
                rw [hinv.hic, hinv.hib]
                have hcastb : (bn : Int) - 1 = ((bn - 1 : Nat) : Int) := by omega
                rw [hcastb]
                rw [writeBack_id st.oldCh ((cn : Nat) : Int) (sc.oAt cn) hslotO]
                have hslotNb : getOpt st.newCh (((bn - 1 : Nat) : Nat) : Int)
                    = some (sc.nAt (bn - 1)) := by
                  rw [getOpt_natCast, hinv.hnew (bn - 1) hbm1,
                    if_pos ⟨by omega, by omega⟩]
                  rfl
                rw [writeBack_eq_set st.newCh (bn - 1) (sc.nAt (bn - 1))
                  ((sc.nAt (bn - 1)).withElm (some (sc.elm cn))) hslotNb (by simp)]
                have hbnd : (sc.nAt (bn - 1)).withElm (some (sc.elm cn))
                    = sc.bound (bn - 1) := by
                  rw [Sc.bound, hpc]
                rw [hbnd]
                rw [helmd]
                dsimp only
                have hmemd : sc.elm (dn - 1) ∈ childList sc an bn := by
                  have hmm := mem_midL_of_unconsumed sc an bn (dn - 1) hdn1 hconsd
                  simp only [childList]
                  exact List.mem_append.mpr (Or.inl (List.mem_append.mpr (Or.inr hmm)))
                rw [runM_bind, runM_bind, runM_nextSibling_frame sc.parentElm
                  sc.A sc.B (childList sc an bn) (sc.elm (dn - 1)) s hdomC
                  (frameA sc hwf (dn - 1) hdn1) hmemd]
                dsimp only
                rw [nextAfter_at_max sc hwf an bn dn hdn1 hinv.hbn (by omega)
                  hconsd hhigh]
                rcases hbk : backL sc bn with _ | ⟨r, tl⟩
                · simp only [List.head?_nil]
                  rw [runM_insertBefore_frame sc.parentElm sc.A sc.B
                    (childList sc an bn) (sc.elm cn) none s hdomC
                    (frameA sc hwf cn hcn) (frameB sc hwf cn hcn)
                    (fun r2 hr2 => Option.noConfusion hr2)]
                  dsimp only
                  rw [childList_move_right_none sc hwf an bn cn hab hinv.hbn hcn
                    hcons hpc hbk]
                  rw [← hcastb, ← hinv.hic, ← hinv.hib, ← hoev, ← hnsv]
                  refine ih an (bn - 1) (cn + 1) dn _ _
                    (inv_move_right sc hwf an bn cn dn N0 Q0 st s hinv hab hcd hcons hpc
                      _ ?_ ?_ ?_)
                    (by omega)
                  · exact hinv.hnid
                  · exact hinv.hq
                  · rfl
                · simp only [List.head?_cons]
                  have href6 : ∀ r2, (some r : Option Nat) = some r2 →
                      r2 ∈ (childList sc an bn).erase (sc.elm cn) := by
                    intro r2 hr2
                    injection hr2 with hr3
                    rw [← hr3]
                    rw [childList_erase_unconsumed sc hwf an bn cn hcn (by omega) hcons]
                    refine List.mem_append.mpr (Or.inr (List.mem_append.mpr (Or.inr ?_)))
                    rw [hbk]
                    exact List.mem_cons_self r tl
                  rw [runM_insertBefore_frame sc.parentElm sc.A sc.B
                    (childList sc an bn) (sc.elm cn) (some r) s hdomC
                    (frameA sc hwf cn hcn) (frameB sc hwf cn hcn) href6]
                  dsimp only
                  rw [childList_move_right_some sc hwf an bn cn hab hinv.hbn hcn
                    hcons hpc r tl hbk]
                  rw [← hcastb, ← hinv.hic, ← hinv.hib, ← hoev, ← hnsv]
                  refine ih an (bn - 1) (cn + 1) dn _ _
                    (inv_move_right sc hwf an bn cn dn N0 Q0 st s hinv hab hcd hcons hpc
                      _ ?_ ?_ ?_)
                    (by omega)
                  · exact hinv.hnid
                  · exact hinv.hq
                  · rfl
              · have hfa6 : sameVnode (sc.oAt cn) (sc.nAt (bn - 1)) = false :=
                  sameVnode_flat_false sc hwf cn (bn - 1) hcn hbm1 hpc
                rw [hfa6, if_neg (by simp)]
                by_cases hpd : sc.p an = dn - 1
                · -- branch 7: end moved left
                  rw [sameVnode_flat_true sc hwf (dn - 1) an hdn1 ham hpd, if_pos rfl]
                  rw [runM_bind, patchVnode_flat ctx k (sc.oAt (dn - 1)) (sc.nAt an)
                    (hwf.hoflat (dn - 1) hdn1).1 (hwf.hoflat (dn - 1) hdn1).2.1
                    (hwf.hnflat an ham).1 (hwf.hnflat an ham).2.1 (hwf.hnflat an ham).2.2
                    (hwf.hvd (dn - 1) an hdn1 ham) s]
                  dsimp only
                  rw [helmd]
                  rw [hinv.hid, hinv.hia, hcastd]
                  rw [writeBack_id st.oldCh (((dn - 1 : Nat) : Nat) : Int)
                    (sc.oAt (dn - 1)) hslotD]
                  have hslotNa : getOpt st.newCh ((an : Nat) : Int)
                      = some (sc.nAt an) := by
                    rw [getOpt_natCast, hinv.hnew an ham, if_pos ⟨le_refl an, hab⟩]
                    rfl
                  rw [writeBack_eq_set st.newCh an (sc.nAt an)
                    ((sc.nAt an).withElm (some (sc.elm (dn - 1)))) hslotNa (by simp)]
                  have hbnd : (sc.nAt an).withElm (some (sc.elm (dn - 1)))
                      = sc.bound an := by
                    rw [Sc.bound, hpd]
                  rw [hbnd]
                  rw [helmc]
                  dsimp only
                  have href7 : ∀ r, (some (sc.elm cn) : Option Nat) = some r →
                      r ∈ (childList sc an bn).erase (sc.elm (dn - 1)) := by
                    intro r hr
                    injection hr with hr2
                    rw [← hr2]
                    rw [childList_erase_unconsumed sc hwf an bn (dn - 1) hdn1
                      (by omega) hconsd]
                    refine List.mem_append.mpr (Or.inr (List.mem_append.mpr (Or.inl ?_)))
                    apply List.mem_map_of_mem
                    simp only [List.mem_filter, List.mem_range]
                    refine ⟨hcn, ?_⟩
                    simp [hcons]
                    omega
                  rw [runM_bind, runM_insertBefore_frame sc.parentElm sc.A sc.B
                    (childList sc an bn) (sc.elm (dn - 1)) (some (sc.elm cn)) s hdomC
                    (frameA sc hwf (dn - 1) hdn1) (frameB sc hwf (dn - 1) hdn1) href7]
                  dsimp only
                  have hmv : listInsertBefore
                      ((childList sc an bn).erase (sc.elm (dn - 1)))
                      (sc.elm (dn - 1)) (sc.elm cn) = childList sc (an + 1) bn := by
                    have hgen := childList_move_to_front sc hwf an bn cn hab hinv.hbn
                      hcn hcons hlow (hpd ▸ hdn1) (hpd ▸ hconsd) (by omega)
                    rw [hpd] at hgen
                    exact hgen
                  rw [hmv]
                  rw [← hcastd, ← hinv.hid, ← hinv.hia, ← hosv, ← hnev]
                  refine ih (an + 1) bn cn (dn - 1) _ _
                    (inv_move_left sc hwf an bn cn dn N0 Q0 st s hinv hab hcd hpd
                      _ ?_ ?_ ?_)
                    (by omega)
                  · exact hinv.hnid
                  · exact hinv.hq
                  · rfl
                · have hfa7 : sameVnode (sc.oAt (dn - 1)) (sc.nAt an) = false :=
                    sameVnode_flat_false sc hwf (dn - 1) an hdn1 ham hpd
                  rw [hfa7, if_neg (by simp)]
                  -- branch 8: keyed fallback
                  have hpan : sc.p an < sc.n := hwf.hpr an ham
                  have hupan : consumedB sc an bn (sc.p an) = false :=
                    consumedB_self_window sc hwf an bn an (le_refl an) hab ham
                  obtain ⟨hwc, hwd, hslotP⟩ := hinv.holdU (sc.p an) hpan hupan
                  have hkmP : ∀ km, (match st.oldKeyToIdx with
                        | some m2 => m2
                        | none => createKeyToOldIdx st.oldCh st.oldStartIdx st.oldEndIdx)
                        = km →
                      ∀ j, j < sc.m → an ≤ j → j < bn →
                        kmapLookup km (propOfOptKey ((sc.nAt j).key))
                          = some ((sc.p j : Int)) := by
                    intro km hkm j hj hj1 hj2
                    rcases hmk : st.oldKeyToIdx with _ | km0
                    · rw [hmk] at hkm
                      dsimp only at hkm
                      rw [← hkm]
                      rw [hinv.hic, hinv.hid]
                      exact kmBuild sc hwf an bn cn dn st.oldCh hinv.hdn
                        hinv.holdC hinv.holdU j hj hj1 hj2
                    · rw [hmk] at hkm
                      dsimp only at hkm
                      rw [← hkm]
                      exact hinv.hkm km0 hmk j hj hj1 hj2
                  rw [hkmP _ rfl an ham (le_refl an) hab]
                  dsimp only
                  have hidxslot : getOpt st.oldCh ((sc.p an : Nat) : Int)
                      = some (sc.oAt (sc.p an)) := by
                    rw [getOpt_natCast, hslotP]
                    rfl
                  rw [hidxslot]
                  dsimp only
                  rw [if_neg (by
                    rw [hwf.hseq an ham]
                    exact fun hcon => hcon rfl)]
                  rw [runM_bind, patchVnode_flat ctx k (sc.oAt (sc.p an)) (sc.nAt an)
                    (hwf.hoflat (sc.p an) hpan).1 (hwf.hoflat (sc.p an) hpan).2.1
                    (hwf.hnflat an ham).1 (hwf.hnflat an ham).2.1 (hwf.hnflat an ham).2.2
                    (hwf.hvd (sc.p an) an hpan ham) s]
                  dsimp only
                  have helmp : (sc.oAt (sc.p an)).elm = some (sc.elm (sc.p an)) :=
                    (hwf.hoflat (sc.p an) hpan).2.2.2.1
                  rw [helmp]
                  rw [writeBack_id st.oldCh ((sc.p an : Nat) : Int)
                    (sc.oAt (sc.p an)) hidxslot]
                  rw [setAt_natCast]
                  rw [hinv.hia]
                  have hslotNa : getOpt st.newCh ((an : Nat) : Int)
                      = some (sc.nAt an) := by
                    rw [getOpt_natCast, hinv.hnew an ham, if_pos ⟨le_refl an, hab⟩]
                    rfl
                  rw [writeBack_eq_set st.newCh an (sc.nAt an)
                    ((sc.nAt an).withElm (some (sc.elm (sc.p an)))) hslotNa (by simp)]
                  have hbnd : (sc.nAt an).withElm (some (sc.elm (sc.p an)))
                      = sc.bound an := rfl
                  rw [hbnd]
                  rw [helmc]
                  dsimp only
                  have href8 : ∀ r, (some (sc.elm cn) : Option Nat) = some r →
                      r ∈ (childList sc an bn).erase (sc.elm (sc.p an)) := by
                    intro r hr
                    injection hr with hr2
                    rw [← hr2]
                    rw [childList_erase_unconsumed sc hwf an bn (sc.p an) hpan
                      (by omega) hupan]
                    refine List.mem_append.mpr (Or.inr (List.mem_append.mpr (Or.inl ?_)))
                    apply List.mem_map_of_mem
                    simp only [List.mem_filter, List.mem_range]
                    refine ⟨hcn, ?_⟩
                    simp [hcons]
                    omega
                  rw [runM_bind, runM_insertBefore_frame sc.parentElm sc.A sc.B
                    (childList sc an bn) (sc.elm (sc.p an)) (some (sc.elm cn)) s hdomC
                    (frameA sc hwf (sc.p an) hpan) (frameB sc hwf (sc.p an) hpan) href8]
                  dsimp only
                  rw [childList_move_to_front sc hwf an bn cn hab hinv.hbn hcn
                    hcons hlow hpan hupan (by omega)]
                  rw [← hinv.hia, ← hosv, ← hoev, ← hnev]
                  refine ih (an + 1) bn cn dn _ _
                    (inv_fallback sc hwf an bn cn dn N0 Q0 st s hinv hab hcd
                      (by omega) (by omega) _ (hkmP _ rfl)
                      _ ?_ ?_ ?_)
                    (by omega)
                  · exact hinv.hnid
                  · exact hinv.hq
                  · rfl
        · -- old end slot consumed: skip from the right
          have hoevN : st.oldEndVnode = none := by
            rw [hinv.hoev, hinv.hid]
            have hcastd : (dn : Int) - 1 = ((dn - 1 : Nat) : Int) := by omega
            rw [hcastd, getOpt_natCast,
              hinv.holdC (dn - 1) hdn1 hconsd (by omega) (by omega)]
            rfl
          rw [hosv, hoevN]
          dsimp only
          rw [← hosv]
          exact ih an bn cn (dn - 1) _ s
            (inv_skip_right sc an bn cn dn N0 Q0 st s hinv hcd hconsd) (by omega)
      · -- old start slot consumed: skip from the left
        have hosvN : st.oldStartVnode = none := by
          rw [hinv.hosv, hinv.hic, getOpt_natCast,
            hinv.holdC cn hcn hcons (le_refl cn) hcd]
          rfl
        rw [hosvN]
        dsimp only
        exact ih an bn (cn + 1) dn _ s
          (inv_skip_left sc an bn cn dn N0 Q0 st s hinv hcd hcons) (by omega)
    · -- loop test false: exit with the new window exhausted
      have hane := exit_new_done sc hwf an bn cn dn N0 Q0 st s hinv hcond
      subst hane
      have hexit : ¬(st.oldStartIdx ≤ st.oldEndIdx ∧ st.newStartIdx ≤ st.newEndIdx) := by
        rw [hinv.hic, hinv.hid, hinv.hia, hinv.hib]
        omega
      refine ⟨an, cn, dn, st, s, ?_, hinv⟩
      rw [updateLoop]
      rw [if_neg hexit, runM_pure]

/-! ## The `updateChildren` wrapper for permutation scenarios (entry
invariant, exit extraction, and the end-to-end reordering theorem) -/

lemma consumedB_init (sc : Sc) (i : Nat) : consumedB sc 0 sc.m i = false := by
  simp only [consumedB, decide_eq_false_iff_not]
  rintro ⟨j, hj, _, hor⟩
  omega

lemma news_getElemQ (sc : Sc) (j : Nat) (hj : j < sc.m) :
    sc.news[j]? = some (sc.nAt j) := by
  rw [List.getElem?_eq_getElem hj]
  simp only [Sc.nAt]
  rw [List.getD_eq_getElem?_getD, List.getElem?_eq_getElem hj]
  rfl

lemma olds_getElemQ (sc : Sc) (i : Nat) (hi : i < sc.n) :
    sc.olds[i]? = some (sc.oAt i) := by
  rw [List.getElem?_eq_getElem hi]
  simp only [Sc.oAt]
  rw [List.getD_eq_getElem?_getD, List.getElem?_eq_getElem hi]
  rfl

/-- The loop invariant holds at `updateChildren`'s entry state. -/
lemma init_inv (sc : Sc) (hwf : ScWF sc) (s : S)
    (hdom0 : s.dom = sc.A ++ [(sc.parentElm, sc.es)] ++ sc.B) :
    UCInv sc 0 sc.m 0 sc.n s.nextId s.queue
      { oldCh := sc.olds.map some, newCh := sc.news.map some,
        oldStartIdx := 0, newStartIdx := 0,
        oldEndIdx := ((sc.olds.map some).length : Int) - 1,
        newEndIdx := ((sc.news.map some).length : Int) - 1,
        oldStartVnode := getOpt (sc.olds.map some) 0,
        oldEndVnode := getOpt (sc.olds.map some) (((sc.olds.map some).length : Int) - 1),
        newStartVnode := getOpt (sc.news.map some) 0,
        newEndVnode := getOpt (sc.news.map some) (((sc.news.map some).length : Int) - 1),
        oldKeyToIdx := none } s := by
  refine ⟨Nat.zero_le _, le_refl _, Nat.zero_le _, le_refl _, by simp, by simp [Sc.m],
    by simp, by simp [Sc.n], by simp [Sc.m], by simp [Sc.n], ?_, ?_, ?_,
    rfl, rfl, fun _ => rfl, fun _ => rfl, ?_, rfl, rfl, ?_⟩
  · intro j hj
    dsimp only
    rw [if_pos ⟨Nat.zero_le j, hj⟩]
    rw [List.getElem?_map, news_getElemQ sc j hj]
    rfl
  · intro i hi hci
    rw [consumedB_init sc i] at hci
    exact absurd hci (by simp)
  · intro i hi _
    refine ⟨Nat.zero_le i, hi, ?_⟩
    dsimp only
    rw [List.getElem?_map, olds_getElemQ sc i hi]
    rfl
  · intro km h
    exact Option.noConfusion h
  · rw [hdom0]
    simp only [domOf]
    have hmid : midIdx sc 0 sc.m = List.range sc.n := by
      rw [midIdx, List.filter_eq_self]
      intro x _
      simp [consumedB_init sc x]
    have hcl : childList sc 0 sc.m = sc.es := by
      simp only [childList, midL, hmid, frontL, backL, List.range_zero, List.map_nil,
        Nat.sub_self, List.range'_zero, List.nil_append, List.append_nil, Sc.elm]
      have h2 := map_getD_range sc.es
      rw [hwf.hes] at h2
      exact h2
    rw [hcl]

/-- At loop exit the middle segment is empty, so the parent's children
are the full new-order host list. -/
lemma childList_exit (sc : Sc) (hwf : ScWF sc) (an2 : Nat) (hbn : an2 ≤ sc.m) :
    childList sc an2 an2 = (List.range sc.m).map (fun j => sc.elm (sc.p j)) := by
  have hmid : midIdx sc an2 an2 = [] := by
    rw [midIdx, List.filter_eq_nil_iff]
    intro x hx
    simp [all_consumed_at_exit sc hwf an2 x (List.mem_range.mp hx)]
  simp only [childList, midL, hmid, List.map_nil, List.append_nil]
  exact front_back_full sc an2 hbn

/-- At loop exit every new slot holds the rebound vnode. -/
lemma exit_newCh (sc : Sc) (an2 cn2 dn2 N0 : Nat) (Q0 : List VNode)
    (st2 : LoopSt) (s2 : S) (hinv2 : UCInv sc an2 an2 cn2 dn2 N0 Q0 st2 s2) :
    st2.newCh = (List.range sc.m).map (fun j => some (sc.bound j)) := by
  apply List.ext_getElem?
  intro i
  by_cases hi : i < sc.m
  · rw [hinv2.hnew i hi, if_neg (by omega)]
    rw [List.getElem?_map, List.getElem?_range hi]
    rfl
  · rw [List.getElem?_eq_none (by rw [hinv2.hlenN]; omega),
      List.getElem?_eq_none (by simp only [List.length_map, List.length_range]; omega)]

/-- The reordered host list is a permutation of the original child
list: every live node is reused exactly once. -/
lemma newOrder_perm (sc : Sc) (hwf : ScWF sc) :
    ((List.range sc.m).map (fun j => sc.elm (sc.p j))).Perm sc.es := by
  have hpl : ((List.range sc.m).map sc.p).Nodup := by
    apply List.Nodup.map_on ?_ (List.nodup_range sc.m)
    intro x hx y hy he
    exact hwf.hpi x y (List.mem_range.mp hx) (List.mem_range.mp hy) he
  have hsub : ((List.range sc.m).map sc.p) ⊆ List.range sc.n := by
    intro x hx
    obtain ⟨j, hj, hje⟩ := List.mem_map.mp hx
    exact List.mem_range.mpr (hje ▸ hwf.hpr j (List.mem_range.mp hj))
  have hsp : List.Subperm ((List.range sc.m).map sc.p) (List.range sc.n) :=
    List.Nodup.subperm hpl hsub
  have hperm : ((List.range sc.m).map sc.p).Perm (List.range sc.n) := by
    apply hsp.perm_of_length_le
    have hm := hwf.hm
    simp only [List.length_map, List.length_range]
    omega
  have h1 : (List.range sc.m).map (fun j => sc.elm (sc.p j))
      = ((List.range sc.m).map sc.p).map sc.elm := by
    rw [List.map_map]
    rfl
  have h2 : (List.range sc.n).map sc.elm = sc.es := by
    have h3 := map_getD_range sc.es
    rw [hwf.hes] at h3
    exact h3
  rw [h1, ← h2]
  exact hperm.map sc.elm

/-- **C1.** For every call to `updateChildren` where the new child list
is a permutation of the old keyed child list — same keys and selectors,
no additions or removals, captured by a wellformed reordering scenario
`sc` whose bijection `p` sends each new position to the old position
with the equal key — the call succeeds, the parent's resulting live
children are exactly the previously bound host nodes arranged in the
new list's order, that list is a permutation of the original child
list (every live node reused), no new host node is created (`nextId`
is untouched), each new vnode's `elm` is the very host node the old
vnode with the equal key was bound to, and every other host-tree entry
is unchanged. -/
theorem claim_C1_keyed_permutation_reorder (sc : Sc) (hwf : ScWF sc) (ctx : Ctx)
    (fuel : Nat) (s : S) (hfuel : sc.m + sc.n + 2 ≤ fuel)
    (hdom0 : s.dom = sc.A ++ [(sc.parentElm, sc.es)] ++ sc.B) :
    ∃ (res : List (Option VNode) × List (Option VNode)) (s2 : S),
      runM (updateChildren ctx fuel sc.parentElm (sc.olds.map some)
        (sc.news.map some)) s = (Except.ok res, s2)
      ∧ res.2 = (List.range sc.m).map (fun j => some (sc.bound j))
      ∧ domLookup s2.dom sc.parentElm
          = some ((List.range sc.m).map (fun j => sc.elm (sc.p j)))
      ∧ ((List.range sc.m).map (fun j => sc.elm (sc.p j))).Perm sc.es
      ∧ (∀ q, q ≠ sc.parentElm → domLookup s2.dom q = domLookup s.dom q)
      ∧ s2.nextId = s.nextId
      ∧ s2.queue = s.queue := by
  rcases fuel with _ | F
  · omega
  have hinv0 := init_inv sc hwf s hdom0
  obtain ⟨an2, cn2, dn2, st2, s2, hrun, hinv2⟩ :=
    updateLoop_perm sc hwf ctx s.nextId s.queue F 0 sc.m 0 sc.n
      { oldCh := sc.olds.map some, newCh := sc.news.map some,
        oldStartIdx := 0, newStartIdx := 0,
        oldEndIdx := ((sc.olds.map some).length : Int) - 1,
        newEndIdx := ((sc.news.map some).length : Int) - 1,
        oldStartVnode := getOpt (sc.olds.map some) 0,
        oldEndVnode := getOpt (sc.olds.map some) (((sc.olds.map some).length : Int) - 1),
        newStartVnode := getOpt (sc.news.map some) 0,
        newEndVnode := getOpt (sc.news.map some) (((sc.news.map some).length : Int) - 1),
        oldKeyToIdx := none } s hinv0 (by omega)
  refine ⟨(st2.oldCh, st2.newCh), s2, ?_,
    exit_newCh sc an2 cn2 dn2 s.nextId s.queue st2 s2 hinv2, ?_,
    newOrder_perm sc hwf, ?_, hinv2.hnid, hinv2.hq⟩
  · rw [updateChildren]
    rw [runM_bind, hrun]
    dsimp only
    have hc1 : ¬ st2.newStartIdx ≤ st2.newEndIdx := by
      rw [hinv2.hia, hinv2.hib]
      omega
    rw [if_neg hc1, runM_bind, runM_pure]
    dsimp only
    by_cases hc2 : st2.oldStartIdx ≤ st2.oldEndIdx
    · rw [if_pos hc2, runM_bind]
      have hrm : runM (removeVnodes ctx.cbs sc.parentElm st2.oldCh
          st2.oldStartIdx st2.oldEndIdx) s2 = (Except.ok (), s2) := by
        rw [removeVnodes]
        apply rvLoop_noop
        intro i h1 h2
        have hic := hinv2.hic
        have hid := hinv2.hid
        have hcd := hinv2.hcd
        have hdnn := hinv2.hdn
        rw [hic] at h1
        rw [hic, hid] at h2
        have h0 : (0 : Int) ≤ i := le_trans (Int.natCast_nonneg cn2) h1
        have hiq : i = ((i.toNat : Nat) : Int) := (Int.toNat_of_nonneg h0).symm
        have hlow : cn2 ≤ i.toNat := by omega
        have hhigh : i.toNat < dn2 := by omega
        have hcons : consumedB sc an2 an2 i.toNat = true :=
          all_consumed_at_exit sc hwf an2 i.toNat (by omega)
        have hslot := hinv2.holdC i.toNat (by omega) hcons hlow hhigh
        rw [hiq, getOpt_natCast, hslot]
        rfl
      rw [hrm]
      dsimp only
      rw [runM_pure]
    · rw [if_neg hc2, runM_bind, runM_pure]
      dsimp only
      rw [runM_pure]
  · rw [hinv2.hdom]
    simp only [domOf]
    rw [childList_exit sc hwf an2 hinv2.hbn]
    exact domLookup_frame_self sc.A sc.B sc.parentElm _ (fun q hq => (hwf.hfa q hq).1)
  · intro q hq
    rw [hinv2.hdom, hdom0]
    simp only [domOf]
    exact domLookup_frame_other sc.A sc.B sc.parentElm _ _ q hq

/-- A concrete two-child keyed reversal: old children keyed `"a"`, `"b"`
bound to host nodes `5`, `6`; new children list them in reverse. -/
def scW : Sc :=
  ⟨0,
   [VNode.mk (some "span") (some (.str "a")) none none none (some 5) 1,
    VNode.mk (some "span") (some (.str "b")) none none none (some 6) 2],
   [VNode.mk (some "span") (some (.str "b")) none none none none 3,
    VNode.mk (some "span") (some (.str "a")) none none none none 4],
   [5, 6],
   fun j => 1 - j,
   [], []⟩

def ctxW : Ctx := ⟨⟨0, 0, 0, 0, 0, 0⟩, false, false⟩

def sW : S := ⟨7, [(0, [5, 6])], [], []⟩

lemma scW_wf : ScWF scW := by
  refine ⟨rfl, rfl, by decide, ?_, ?_, ?_, ?_, ?_, ?_, ?_, ?_, ?_, ?_⟩
  · intro j hj
    have hjn : j < 2 := hj
    show 1 - j < 2
    omega
  · intro j1 j2 h1 h2 h3
    have h1n : j1 < 2 := h1
    have h2n : j2 < 2 := h2
    have h3n : 1 - j1 = 1 - j2 := h3
    omega
  · intro j hj
    have hjn : j < 2 := hj
    rcases j with _ | _ | j
    · decide
    · decide
    · omega
  · intro j hj
    have hjn : j < 2 := hj
    rcases j with _ | _ | j
    · decide
    · decide
    · omega
  · intro i hi
    have hin : i < 2 := hi
    rcases i with _ | _ | i
    · exact ⟨rfl, rfl, rfl, rfl, rfl⟩
    · exact ⟨rfl, rfl, rfl, rfl, rfl⟩
    · omega
  · intro j hj
    have hjn : j < 2 := hj
    rcases j with _ | _ | j
    · exact ⟨rfl, rfl, rfl⟩
    · exact ⟨rfl, rfl, rfl⟩
    · omega
  · intro i j hi hj
    have hin : i < 2 := hi
    have hjn : j < 2 := hj
    rcases i with _ | _ | i
    · rcases j with _ | _ | j
      · decide
      · decide
      · omega
    · rcases j with _ | _ | j
      · decide
      · decide
      · omega
    · omega
  · intro i1 i2 h1 h2 hne
    have h1n : i1 < 2 := h1
    have h2n : i2 < 2 := h2
    rcases i1 with _ | _ | i1
    · rcases i2 with _ | _ | i2
      · exact absurd rfl hne
      · decide
      · omega
    · rcases i2 with _ | _ | i2
      · decide
      · exact absurd rfl hne
      · omega
    · omega
  · intro q hq
    exact absurd hq (List.not_mem_nil q)
  · intro q hq
    exact absurd hq (List.not_mem_nil q)

/-- Witness: the two-child keyed reversal runs to completion with the
parent's children reversed to `[6, 5]` and both old host nodes reused. -/
theorem claim_C1_keyed_permutation_reorder_witness :
    ∃ (res : List (Option VNode) × List (Option VNode)) (s2 : S),
      runM (updateChildren ctxW 6 scW.parentElm (scW.olds.map some)
        (scW.news.map some)) sW = (Except.ok res, s2)
      ∧ res.2 = (List.range scW.m).map (fun j => some (scW.bound j))
      ∧ domLookup s2.dom scW.parentElm
          = some ((List.range scW.m).map (fun j => scW.elm (scW.p j)))
      ∧ ((List.range scW.m).map (fun j => scW.elm (scW.p j))).Perm scW.es
      ∧ (∀ q, q ≠ scW.parentElm → domLookup s2.dom q = domLookup sW.dom q)
      ∧ s2.nextId = sW.nextId
      ∧ s2.queue = sW.queue :=
  claim_C1_keyed_permutation_reorder scW scW_wf ctxW 6 sW (by decide) rfl

end Snabbdom
